import Mathlib

/-!
# MEICA / CNN network function: header codec, assembler and chunk synthesis

A shallow embedding of `src/emulation/meica_vnf_utils.{hpp,cpp}`,
`src/emulation/meica_vnf.cpp` and `src/emulation/cnn_vnf.cpp`.

Conventions of the embedding:

* a byte is a `Nat`; every store reduces the stored value modulo `256`;
* a `uint16_t` is a `Nat` reduced modulo `65536` wherever the C++ code converts to it;
* the host is little-endian (the in-memory header type of the source is built from
  `rte_le16_t`), so `rte_cpu_to_be_16` swaps the two bytes of a half-word;
* the packet data of an `rte_mbuf` is the list of its `data_len` bytes, starting at the
  address `rte_pktmbuf_mtod` returns;
* `assert` failures, `rte_exit` and reads outside the packet data are the `none` result of
  the functions that can reach them.
-/

namespace meica

/-! ## Constants and the service header -/

/-- Size of DPDK's `struct rte_ether_hdr` (two 6-byte addresses and the 16-bit EtherType). -/
def sizeof_rte_ether_hdr : Nat := 6 + 6 + 2

/-- Size of DPDK's `struct rte_ipv4_hdr` (an IPv4 header without options). -/
def sizeof_rte_ipv4_hdr : Nat := 1 + 1 + 2 + 2 + 2 + 1 + 1 + 2 + 4 + 4

/-- Size of DPDK's `struct rte_udp_hdr` (four 16-bit fields). -/
def sizeof_rte_udp_hdr : Nat := 2 + 2 + 2 + 2

/-- The in-memory service header `struct service_header_cpu` (host byte order). -/
structure service_header_cpu where
  msg_type : Nat
  msg_flags : Nat
  total_msg_num : Nat
  msg_num : Nat
  total_chunk_num : Nat
  chunk_num : Nat
  chunk_len : Nat
  data_chunk_num : Nat
  iter_num : Nat
deriving DecidableEq, Repr

/-- The field values lie in the ranges of their C types: two `uint8_t`, seven `uint16_t`. -/
def service_header_cpu.in_range (h : service_header_cpu) : Prop :=
  h.msg_type < 256 ∧ h.msg_flags < 256 ∧ h.total_msg_num < 65536 ∧ h.msg_num < 65536 ∧
  h.total_chunk_num < 65536 ∧ h.chunk_num < 65536 ∧ h.chunk_len < 65536 ∧
  h.data_chunk_num < 65536 ∧ h.iter_num < 65536

instance (h : service_header_cpu) : Decidable h.in_range := by
  unfold service_header_cpu.in_range; infer_instance

/-- Value of `sizeof(struct service_header_cpu)`: two one-byte fields followed by seven
two-byte fields; every two-byte field starts at an even offset, so there is no padding. -/
def sizeof_service_header_cpu : Nat := 1 + 1 + 2 + 2 + 2 + 2 + 2 + 2 + 2

def SERVICE_HEADER_OFFSET : Nat :=
  sizeof_rte_ether_hdr + sizeof_rte_ipv4_hdr + sizeof_rte_udp_hdr

def SERVICE_HEADER_LEN : Nat := sizeof_service_header_cpu

def ALL_HEADERS_LEN : Nat := SERVICE_HEADER_OFFSET + SERVICE_HEADER_LEN

def BURST_SIZE : Nat := 128

def MAX_CHUNK_SIZE : Nat := 1400

/-- Default headroom of a freshly allocated mbuf (`RTE_PKTMBUF_HEADROOM`). -/
def RTE_PKTMBUF_HEADROOM : Nat := 128

/-! ## Packet buffers and byte order -/

/-- The part of DPDK's `struct rte_mbuf` the network function uses: the packet data
(`data_len` is the length of `data`), `pkt_len`, `nb_segs`, the headroom, and `stale`, the
bytes of the data room behind the packet data, which hold what the previous use of the buffer
left there. The unchecked reads of `unpack_service_header` and `is_valid_chunk` reach them
when the packet is short. They are followed for received buffers only: a buffer taken from
`fast_forward_pool` has `stale := []`, and no function reads behind the data of such a
buffer. -/
structure rte_mbuf where
  data : List Nat
  pkt_len : Nat
  nb_segs : Nat
  headroom : Nat
  stale : List Nat
deriving DecidableEq, Repr

def rte_mbuf.data_len (m : rte_mbuf) : Nat := m.data.length

/-- The data room from the first byte of the packet on: what a read through
`rte_pktmbuf_mtod_offset` sees at an offset, inside the packet data or behind it. The data
room of a buffer of the pools is 2048 bytes long, so the offsets below 58 that the code reads
lie in `room` whenever `stale` describes it that far; the statements about short packets
require this. -/
def rte_mbuf.room (m : rte_mbuf) : List Nat := m.data ++ m.stale

/-- Byte swap of a half-word: `rte_cpu_to_be_16` on a little-endian host. -/
def rte_cpu_to_be_16 (x : Nat) : Nat := (x % 256) * 256 + x / 256 % 256

/-- Byte swap of a half-word: `rte_be_to_cpu_16` on a little-endian host. -/
def rte_be_to_cpu_16 (x : Nat) : Nat := (x % 256) * 256 + x / 256 % 256

/-- Store to a `uint8_t` lvalue at byte offset `off`. -/
def store_u8 (d : List Nat) (off v : Nat) : List Nat := d.set off (v % 256)

/-- Store to a `uint16_t` lvalue at byte offset `off` (host order: low byte first). -/
def store_u16 (d : List Nat) (off v : Nat) : List Nat :=
  (d.set off (v % 256)).set (off + 1) (v / 256 % 256)

/-- Load from a `uint8_t` lvalue at byte offset `off`. -/
def load_u8 (d : List Nat) (off : Nat) : Nat := d.getD off 0

/-- Load from a `uint16_t` lvalue at byte offset `off` (host order: low byte first). -/
def load_u16 (d : List Nat) (off : Nat) : Nat := d.getD off 0 + 256 * d.getD (off + 1) 0

/-! ## Header codec (`meica_vnf_utils.cpp`) -/

/-- Embedding of `unpack_service_header`: the fields of `struct _service_header` are read at
their offsets 0, 1, 2, 4, ..., 14 behind `SERVICE_HEADER_OFFSET`. The function does not look
at `data_len`: in a packet of fewer than 58 bytes the reads reach the stale bytes behind the
packet data. -/
def unpack_service_header (m : rte_mbuf) : service_header_cpu :=
  let o := SERVICE_HEADER_OFFSET
  { msg_type := load_u8 m.room o
    msg_flags := load_u8 m.room (o + 1)
    total_msg_num := rte_be_to_cpu_16 (load_u16 m.room (o + 2))
    msg_num := rte_be_to_cpu_16 (load_u16 m.room (o + 4))
    total_chunk_num := rte_be_to_cpu_16 (load_u16 m.room (o + 6))
    chunk_num := rte_be_to_cpu_16 (load_u16 m.room (o + 8))
    chunk_len := rte_be_to_cpu_16 (load_u16 m.room (o + 10))
    data_chunk_num := rte_be_to_cpu_16 (load_u16 m.room (o + 12))
    iter_num := rte_be_to_cpu_16 (load_u16 m.room (o + 14)) }

/-- The bytes of a packed header after the nine stores of `pack_service_header`. -/
def pack_service_header_data (d : List Nat) (hdr : service_header_cpu) : List Nat :=
  let o := SERVICE_HEADER_OFFSET
  let d := store_u8 d o hdr.msg_type
  let d := store_u8 d (o + 1) hdr.msg_flags
  let d := store_u16 d (o + 2) (rte_cpu_to_be_16 hdr.total_msg_num)
  let d := store_u16 d (o + 4) (rte_cpu_to_be_16 hdr.msg_num)
  let d := store_u16 d (o + 6) (rte_cpu_to_be_16 hdr.total_chunk_num)
  let d := store_u16 d (o + 8) (rte_cpu_to_be_16 hdr.chunk_num)
  let d := store_u16 d (o + 10) (rte_cpu_to_be_16 hdr.chunk_len)
  let d := store_u16 d (o + 12) (rte_cpu_to_be_16 hdr.data_chunk_num)
  store_u16 d (o + 14) (rte_cpu_to_be_16 hdr.iter_num)

/-- Embedding of `pack_service_header`. -/
def pack_service_header (m : rte_mbuf) (hdr : service_header_cpu) : rte_mbuf :=
  { m with data := pack_service_header_data m.data hdr }

/-! ## Packet utilities (`meica_vnf_utils.hpp`, `meica_vnf_utils.cpp`) -/

def RTE_ETHER_TYPE_IPV4 : Nat := 0x0800

def IPPROTO_UDP : Nat := 17

/-- Offset of `ether_type` in `struct rte_ether_hdr`. -/
def ETHER_TYPE_OFFSET : Nat := 6 + 6

/-- Offset of `total_length` in `struct rte_ipv4_hdr`. -/
def IPV4_TOTAL_LENGTH_OFFSET : Nat := 1 + 1

/-- Offset of `next_proto_id` in `struct rte_ipv4_hdr`. -/
def IPV4_NEXT_PROTO_ID_OFFSET : Nat := 1 + 1 + 2 + 2 + 2 + 1

/-- Offset of `hdr_checksum` in `struct rte_ipv4_hdr`. -/
def IPV4_HDR_CHECKSUM_OFFSET : Nat := 1 + 1 + 2 + 2 + 2 + 1 + 1

/-- Offset of `dgram_len` in `struct rte_udp_hdr`. -/
def UDP_DGRAM_LEN_OFFSET : Nat := 2 + 2

/-- Offset of `dgram_cksum` in `struct rte_udp_hdr`. -/
def UDP_DGRAM_CKSUM_OFFSET : Nat := 2 + 2 + 2

/-- Embedding of `is_valid_chunk`. The function reads the EtherType and the IPv4 protocol
byte without looking at `data_len`: in a frame of fewer than 24 bytes the reads reach the
stale bytes behind the packet data. -/
def is_valid_chunk (m : rte_mbuf) : Bool :=
  if load_u16 m.room ETHER_TYPE_OFFSET ≠ rte_cpu_to_be_16 RTE_ETHER_TYPE_IPV4 then false
  else if load_u8 m.room (sizeof_rte_ether_hdr + IPV4_NEXT_PROTO_ID_OFFSET) ≠ IPPROTO_UDP then
    false
  else true

/-- Number of buffers of `fast_forward_pool`: the second argument of
`rte_pktmbuf_pool_create("fast_forward_pool", 4096, ...)` in `main` of both variants. -/
def FAST_FORWARD_POOL_SIZE : Nat := 4096

/-- Embedding of `deepcopy_chunk`. The argument `pool` is the number of free buffers of the
pool. The three `rte_exit` paths are `none`, in the order of the source: a scattered source
buffer, a null buffer from `rte_pktmbuf_alloc` (no free buffer), a headroom that is not the
default. The copy is a fresh single-segment buffer with the default headroom holding the
`data_len` bytes of the source. -/
def deepcopy_chunk (pool : Nat) (m : rte_mbuf) : Option rte_mbuf :=
  if m.nb_segs > 1 then none
  else if pool = 0 then none
  else if m.headroom ≠ RTE_PKTMBUF_HEADROOM then none
  else some { data := m.data, pkt_len := m.pkt_len, nb_segs := 1,
              headroom := RTE_PKTMBUF_HEADROOM, stale := [] }

/-- Embedding of `disable_udp_cksum`. -/
def disable_udp_cksum (m : rte_mbuf) : rte_mbuf :=
  let udp := sizeof_rte_ether_hdr + sizeof_rte_ipv4_hdr
  { m with data := store_u16 m.data (udp + UDP_DGRAM_CKSUM_OFFSET) 0 }

/-- Embedding of `recalc_ipv4_udp_cksum`; DPDK's `rte_ipv4_cksum`, a function of the bytes of
the IPv4 header, is a parameter. -/
def recalc_ipv4_udp_cksum (rte_ipv4_cksum : List Nat → Nat) (m : rte_mbuf) : rte_mbuf :=
  let ip := sizeof_rte_ether_hdr
  let udp := ip + sizeof_rte_ipv4_hdr
  let d := store_u16 m.data (udp + UDP_DGRAM_CKSUM_OFFSET) 0
  let d := store_u16 d (ip + IPV4_HDR_CHECKSUM_OFFSET) 0
  let d := store_u16 d (ip + IPV4_HDR_CHECKSUM_OFFSET)
    (rte_ipv4_cksum ((d.drop ip).take sizeof_rte_ipv4_hdr))
  { m with data := d }

/-! ## Message assembler (`meica_vnf.cpp`, `cnn_vnf.cpp`) -/

/-- The loop of `defragment`: `chunk_len - SERVICE_HEADER_LEN` is computed in `uint32_t`; a
read that leaves the packet data is `none`. -/
def defragment_loop : List rte_mbuf → List service_header_cpu → List Nat → Option (List Nat)
  | _, [], msg_data => some msg_data
  | [], _ :: _, _ => none
  | c :: cs, hdr :: hs, msg_data =>
    let n := (hdr.chunk_len + 4294967296 - SERVICE_HEADER_LEN) % 4294967296
    if SERVICE_HEADER_OFFSET + SERVICE_HEADER_LEN + n ≤ c.data_len then
      defragment_loop cs hs
        (msg_data ++ (c.data.drop (SERVICE_HEADER_OFFSET + SERVICE_HEADER_LEN)).take n)
    else none

/-- Embedding of `defragment` (identical in both variants); the failing `assert` is `none`. -/
def defragment (chunk_buf : List rte_mbuf) (service_hdr_buf : List service_header_cpu) :
    Option (List Nat) :=
  if chunk_buf.length ≠ service_hdr_buf.length then none
  else defragment_loop chunk_buf service_hdr_buf []

/-- The range-for loop of `check_service_hdr_buf`; `expected_chunk_num` is a `uint16_t`. -/
def check_service_hdr_loop : List service_header_cpu → Nat → Bool
  | [], _ => true
  | hdr :: rest, expected_chunk_num =>
    if hdr.chunk_num ≠ expected_chunk_num then false
    else check_service_hdr_loop rest ((expected_chunk_num + 1) % 65536)

/-- Embedding of `check_service_hdr_buf` (identical in both variants); `back()` of an empty
vector is `none`. -/
def check_service_hdr_buf (service_hdr_buf : List service_header_cpu) : Option Bool :=
  match service_hdr_buf.getLast? with
  | none => none
  | some last =>
    if service_hdr_buf.length ≠ last.total_chunk_num then some false
    else some (check_service_hdr_loop service_hdr_buf 0)

/-- The inner loop of `reorder`, started at `oo`: the first position at or after `oo` that
holds `vv`, or the position one past the end. `rest` is `new_order` from position `oo` on. -/
def reorder_find (vv : Nat) : List Nat → Nat → Nat
  | [], oo => oo
  | x :: rest, oo => if x = vv then oo else reorder_find vv rest (oo + 1)

/-- Embedding of `std::swap(l[i], l[j])`; an index outside the vector is `none`. -/
def swap_at {T : Type} (l : List T) (i j : Nat) : Option (List T) :=
  match l[i]?, l[j]? with
  | some a, some b => some ((l.set i b).set j a)
  | _, _ => none

/-- One iteration of the outer loop of `reorder`. -/
def reorder_step {T : Type} (vv : Nat) (vec : List T) (new_order : List Nat) :
    Option (List T × List Nat) :=
  match new_order[vv]? with
  | none => none
  | some t =>
    if t = vv then some (vec, new_order)
    else
      let oo := reorder_find vv (new_order.drop (vv + 1)) (vv + 1)
      match swap_at vec vv t, swap_at new_order vv oo with
      | some vec', some new_order' => some (vec', new_order')
      | _, _ => none

/-- The outer loop of `reorder`: `k` iterations starting at position `vv`. -/
def reorder_loop {T : Type} : Nat → Nat → List T → List Nat → Option (List T × List Nat)
  | 0, _, vec, new_order => some (vec, new_order)
  | k + 1, vv, vec, new_order =>
    match reorder_step vv vec new_order with
    | none => none
    | some (vec', new_order') => reorder_loop k (vv + 1) vec' new_order'

/-- Embedding of the template `reorder` (identical in both variants). The failing `assert`
is `none`; for an empty vector the bound `vec.size() - 1` wraps around and the first
iteration reads `new_order[0]` outside the vector, which is `none` as well. -/
def reorder {T : Type} (vec : List T) (new_order : List Nat) : Option (List T) :=
  if vec.length ≠ new_order.length then none
  else if vec.length = 0 then none
  else (reorder_loop (vec.length - 1) 0 vec new_order).map Prod.fst

/-- Model of `std::sort(first, last, comp)` of the standard library: an insertion sort that places an
element behind the elements that are not greater. The sorted vector is determined by `comp`
whenever no two elements are equivalent. -/
def std_sort (comp : Nat → Nat → Bool) (l : List Nat) : List Nat :=
  l.insertionSort (fun a b => comp b a = false)

/-- Embedding of `recover_chunks` (identical in both variants); `rte_exit` is `none`. -/
def recover_chunks (chunk_buf : List rte_mbuf) (service_hdr_buf : List service_header_cpu) :
    Option (List rte_mbuf × List service_header_cpu) :=
  match service_hdr_buf.getLast? with
  | none => none
  | some last =>
    if service_hdr_buf.length ≠ last.total_chunk_num then none
    else
      let chunk_num_at := fun (A : Nat) => (service_hdr_buf[A]?.map (·.chunk_num)).getD 0
      let indices := std_sort (fun A B => decide (chunk_num_at A < chunk_num_at B))
        (List.range chunk_buf.length)
      match reorder chunk_buf indices, reorder service_hdr_buf indices with
      | some chunk_buf', some service_hdr_buf' => some (chunk_buf', service_hdr_buf')
      | _, _ => none

/-! ## Synthesizing a chunk series (`meica_vnf.cpp`) -/

/-- Data room of the buffers of `fast_forward_pool` behind the headroom:
`RTE_MBUF_DEFAULT_BUF_SIZE` is `2048 + RTE_PKTMBUF_HEADROOM`. -/
def RTE_MBUF_DEFAULT_DATAROOM : Nat := 2048

/-- Embedding of `update_l3_l4_header`; `payload_len` is a `uint32_t`, both lengths are
`uint16_t`. -/
def update_l3_l4_header (m : rte_mbuf) (payload_len : Nat) : rte_mbuf :=
  let ip := sizeof_rte_ether_hdr
  let udp := ip + sizeof_rte_ipv4_hdr
  let udp_dgram_len :=
    (payload_len + SERVICE_HEADER_LEN + sizeof_rte_udp_hdr) % 4294967296 % 65536
  let ip_total_length := (udp_dgram_len + sizeof_rte_ipv4_hdr) % 65536
  let d := store_u16 m.data (udp + UDP_DGRAM_LEN_OFFSET) (rte_cpu_to_be_16 udp_dgram_len)
  let d := store_u16 d (ip + IPV4_TOTAL_LENGTH_OFFSET) (rte_cpu_to_be_16 ip_total_length)
  { m with data := d }

/-- Model of DPDK's `rte_pktmbuf_trim`: removes `len` bytes at the end of the data, or does nothing
(and returns -1, which the caller ignores) when the buffer holds fewer. -/
def rte_pktmbuf_trim (m : rte_mbuf) (len : Nat) : rte_mbuf :=
  if len > m.data_len then m
  else
    { m with
      data := m.data.take (m.data_len - len)
      pkt_len := (m.pkt_len + 4294967296 - len) % 4294967296 }

/-- Model of DPDK's `rte_pktmbuf_append`: extends the data by `len` bytes, `none` (a null pointer, which
the caller ignores) when the tailroom is too small. The new bytes hold what the data room
held before; they are written as 0 here, the only caller overwrites every one of them. -/
def rte_pktmbuf_append (m : rte_mbuf) (len : Nat) : Option rte_mbuf :=
  if len > RTE_MBUF_DEFAULT_DATAROOM - m.data_len then none
  else
    some { m with
      data := m.data ++ List.replicate len 0
      pkt_len := (m.pkt_len + len) % 4294967296 }

/-- Model of DPDK's `rte_memcpy` into the packet data at offset `off`. -/
def rte_memcpy (d : List Nat) (off : Nat) (src : List Nat) : List Nat :=
  d.take off ++ src ++ d.drop (off + src.length)

/-- Embedding of `create_uW_chunk`. The first argument is the number of free buffers of
`fast_forward_pool`, the pool the function copies into (its parameter `pool` is not used).
Failing `assert`s and a failing `deepcopy_chunk` are `none`; so is a payload that does not fit
the appended area (the length argument of `rte_pktmbuf_append` is a `uint16_t`), where the
copy would leave the packet data. -/
def create_uW_chunk (fast_forward_pool : Nat) (m_data_full : rte_mbuf)
    (hdr : service_header_cpu) (payload : List Nat) : Option rte_mbuf :=
  if m_data_full.data_len ≠ 1458 then none
  else if m_data_full.pkt_len ≠ 1458 then none
  else
    match deepcopy_chunk fast_forward_pool m_data_full with
    | none => none
    | some m_copy =>
      let m_trim := rte_pktmbuf_trim m_copy MAX_CHUNK_SIZE
      if m_trim.data_len ≠ 58 then none
      else if m_trim.pkt_len ≠ 58 then none
      else
        let m_hdr := pack_service_header m_trim hdr
        match rte_pktmbuf_append m_hdr (payload.length % 65536) with
        | none => none
        | some m_app =>
          if m_app.data_len < SERVICE_HEADER_OFFSET + SERVICE_HEADER_LEN + payload.length then
            none
          else
            let m_result : rte_mbuf :=
              { m_app with
                data := rte_memcpy m_app.data (SERVICE_HEADER_OFFSET + SERVICE_HEADER_LEN)
                  payload }
            if m_result.data_len ≠ MAX_CHUNK_SIZE then
              some (update_l3_l4_header m_result (payload.length % 4294967296))
            else some m_result

/-- The loop of `update_uW_chunk_buf` over the byte offsets `i = 0, 1400, 2800, ...`. The
first argument bounds the number of iterations; running out of it is `none`. The second is
the number of free buffers of `fast_forward_pool`: every chunk built is held in
`uW_chunk_buf` and takes one. The offset `i` is an `int` in the source; the pool is exhausted
long before it could overflow. -/
def update_uW_chunk_loop (m_data_full : rte_mbuf) (new_hdr : service_header_cpu)
    (new_uW_bytes : List Nat) : Nat → Nat → Nat → List rte_mbuf → Option (List rte_mbuf)
  | 0, _, _, _ => none
  | fuel + 1, fast_forward_pool, i, uW_chunk_buf =>
    if i < new_uW_bytes.length then
      let payload := (new_uW_bytes.drop i).take MAX_CHUNK_SIZE
      let hdr : service_header_cpu :=
        { new_hdr with
          chunk_len := (payload.length + SERVICE_HEADER_LEN) % 65536
          chunk_num := i % 65536 }
      match create_uW_chunk fast_forward_pool m_data_full hdr payload with
      | none => none
      | some c =>
        update_uW_chunk_loop m_data_full new_hdr new_uW_bytes fuel (fast_forward_pool - 1)
          (i + MAX_CHUNK_SIZE) (uW_chunk_buf ++ [c])
    else some uW_chunk_buf

/-- Embedding of `update_uW_chunk_buf`. The chunks of the old buffer are freed and the
buffer is cleared before the loop. `std::ceil(double(size) / MAX_CHUNK_SIZE)` is the exact
ceiling of the quotient for every size a `uint16_t` count can describe. The loop starts with
all `FAST_FORWARD_POOL_SIZE` buffers of `fast_forward_pool` free: the only other buffers taken
from that pool are the copies of the receive loop, each handed to `rte_eth_tx_burst` at once,
and the driver is taken to have given them back. -/
def update_uW_chunk_buf (_uW_chunk_buf : List rte_mbuf) (m_data_full : rte_mbuf)
    (hdr_template : service_header_cpu) (has_final_result : Bool) (new_iter_num : Nat)
    (new_uW_bytes : List Nat) : Option (List rte_mbuf) :=
  let new_hdr : service_header_cpu :=
    { hdr_template with
      msg_type := 1
      msg_flags := if has_final_result then 1 else 0
      iter_num := new_iter_num % 65536
      data_chunk_num := 0
      total_chunk_num :=
        ((new_uW_bytes.length + (MAX_CHUNK_SIZE - 1)) / MAX_CHUNK_SIZE) % 65536 }
  update_uW_chunk_loop m_data_full new_hdr new_uW_bytes (new_uW_bytes.length + 1)
    FAST_FORWARD_POOL_SIZE 0 []

/-- Embedding of the MEICA `process_chunks`. The compute bridge (`run_meica_dist` of the
Python module) is a parameter; `at()` outside the string and failing `assert`s are `none`. -/
def process_chunks (run_meica_dist : List Nat → List Nat → Nat → Nat → List Nat)
    (m_data_full : rte_mbuf) (hdr_template : service_header_cpu) (X_bytes : List Nat)
    (uW_chunk_buf : List rte_mbuf) (uW_service_hdr_buf : List service_header_cpu)
    (max_rounds : Nat) : Option (List rte_mbuf) :=
  let uW_input : Option (List Nat × Nat) :=
    if uW_chunk_buf.length ≠ 0 then
      match defragment uW_chunk_buf uW_service_hdr_buf, uW_service_hdr_buf.getLast? with
      | some uW_bytes, some last =>
        if uW_bytes.length = 0 then none else some (uW_bytes, last.iter_num)
      | _, _ => none
    else some ([], 0)
  match uW_input with
  | none => none
  | some (uW_bytes, iter_num) =>
    let bytes_out := run_meica_dist X_bytes uW_bytes iter_num max_rounds
    match bytes_out[0]?, bytes_out[1]? with
    | some b0, some b1 =>
      let has_final_result := decide (b0 % 256 = 1)
      let new_iter_num := b1 % 256
      let new_uW_bytes := bytes_out.drop 2
      update_uW_chunk_buf uW_chunk_buf m_data_full hdr_template has_final_result new_iter_num
        new_uW_bytes
    | _, _ => none

/-- Embedding of `pre_send_chunks`. -/
def pre_send_chunks (rte_ipv4_cksum : List Nat → Nat) (chunk_buf : List rte_mbuf) :
    List rte_mbuf :=
  chunk_buf.map (recalc_ipv4_udp_cksum rte_ipv4_cksum)

/-- Embedding of `send_chunks`: the buffers handed to `rte_eth_tx_burst`, one call per
chunk, in the order of the calls. -/
def send_chunks (rte_ipv4_cksum : List Nat → Nat) (chunk_buf : List rte_mbuf) :
    List rte_mbuf :=
  pre_send_chunks rte_ipv4_cksum chunk_buf

/-! ## Receive loop and store-and-forward loop (`meica_vnf.cpp`, `cnn_vnf.cpp`) -/

/-- What the network function has done so far to the buffers that passed through it and to
the compute bridge: the number of buffers taken from RX bursts, the number of buffers
allocated from `fast_forward_pool`, the buffers handed to `rte_eth_tx_burst` and to
`rte_pktmbuf_free` in the order of the calls, and the `X_bytes` argument of every call of the
compute bridge. A buffer is accounted for once it was handed to TX or freed. -/
structure effects where
  received : Nat
  allocated : Nat
  tx : List rte_mbuf
  freed : List rte_mbuf
  bridge_calls : List (List Nat)
deriving DecidableEq, Repr

/-- The `for` loop of `recv_send_chunks` over the buffers of one RX burst; `rte_exit` in
`deepcopy_chunk` is `none`. Every copy is handed to `rte_eth_tx_burst` at once and no other
buffer of `fast_forward_pool` is held while the loop runs; the driver is taken to have given
a transmitted buffer back before the next is allocated, so the pool is full at every
call. -/
def recv_send_burst :
    List rte_mbuf → List rte_mbuf → List service_header_cpu → effects →
      Option (List rte_mbuf × List service_header_cpu × effects)
  | [], chunk_buf, service_hdr_buf, e => some (chunk_buf, service_hdr_buf, e)
  | m :: rx_buf, chunk_buf, service_hdr_buf, e =>
    if is_valid_chunk m = false then
      recv_send_burst rx_buf chunk_buf service_hdr_buf { e with freed := e.freed ++ [m] }
    else
      let service_hdr := unpack_service_header m
      if service_hdr.msg_type = 0 then
        match deepcopy_chunk FAST_FORWARD_POOL_SIZE m with
        | none => none
        | some m_copy =>
          recv_send_burst rx_buf (chunk_buf ++ [m]) (service_hdr_buf ++ [service_hdr])
            { e with
              allocated := e.allocated + 1
              tx := e.tx ++ [disable_udp_cksum m_copy] }
      else recv_send_burst rx_buf (chunk_buf ++ [m]) (service_hdr_buf ++ [service_hdr]) e

/-- State in which `recv_send_chunks` returns: the RX bursts not yet polled, the two vectors,
the effects, and `g_force_quit`. -/
structure recv_outcome where
  rx : List (List rte_mbuf)
  chunk_buf : List rte_mbuf
  service_hdr_buf : List service_header_cpu
  e : effects
  force_quit : Bool
deriving DecidableEq, Repr

/-- Embedding of `recv_send_chunks`. The first argument lists what the successive calls of
`rte_eth_rx_burst` return (at most `BURST_SIZE` buffers each); when the list is used up,
`g_force_quit` is set and the loop is left through its condition. An empty burst is skipped
(`continue`). After a non-empty burst the last header of the vector is tested; `back()` of an
empty vector is `none`. The test compares two `int` values. -/
def recv_send_chunks :
    List (List rte_mbuf) → List rte_mbuf → List service_header_cpu → effects →
      Option recv_outcome
  | [], chunk_buf, service_hdr_buf, e => some ⟨[], chunk_buf, service_hdr_buf, e, true⟩
  | rx_buf :: rx, chunk_buf, service_hdr_buf, e =>
    if rx_buf.length = 0 then recv_send_chunks rx chunk_buf service_hdr_buf e
    else
      match recv_send_burst rx_buf chunk_buf service_hdr_buf
          { e with received := e.received + rx_buf.length } with
      | none => none
      | some (chunk_buf', service_hdr_buf', e') =>
        match service_hdr_buf'.getLast? with
        | none => none
        | some last =>
          if (last.chunk_num : Int) = (last.total_chunk_num : Int) - 1 then
            some ⟨rx, chunk_buf', service_hdr_buf', e', false⟩
          else recv_send_chunks rx chunk_buf' service_hdr_buf' e'

/-- The `for` loop of `run_store_forward_loop` over one RX burst: `t` counts the entries of
`tx_buf` written so far. An entry of `tx_buf` that was never written is `none`. -/
def store_forward_burst :
    List rte_mbuf → Nat → List (Option rte_mbuf) → List rte_mbuf →
      Nat × List (Option rte_mbuf) × List rte_mbuf
  | [], t, tx_buf, freed => (t, tx_buf, freed)
  | m :: rx_buf, t, tx_buf, freed =>
    if is_valid_chunk m = false then store_forward_burst rx_buf t tx_buf (freed ++ [m])
    else store_forward_burst rx_buf (t + 1) (tx_buf.set t (some (disable_udp_cksum m))) freed

/-- What one turn of the loop of `run_store_forward_loop` does with a non-empty burst: the
array `tx_buf` afterwards, the count `t` of entries written, the arguments of the call of
`rte_eth_tx_burst` (the first `nb_pkts` entries of `tx_buf` are handed to TX), and the buffers
freed. -/
structure store_forward_turn where
  tx_buf : List (Option rte_mbuf)
  t : Nat
  nb_pkts : Nat
  freed : List rte_mbuf
deriving DecidableEq, Repr

/-- Embedding of one turn of the loop of `run_store_forward_loop` (identical in both
variants) for the burst `rx_buf` of `nb_rx = rx_buf.length > 0` buffers; `tx_buf` is the
array as the previous turns left it. -/
def run_store_forward_turn (tx_buf : List (Option rte_mbuf)) (rx_buf : List rte_mbuf) :
    store_forward_turn :=
  let nb_rx := rx_buf.length
  let r := store_forward_burst rx_buf 0 tx_buf []
  { tx_buf := r.2.1, t := r.1, nb_pkts := nb_rx, freed := r.2.2 }

/-- The buffers a call `rte_eth_tx_burst(port, 0, tx_buf, nb_pkts)` hands to TX. -/
def store_forward_turn.handed_to_tx (r : store_forward_turn) : List (Option rte_mbuf) :=
  r.tx_buf.take r.nb_pkts

/-! ## State machines of the compute-and-forward mode -/

/-- Embedding of `reset_bufs` (identical in both variants): the buffers freed and the two
vectors afterwards. -/
def reset_bufs (chunk_buf : List rte_mbuf) (_service_hdr_buf : List service_header_cpu) :
    List rte_mbuf × List rte_mbuf × List service_header_cpu :=
  (chunk_buf, [], [])

/-- The statements at the head of the `PROCESS_CHUNKS` case (identical in both variants):
completeness check, recovery if it fails, second check with `rte_exit`, `defragment`.
Returns the two vectors as recovery leaves them and `X_bytes`. -/
def process_chunks_prologue (X_chunk_buf : List rte_mbuf)
    (X_service_hdr_buf : List service_header_cpu) :
    Option (List rte_mbuf × List service_header_cpu × List Nat) :=
  match check_service_hdr_buf X_service_hdr_buf with
  | none => none
  | some ok =>
    let recovered :=
      if ok = false then recover_chunks X_chunk_buf X_service_hdr_buf
      else some (X_chunk_buf, X_service_hdr_buf)
    match recovered with
    | none => none
    | some (chunk_buf, service_hdr_buf) =>
      match check_service_hdr_buf service_hdr_buf with
      | some true =>
        match defragment chunk_buf service_hdr_buf with
        | none => none
        | some X_bytes => some (chunk_buf, service_hdr_buf, X_bytes)
      | _ => none

/-- Working states of the MEICA network function (`enum class VNF_STATE` of
`meica_vnf.cpp`). -/
inductive VNF_STATE where
  | RESET
  | FORWARD_X_CHUNKS
  | RECV_UW_CHUNKS
  | TRY_FORWARD_UW_CHUNKS
  | PROCESS_CHUNKS
  | SEND_UW_CHUNKS
deriving DecidableEq, Repr

/-- The variables of the MEICA `run_compute_forward_loop`, the RX bursts still to come, the
effects so far and `g_force_quit`. -/
structure vnf where
  state : VNF_STATE
  X_chunk_buf : List rte_mbuf
  uW_chunk_buf : List rte_mbuf
  X_bytes : List Nat
  X_service_hdr_buf : List service_header_cpu
  uW_service_hdr_buf : List service_header_cpu
  rx : List (List rte_mbuf)
  e : effects
  force_quit : Bool
deriving DecidableEq, Repr

/-- The state in which the MEICA `run_compute_forward_loop` enters its loop. -/
def vnf_init (rx : List (List rte_mbuf)) : vnf :=
  { state := VNF_STATE.FORWARD_X_CHUNKS
    X_chunk_buf := []
    uW_chunk_buf := []
    X_bytes := []
    X_service_hdr_buf := []
    uW_service_hdr_buf := []
    rx := rx
    e := { received := 0, allocated := 0, tx := [], freed := [], bridge_calls := [] }
    force_quit := false }

/-- One turn of the `while` loop of the MEICA `run_compute_forward_loop`: the `switch` on the
state. `none` when the loop has been left (`g_force_quit`) and for a failing `assert`,
`rte_exit`, `front()` or `back()` of an empty vector. The compute bridge and DPDK's
`rte_ipv4_cksum` are parameters. -/
def vnf_step (run_meica_dist : List Nat → List Nat → Nat → Nat → List Nat)
    (rte_ipv4_cksum : List Nat → Nat) (is_leader : Bool) (max_rounds : Nat) (v : vnf) :
    Option vnf :=
  if v.force_quit then none
  else
    match v.state with
    | VNF_STATE.RESET =>
      let rX := reset_bufs v.X_chunk_buf v.X_service_hdr_buf
      let ruW := reset_bufs v.uW_chunk_buf v.uW_service_hdr_buf
      some { v with
        X_chunk_buf := rX.2.1
        X_service_hdr_buf := rX.2.2
        uW_chunk_buf := ruW.2.1
        uW_service_hdr_buf := ruW.2.2
        e := { v.e with freed := v.e.freed ++ rX.1 ++ ruW.1 }
        state := VNF_STATE.FORWARD_X_CHUNKS }
    | VNF_STATE.FORWARD_X_CHUNKS =>
      if v.X_chunk_buf.length = 0 ∧ v.X_service_hdr_buf.length = 0 then
        match recv_send_chunks v.rx v.X_chunk_buf v.X_service_hdr_buf v.e with
        | none => none
        | some r =>
          some { v with
            rx := r.rx
            X_chunk_buf := r.chunk_buf
            X_service_hdr_buf := r.service_hdr_buf
            e := r.e
            force_quit := r.force_quit
            state :=
              if is_leader then VNF_STATE.PROCESS_CHUNKS else VNF_STATE.RECV_UW_CHUNKS }
      else none
    | VNF_STATE.RECV_UW_CHUNKS =>
      if is_leader = false ∧ v.uW_chunk_buf.length = 0 ∧ v.uW_service_hdr_buf.length = 0 then
        match recv_send_chunks v.rx v.uW_chunk_buf v.uW_service_hdr_buf v.e with
        | none => none
        | some r =>
          some { v with
            rx := r.rx
            uW_chunk_buf := r.chunk_buf
            uW_service_hdr_buf := r.service_hdr_buf
            e := r.e
            force_quit := r.force_quit
            state := VNF_STATE.TRY_FORWARD_UW_CHUNKS }
      else none
    | VNF_STATE.TRY_FORWARD_UW_CHUNKS =>
      match v.uW_service_hdr_buf.head? with
      | none => none
      | some front =>
        if front.msg_flags = 1 then some { v with state := VNF_STATE.SEND_UW_CHUNKS }
        else some { v with state := VNF_STATE.PROCESS_CHUNKS }
    | VNF_STATE.PROCESS_CHUNKS =>
      match process_chunks_prologue v.X_chunk_buf v.X_service_hdr_buf with
      | none => none
      | some (X_chunk_buf, X_service_hdr_buf, X_bytes) =>
        match X_chunk_buf.head?, X_service_hdr_buf.head? with
        | some m_data_full, some hdr_template =>
          match process_chunks run_meica_dist m_data_full hdr_template X_bytes v.uW_chunk_buf
              v.uW_service_hdr_buf max_rounds with
          | none => none
          | some uW_chunk_buf =>
            some { v with
              X_chunk_buf := X_chunk_buf
              X_service_hdr_buf := X_service_hdr_buf
              X_bytes := X_bytes
              uW_chunk_buf := uW_chunk_buf
              e := { v.e with
                allocated := v.e.allocated + uW_chunk_buf.length
                freed := v.e.freed ++ v.uW_chunk_buf ++ X_chunk_buf
                bridge_calls := v.e.bridge_calls ++ [X_bytes] }
              state := VNF_STATE.SEND_UW_CHUNKS }
        | _, _ => none
    | VNF_STATE.SEND_UW_CHUNKS =>
      some { v with
        X_chunk_buf := []
        X_service_hdr_buf := []
        uW_chunk_buf := []
        uW_service_hdr_buf := []
        e := { v.e with tx := v.e.tx ++ send_chunks rte_ipv4_cksum v.uW_chunk_buf }
        state := VNF_STATE.FORWARD_X_CHUNKS }

/-- The state after `k` turns of the loop of the MEICA `run_compute_forward_loop`. -/
def vnf_run (run_meica_dist : List Nat → List Nat → Nat → Nat → List Nat)
    (rte_ipv4_cksum : List Nat → Nat) (is_leader : Bool) (max_rounds : Nat) :
    Nat → vnf → Option vnf
  | 0, v => some v
  | k + 1, v =>
    match vnf_step run_meica_dist rte_ipv4_cksum is_leader max_rounds v with
    | none => none
    | some v' => vnf_run run_meica_dist rte_ipv4_cksum is_leader max_rounds k v'

/-! ## The CNN variant (`cnn_vnf.cpp`) -/

namespace cnn

/-- Embedding of `recv_chunks` of `cnn_vnf.cpp`. Its body is, statement for statement, the
body of `recv_send_chunks` of `meica_vnf.cpp`, the block under the comment
"Fast forward all data messages" included. -/
def recv_chunks (rx : List (List rte_mbuf)) (chunk_buf : List rte_mbuf)
    (service_hdr_buf : List service_header_cpu) (e : effects) : Option recv_outcome :=
  recv_send_chunks rx chunk_buf service_hdr_buf e

/-- Embedding of the CNN `process_chunks`: the result of the compute bridge
(`run_cnn_dist` of the Python module), a parameter. -/
def process_chunks (run_cnn_dist : List Nat → List Nat) (_m_data_full : rte_mbuf)
    (_hdr_template : service_header_cpu) (X_bytes : List Nat) : List Nat :=
  run_cnn_dist X_bytes

/-- Working states of the CNN network function (`enum class VNF_STATE` of `cnn_vnf.cpp`). -/
inductive VNF_STATE where
  | RESET
  | RECV_X_CHUNKS
  | PROCESS_CHUNKS
  | SEND_RESULT_CHUNKS
deriving DecidableEq, Repr

/-- The variables of the CNN `run_compute_forward_loop`, the RX bursts still to come, the
effects so far and `g_force_quit`. -/
structure vnf where
  state : VNF_STATE
  X_chunk_buf : List rte_mbuf
  X_bytes : List Nat
  X_service_hdr_buf : List service_header_cpu
  rx : List (List rte_mbuf)
  e : effects
  force_quit : Bool
deriving DecidableEq, Repr

/-- The state in which the CNN `run_compute_forward_loop` enters its loop. -/
def vnf_init (rx : List (List rte_mbuf)) : vnf :=
  { state := VNF_STATE.RECV_X_CHUNKS
    X_chunk_buf := []
    X_bytes := []
    X_service_hdr_buf := []
    rx := rx
    e := { received := 0, allocated := 0, tx := [], freed := [], bridge_calls := [] }
    force_quit := false }

/-- One turn of the `while` loop of the CNN `run_compute_forward_loop`. `none` when the loop
has been left (`g_force_quit`) and for a failing `assert`, `rte_exit`, `front()` or `back()`
of an empty vector. The result `bytes_out` of the bridge is not used. -/
def vnf_step (run_cnn_dist : List Nat → List Nat) (rte_ipv4_cksum : List Nat → Nat)
    (v : vnf) : Option vnf :=
  if v.force_quit then none
  else
    match v.state with
    | VNF_STATE.RESET =>
      let rX := reset_bufs v.X_chunk_buf v.X_service_hdr_buf
      some { v with
        X_chunk_buf := rX.2.1
        X_service_hdr_buf := rX.2.2
        e := { v.e with freed := v.e.freed ++ rX.1 }
        state := VNF_STATE.RECV_X_CHUNKS }
    | VNF_STATE.RECV_X_CHUNKS =>
      if v.X_chunk_buf.length = 0 ∧ v.X_service_hdr_buf.length = 0 then
        match recv_chunks v.rx v.X_chunk_buf v.X_service_hdr_buf v.e with
        | none => none
        | some r =>
          some { v with
            rx := r.rx
            X_chunk_buf := r.chunk_buf
            X_service_hdr_buf := r.service_hdr_buf
            e := r.e
            force_quit := r.force_quit
            state := VNF_STATE.PROCESS_CHUNKS }
      else none
    | VNF_STATE.PROCESS_CHUNKS =>
      match process_chunks_prologue v.X_chunk_buf v.X_service_hdr_buf with
      | none => none
      | some (X_chunk_buf, X_service_hdr_buf, X_bytes) =>
        match X_chunk_buf.head?, X_service_hdr_buf.head? with
        | some m_data_full, some hdr_template =>
          let _bytes_out := process_chunks run_cnn_dist m_data_full hdr_template X_bytes
          some { v with
            X_chunk_buf := X_chunk_buf
            X_service_hdr_buf := X_service_hdr_buf
            X_bytes := X_bytes
            e := { v.e with bridge_calls := v.e.bridge_calls ++ [X_bytes] }
            state := VNF_STATE.SEND_RESULT_CHUNKS }
        | _, _ => none
    | VNF_STATE.SEND_RESULT_CHUNKS =>
      some { v with
        X_chunk_buf := []
        X_service_hdr_buf := []
        e := { v.e with tx := v.e.tx ++ send_chunks rte_ipv4_cksum v.X_chunk_buf }
        state := VNF_STATE.RECV_X_CHUNKS }

/-- The state after `k` turns of the loop of the CNN `run_compute_forward_loop`. -/
def vnf_run (run_cnn_dist : List Nat → List Nat) (rte_ipv4_cksum : List Nat → Nat) :
    Nat → vnf → Option vnf
  | 0, v => some v
  | k + 1, v =>
    match vnf_step run_cnn_dist rte_ipv4_cksum v with
    | none => none
    | some v' => vnf_run run_cnn_dist rte_ipv4_cksum k v'

end cnn

/-! ## Auxiliary notions of the statements and proofs -/

/-- Invariant of the outer loop of `reorder` before the iteration at position `vv`: the
current `new_order` is a bijection of the positions that fixes the positions before `vv`, and
reading the current vector through it gives what reading the initial vector through the
initial `new_order` gave. -/
def reorder_inv {T : Type} (n : Nat) (vec0 : List T) (p : List Nat) (vv : Nat)
    (vec : List T) (no : List Nat) : Prop :=
  vec.length = n ∧ no.length = n ∧
  (∀ (i v : Nat), no[i]? = some v → v < n) ∧
  (∀ (i j v : Nat), no[i]? = some v → no[j]? = some v → i = j) ∧
  (∀ v, v < n → ∃ i : Nat, no[i]? = some v) ∧
  (∀ i, i < vv → no[i]? = some i) ∧
  (∀ i, i < n → (no[i]?).bind (fun v => vec[v]?) = (p[i]?).bind (fun v => vec0[v]?))

/-- The chunk `c` with decoded header `h` carries the byte string `slice` as its payload:
the packet data is the 58 bytes of headers followed by `slice`, and `chunk_len` is the length
of `slice` plus the length of the service header. -/
def carries (slice : List Nat) (c : rte_mbuf) (h : service_header_cpu) : Prop :=
  SERVICE_HEADER_OFFSET + SERVICE_HEADER_LEN ≤ c.data_len ∧
  c.data.drop (SERVICE_HEADER_OFFSET + SERVICE_HEADER_LEN) = slice ∧
  h.chunk_len = slice.length + SERVICE_HEADER_LEN

instance (slice : List Nat) (c : rte_mbuf) (h : service_header_cpu) :
    Decidable (carries slice c h) := by
  unfold carries; infer_instance

/-- The assertions of `create_uW_chunk` on its skeleton and the conditions under which
`deepcopy_chunk` copies it. -/
def full_skeleton (m : rte_mbuf) : Prop :=
  m.data_len = 1458 ∧ m.pkt_len = 1458 ∧ m.nb_segs ≤ 1 ∧ m.headroom = RTE_PKTMBUF_HEADROOM

instance (m : rte_mbuf) : Decidable (full_skeleton m) := by
  unfold full_skeleton; infer_instance

/-- The chunk `create_uW_chunk` builds before the length fields are patched: the first 58
bytes of the skeleton with the service header packed into them, followed by the payload. -/
def uW_chunk_base (m_data_full : rte_mbuf) (hdr : service_header_cpu) (payload : List Nat) :
    rte_mbuf :=
  { data := pack_service_header_data (m_data_full.data.take 58) hdr ++ payload
    pkt_len := 58 + payload.length
    nb_segs := 1
    headroom := RTE_PKTMBUF_HEADROOM
    stale := [] }

/-- The chunk `create_uW_chunk` returns for a full skeleton and a payload of at most 1400
bytes (see `create_uW_chunk_eq`). -/
def uW_chunk (m_data_full : rte_mbuf) (hdr : service_header_cpu) (payload : List Nat) :
    rte_mbuf :=
  if 58 + payload.length ≠ 1400 then
    update_l3_l4_header (uW_chunk_base m_data_full hdr payload) payload.length
  else uW_chunk_base m_data_full hdr payload

/-- The payload slice of the `j`-th iteration of the loop of `update_uW_chunk_buf`. -/
def uW_slice (new_uW_bytes : List Nat) (j : Nat) : List Nat :=
  (new_uW_bytes.drop (MAX_CHUNK_SIZE * j)).take MAX_CHUNK_SIZE

/-- The header of the `j`-th iteration of the loop of `update_uW_chunk_buf`. -/
def uW_hdr (new_hdr : service_header_cpu) (new_uW_bytes : List Nat) (j : Nat) :
    service_header_cpu :=
  { new_hdr with
    chunk_len := ((uW_slice new_uW_bytes j).length + SERVICE_HEADER_LEN) % 65536
    chunk_num := (MAX_CHUNK_SIZE * j) % 65536 }

/-- The header `update_uW_chunk_buf` derives from the template before the loop. -/
def uW_new_hdr (hdr_template : service_header_cpu) (has_final_result : Bool)
    (new_iter_num : Nat) (new_uW_bytes : List Nat) : service_header_cpu :=
  { hdr_template with
    msg_type := 1
    msg_flags := if has_final_result then 1 else 0
    iter_num := new_iter_num % 65536
    data_chunk_num := 0
    total_chunk_num :=
      ((new_uW_bytes.length + (MAX_CHUNK_SIZE - 1)) / MAX_CHUNK_SIZE) % 65536 }

/-- The UDP datagram length a receiver reads from the packet (`dgram_len`, network order). -/
def udp_dgram_len (m : rte_mbuf) : Nat :=
  rte_be_to_cpu_16
    (load_u16 m.data (sizeof_rte_ether_hdr + sizeof_rte_ipv4_hdr + UDP_DGRAM_LEN_OFFSET))

/-- The IPv4 total length a receiver reads from the packet (`total_length`, network order). -/
def ipv4_total_length (m : rte_mbuf) : Nat :=
  rte_be_to_cpu_16 (load_u16 m.data (sizeof_rte_ether_hdr + IPV4_TOTAL_LENGTH_OFFSET))

/-- A well-formed chunk for the examples: Ethernet header with EtherType 0x0800, IPv4 header
with protocol 17, UDP header, the packed service header `hdr` and the payload. -/
def example_chunk (hdr : service_header_cpu) (payload : List Nat) : rte_mbuf :=
  pack_service_header
    { data :=
        [0, 0, 0, 0, 0, 1, 0, 0, 0, 0, 0, 2, 8, 0] ++
        [69, 0, 0, 0, 0, 0, 0, 0, 64, 17, 0, 0, 10, 0, 0, 1, 10, 0, 0, 2] ++
        [0, 0, 0, 0, 0, 0, 0, 0] ++ List.replicate 16 0 ++ payload
      pkt_len := 58 + payload.length
      nb_segs := 1
      headroom := RTE_PKTMBUF_HEADROOM
      stale := [] }
    hdr

/-- The copy `recv_send_chunks` transmits for a data chunk: the deep copy from
`fast_forward_pool` with the UDP checksum zeroed. -/
def fast_forward_copy (m : rte_mbuf) : rte_mbuf :=
  disable_udp_cksum
    { data := m.data, pkt_len := m.pkt_len, nb_segs := 1, headroom := RTE_PKTMBUF_HEADROOM,
      stale := [] }

/-- The buffers of a burst that `recv_send_chunks` keeps: the valid chunks. -/
def kept (rx_buf : List rte_mbuf) : List rte_mbuf := rx_buf.filter is_valid_chunk

/-- The buffers of a burst that `recv_send_chunks` frees: the buffers that are not valid
chunks. -/
def dropped (rx_buf : List rte_mbuf) : List rte_mbuf :=
  rx_buf.filter (fun m => !is_valid_chunk m)

/-- The copies `recv_send_chunks` transmits for a burst: one for every valid chunk whose
header has `msg_type = 0`. -/
def forwarded (rx_buf : List rte_mbuf) : List rte_mbuf :=
  ((kept rx_buf).filter (fun m => decide ((unpack_service_header m).msg_type = 0))).map
    fast_forward_copy

/-- The conditions on the source buffer under which `deepcopy_chunk` copies it when the pool
has a free buffer. -/
def forwardable (m : rte_mbuf) : Prop :=
  m.nb_segs ≤ 1 ∧ m.headroom = RTE_PKTMBUF_HEADROOM

instance (m : rte_mbuf) : Decidable (forwardable m) := by
  unfold forwardable; infer_instance

/-- The end-of-burst test of `recv_send_chunks` on a header. -/
def exit_test (h : service_header_cpu) : Prop :=
  (h.chunk_num : Int) = (h.total_chunk_num : Int) - 1

instance (h : service_header_cpu) : Decidable (exit_test h) := by
  unfold exit_test; infer_instance

/-- The assembly-buffer property of a state of the MEICA state machine: as many X chunks as X
headers and, outside `SEND_UW_CHUNKS`, as many uW chunks as uW headers. -/
def assembly_inv (v : vnf) : Prop :=
  v.X_chunk_buf.length = v.X_service_hdr_buf.length ∧
  (v.state ≠ VNF_STATE.SEND_UW_CHUNKS → v.uW_chunk_buf.length = v.uW_service_hdr_buf.length)

instance (v : vnf) : Decidable (assembly_inv v) := by
  unfold assembly_inv; infer_instance

/-- The assembly-buffer property of a state of the CNN state machine. -/
def cnn.assembly_inv (v : cnn.vnf) : Prop :=
  v.X_chunk_buf.length = v.X_service_hdr_buf.length

instance (v : cnn.vnf) : Decidable (cnn.assembly_inv v) := by
  unfold cnn.assembly_inv; infer_instance

/-- A chunk of a message of `n` chunks as the state machine can take it through a whole
cycle: a valid IPv4/UDP packet that `deepcopy_chunk` copies, at most 1458 bytes long, whose
service header has `total_chunk_num = n` and a `chunk_len` that is the length of the packet
behind the UDP header (service header and payload). -/
def message_chunk (n : Nat) (c : rte_mbuf) : Prop :=
  is_valid_chunk c = true ∧ forwardable c ∧ (unpack_service_header c).in_range ∧
  (unpack_service_header c).total_chunk_num = n ∧
  SERVICE_HEADER_OFFSET + SERVICE_HEADER_LEN ≤ c.data_len ∧ c.data_len ≤ 1458 ∧
  (unpack_service_header c).chunk_len = c.data_len - SERVICE_HEADER_OFFSET

instance (n : Nat) (c : rte_mbuf) : Decidable (message_chunk n c) := by
  unfold message_chunk; infer_instance

/-- The payload of a chunk: the bytes behind the service header. -/
def chunk_payload (c : rte_mbuf) : List Nat :=
  c.data.drop (SERVICE_HEADER_OFFSET + SERVICE_HEADER_LEN)

/-- The first non-empty burst of a sequence of RX bursts, if there is one: the burst after
which the receive loop evaluates its end-of-burst test for the first time. -/
def first_burst (rx : List (List rte_mbuf)) : Option (List rte_mbuf) :=
  rx.find? (fun rx_buf => decide (rx_buf.length ≠ 0))

/-- The four `assert`s of `create_uW_chunk`, in the order of the source: `data_len` and
`pkt_len` of the skeleton are 1458, and `data_len` and `pkt_len` of the trimmed copy are 58.
When `deepcopy_chunk` ends the process the last two are not reached. The first argument is
the number of free buffers of `fast_forward_pool`. -/
def create_uW_chunk_asserts (fast_forward_pool : Nat) (m_data_full : rte_mbuf) : Bool :=
  decide (m_data_full.data_len = 1458) && decide (m_data_full.pkt_len = 1458) &&
    match deepcopy_chunk fast_forward_pool m_data_full with
    | none => true
    | some m_copy =>
      decide ((rte_pktmbuf_trim m_copy MAX_CHUNK_SIZE).data_len = 58) &&
        decide ((rte_pktmbuf_trim m_copy MAX_CHUNK_SIZE).pkt_len = 58)

/-! ## Header codec: round trip and frame -/

theorem length_pack_service_header_data (d : List Nat) (h : service_header_cpu) :
    (pack_service_header_data d h).length = d.length := by
  simp [pack_service_header_data, store_u8, store_u16]

theorem bswap_lo (x : Nat) : ((x % 256) * 256 + x / 256 % 256) % 256 = x / 256 % 256 := by omega
theorem bswap_hi (x : Nat) : ((x % 256) * 256 + x / 256 % 256) / 256 % 256 = x % 256 := by
  have ha : x % 256 < 256 := Nat.mod_lt _ (by decide)
  have hb : x / 256 % 256 < 256 := Nat.mod_lt _ (by decide)
  generalize x % 256 = a at ha ⊢
  generalize x / 256 % 256 = b at hb ⊢
  omega

/-- Byte-level description of the packed header. -/
theorem getElem?_pack_service_header_data (d : List Nat) (h : service_header_cpu) (i : Nat) :
    (pack_service_header_data d h)[i]? =
      if i < d.length ∧ 42 ≤ i ∧ i < 58 then
        ([h.msg_type % 256, h.msg_flags % 256,
          h.total_msg_num / 256 % 256, h.total_msg_num % 256,
          h.msg_num / 256 % 256, h.msg_num % 256,
          h.total_chunk_num / 256 % 256, h.total_chunk_num % 256,
          h.chunk_num / 256 % 256, h.chunk_num % 256,
          h.chunk_len / 256 % 256, h.chunk_len % 256,
          h.data_chunk_num / 256 % 256, h.data_chunk_num % 256,
          h.iter_num / 256 % 256, h.iter_num % 256] : List Nat)[i - 42]?
      else d[i]? := by
  simp only [pack_service_header_data, store_u8, store_u16, rte_cpu_to_be_16,
    SERVICE_HEADER_OFFSET, sizeof_rte_ether_hdr, sizeof_rte_ipv4_hdr, sizeof_rte_udp_hdr,
    List.getElem?_set, List.length_set, bswap_lo, bswap_hi]
  by_cases hr : 42 ≤ i ∧ i < 58
  · obtain ⟨h1, h2⟩ := hr
    by_cases hl : i < d.length
    · interval_cases i <;> simp [hl]
    · have : d[i]? = none := by simp; omega
      interval_cases i <;> simp [hl, this]
  · have e : ∀ k, 42 ≤ k → k < 58 → (k = i) = False := by
      intro k h1 h2; simp; omega
    have hf : (i < d.length ∧ 42 ≤ i ∧ i < 58) = False := by simp; omega
    simp [e, hf]

theorem getD_pack_service_header_data (d : List Nat) (h : service_header_cpu) (i : Nat)
    (hlen : 58 ≤ d.length) (h1 : 42 ≤ i) (h2 : i < 58) :
    (pack_service_header_data d h).getD i 0 =
      ([h.msg_type % 256, h.msg_flags % 256,
          h.total_msg_num / 256 % 256, h.total_msg_num % 256,
          h.msg_num / 256 % 256, h.msg_num % 256,
          h.total_chunk_num / 256 % 256, h.total_chunk_num % 256,
          h.chunk_num / 256 % 256, h.chunk_num % 256,
          h.chunk_len / 256 % 256, h.chunk_len % 256,
          h.data_chunk_num / 256 % 256, h.data_chunk_num % 256,
          h.iter_num / 256 % 256, h.iter_num % 256] : List Nat).getD (i - 42) 0 := by
  rw [List.getD_eq_getElem?_getD, getElem?_pack_service_header_data,
    if_pos ⟨by omega, h1, h2⟩, List.getD_eq_getElem?_getD]

theorem be16_decode (v : Nat) (hv : v < 65536) :
    rte_be_to_cpu_16 (v / 256 % 256 + 256 * (v % 256)) = v := by
  unfold rte_be_to_cpu_16
  have hv' : v = 256 * (v / 256) + v % 256 := (Nat.div_add_mod v 256).symm
  have ha : v % 256 < 256 := Nat.mod_lt _ (by decide)
  have hb : v / 256 < 256 := by omega
  generalize v % 256 = a at *
  generalize v / 256 = b at *
  subst hv'
  omega

/-- A read inside the packet data does not see the stale bytes behind it. -/
theorem getD_room (m : rte_mbuf) (i : Nat) (h : i < m.data.length) :
    m.room.getD i 0 = m.data.getD i 0 := by
  unfold rte_mbuf.room
  exact List.getD_append _ _ _ _ h

theorem unpack_pack_eq (m : rte_mbuf) (h : service_header_cpu)
    (hlen' : 58 ≤ m.data.length) (hh : h.in_range) :
    unpack_service_header (pack_service_header m h) = h := by
  obtain ⟨h1, h2, h3, h4, h5, h6, h7, h8, h9⟩ := hh
  have hl : (pack_service_header m h).data.length = m.data.length := by
    simp only [pack_service_header, length_pack_service_header_data]
  have hroom : ∀ i, i < 58 →
      (pack_service_header m h).room.getD i 0 = (pack_service_header_data m.data h).getD i 0 :=
    fun i hi => getD_room _ i (by omega)
  cases h
  simp only [unpack_service_header, load_u8, load_u16,
    SERVICE_HEADER_OFFSET, sizeof_rte_ether_hdr, sizeof_rte_ipv4_hdr, sizeof_rte_udp_hdr,
    Nat.reduceAdd] at *
  rw [hroom 42 (by omega), hroom 43 (by omega), hroom 44 (by omega), hroom 45 (by omega),
    hroom 46 (by omega), hroom 47 (by omega), hroom 48 (by omega), hroom 49 (by omega),
    hroom 50 (by omega), hroom 51 (by omega), hroom 52 (by omega), hroom 53 (by omega),
    hroom 54 (by omega), hroom 55 (by omega), hroom 56 (by omega), hroom 57 (by omega)]
  simp only [getD_pack_service_header_data _ _ _ hlen', Nat.reduceLeDiff, Nat.reduceLT,
    Nat.reduceSub, be16_decode, *]
  simp [be16_decode, Nat.mod_eq_of_lt, *]

/-- C1: unpacking the header that was just packed into a buffer that can hold it returns the
packed header, whatever the buffer held before. -/
theorem unpack_pack_service_header (m : rte_mbuf) (h : service_header_cpu)
    (hlen : SERVICE_HEADER_OFFSET + SERVICE_HEADER_LEN ≤ m.data_len) (hh : h.in_range) :
    unpack_service_header (pack_service_header m h) = h :=
  unpack_pack_eq m h hlen hh

theorem unpack_pack_service_header_witness :
    unpack_service_header (pack_service_header ⟨List.replicate 58 255, 58, 1, 128, []⟩
      ⟨1, 1, 2, 3, 4, 5, 6, 7, 8⟩) = ⟨1, 1, 2, 3, 4, 5, 6, 7, 8⟩ :=
  unpack_pack_service_header _ _ (by decide) (by decide)

/-- C2 (as stated) fails: the service header is not 14 bytes long, and packing changes the two
bytes at offsets 56 and 57, which lie outside `[42, 42 + 14)`. -/
theorem pack_service_header_not_14_bytes :
    SERVICE_HEADER_LEN ≠ 14 ∧
    (pack_service_header ⟨List.replicate 58 0, 58, 1, 128, []⟩ ⟨0, 0, 0, 0, 0, 0, 0, 0, 0x0102⟩).data[56]?
      ≠ (List.replicate 58 0)[56]? ∧
    (pack_service_header ⟨List.replicate 58 0, 58, 1, 128, []⟩ ⟨0, 0, 0, 0, 0, 0, 0, 0, 0x0102⟩).data[57]?
      ≠ (List.replicate 58 0)[57]? := by
  decide

/-- C2 (amended): the service header is 16 bytes long and sits at offset 42;
`pack_service_header` writes exactly the 16 bytes at offsets `[42, 58)`, each 16-bit field
high byte first, and leaves every other byte and every other field of the buffer as it was. -/
theorem pack_service_header_frame (m : rte_mbuf) (h : service_header_cpu)
    (hlen : SERVICE_HEADER_OFFSET + SERVICE_HEADER_LEN ≤ m.data_len) (hh : h.in_range) :
    SERVICE_HEADER_LEN = 16 ∧ SERVICE_HEADER_OFFSET = 42 ∧
    (pack_service_header m h).data.length = m.data.length ∧
    (pack_service_header m h).pkt_len = m.pkt_len ∧
    (pack_service_header m h).nb_segs = m.nb_segs ∧
    (pack_service_header m h).headroom = m.headroom ∧
    (∀ i, i < SERVICE_HEADER_OFFSET ∨ SERVICE_HEADER_OFFSET + SERVICE_HEADER_LEN ≤ i →
      (pack_service_header m h).data[i]? = m.data[i]?) ∧
    ((pack_service_header m h).data.drop SERVICE_HEADER_OFFSET).take SERVICE_HEADER_LEN =
      [h.msg_type, h.msg_flags,
       h.total_msg_num / 256, h.total_msg_num % 256,
       h.msg_num / 256, h.msg_num % 256,
       h.total_chunk_num / 256, h.total_chunk_num % 256,
       h.chunk_num / 256, h.chunk_num % 256,
       h.chunk_len / 256, h.chunk_len % 256,
       h.data_chunk_num / 256, h.data_chunk_num % 256,
       h.iter_num / 256, h.iter_num % 256] := by
  have eO : SERVICE_HEADER_OFFSET = 42 := rfl
  have eL : SERVICE_HEADER_LEN = 16 := rfl
  have hlen' : 58 ≤ m.data.length := hlen
  obtain ⟨h1, h2, h3, h4, h5, h6, h7, h8, h9⟩ := hh
  refine ⟨eL, eO, ?_, by simp only [pack_service_header], by simp only [pack_service_header],
    by simp only [pack_service_header], ?_, ?_⟩
  · simp only [pack_service_header]
    exact length_pack_service_header_data _ _
  · intro i hi
    rw [eO, eL] at hi
    simp only [pack_service_header]
    rw [getElem?_pack_service_header_data, if_neg (by omega)]
  · rw [eO, eL]
    apply List.ext_getElem?
    intro i
    simp only [pack_service_header, List.getElem?_take, List.getElem?_drop,
      getElem?_pack_service_header_data]
    by_cases hi : i < 16
    · rw [if_pos hi, if_pos ⟨by omega, by omega, by omega⟩]
      have e : 42 + i - 42 = i := by omega
      rw [e]
      have d3 : h.total_msg_num / 256 % 256 = h.total_msg_num / 256 := by omega
      have d4 : h.msg_num / 256 % 256 = h.msg_num / 256 := by omega
      have d5 : h.total_chunk_num / 256 % 256 = h.total_chunk_num / 256 := by omega
      have d6 : h.chunk_num / 256 % 256 = h.chunk_num / 256 := by omega
      have d7 : h.chunk_len / 256 % 256 = h.chunk_len / 256 := by omega
      have d8 : h.data_chunk_num / 256 % 256 = h.data_chunk_num / 256 := by omega
      have d9 : h.iter_num / 256 % 256 = h.iter_num / 256 := by omega
      rw [d3, d4, d5, d6, d7, d8, d9, Nat.mod_eq_of_lt h1, Nat.mod_eq_of_lt h2]
    · rw [if_neg hi]
      symm
      rw [List.getElem?_eq_none_iff]
      simp only [List.length_cons, List.length_nil]
      omega

theorem pack_service_header_frame_witness :
    ((pack_service_header ⟨List.replicate 60 255, 60, 1, 128, []⟩
        ⟨1, 1, 2, 3, 4, 5, 6, 7, 258⟩).data.drop SERVICE_HEADER_OFFSET).take SERVICE_HEADER_LEN =
      [1, 1, 2 / 256, 2 % 256, 3 / 256, 3 % 256, 4 / 256, 4 % 256, 5 / 256, 5 % 256,
       6 / 256, 6 % 256, 7 / 256, 7 % 256, 258 / 256, 258 % 256] :=
  (pack_service_header_frame ⟨List.replicate 60 255, 60, 1, 128, []⟩
    ⟨1, 1, 2, 3, 4, 5, 6, 7, 258⟩ (by decide) (by decide)).2.2.2.2.2.2.2

/-! ## Completeness check -/

theorem check_service_hdr_loop_iff (hs : List service_header_cpu) (e : Nat) :
    check_service_hdr_loop hs e = true ↔
      ∀ i (hi : i < hs.length), hs[i].chunk_num = if i = 0 then e else (e + i) % 65536 := by
  induction hs generalizing e with
  | nil => simp [check_service_hdr_loop]
  | cons h t ih =>
    simp only [check_service_hdr_loop]
    by_cases hc : h.chunk_num = e
    · simp only [hc, ne_eq, not_true_eq_false, if_false, ih]
      constructor
      · intro H i hi
        cases i with
        | zero => simpa using hc
        | succ j =>
          have := H j (by simpa using hi)
          simp only [List.getElem_cons_succ, this, Nat.succ_ne_zero, if_false]
          by_cases hj : j = 0
          · subst hj; simp
          · rw [if_neg hj]; omega
      · intro H i hi
        have := H (i + 1) (by simpa using hi)
        simp only [List.getElem_cons_succ, Nat.succ_ne_zero, if_false] at this
        rw [this]
        by_cases hj : i = 0
        · subst hj; simp
        · rw [if_neg hj]; omega
    · simp only [ne_eq, hc, not_false_eq_true, if_true]
      constructor
      · intro H; cases H
      · intro H
        exact absurd (by simpa using H 0 (by simp)) hc

theorem check_service_hdr_buf_eq (hs : List service_header_cpu) (hne : hs ≠ [])
    (hr : (hs.getLast hne).total_chunk_num < 65536) :
    check_service_hdr_buf hs = some (decide (hs.length = (hs.getLast hne).total_chunk_num ∧
      ∀ i (hi : i < hs.length), hs[i].chunk_num = i)) := by
  unfold check_service_hdr_buf
  rw [List.getLast?_eq_getLast _ hne]
  simp only [ne_eq, ite_not]
  by_cases hl : hs.length = (hs.getLast hne).total_chunk_num
  · rw [if_pos hl]
    congr 1
    rw [Bool.eq_iff_iff, check_service_hdr_loop_iff]
    simp only [hl, true_and, decide_eq_true_eq]
    constructor
    · intro H i hi
      rw [H i (hl ▸ hi)]
      split
      · omega
      · have : i < 65536 := by omega
        omega
    · intro H i hi
      rw [H i hi]
      split
      · omega
      · have : i < 65536 := by omega
        omega
  · rw [if_neg hl]
    simp [hl]

/-- C3: on a non-empty header vector `check_service_hdr_buf` returns, and it returns true
exactly when the vector has as many headers as the last header's `total_chunk_num` says and
the header at every index `i` has `chunk_num = i`. -/
theorem check_service_hdr_buf_iff (hs : List service_header_cpu) (hne : hs ≠ [])
    (hr : ∀ h ∈ hs, h.in_range) :
    (∃ b, check_service_hdr_buf hs = some b) ∧
    (check_service_hdr_buf hs = some true ↔
      hs.length = (hs.getLast hne).total_chunk_num ∧
        ∀ i (hi : i < hs.length), hs[i].chunk_num = i) := by
  have hr' : (hs.getLast hne).total_chunk_num < 65536 :=
    (hr _ (List.getLast_mem hne)).2.2.2.2.1
  rw [check_service_hdr_buf_eq hs hne hr']
  exact ⟨⟨_, rfl⟩, by simp⟩

theorem check_service_hdr_buf_iff_witness :
    (∀ h ∈ [(⟨0, 0, 1, 0, 2, 0, 30, 0, 0⟩ : service_header_cpu), ⟨0, 0, 1, 0, 2, 1, 20, 0, 0⟩],
      h.in_range) ∧
    check_service_hdr_buf [⟨0, 0, 1, 0, 2, 0, 30, 0, 0⟩, ⟨0, 0, 1, 0, 2, 1, 20, 0, 0⟩] =
      some true :=
  ⟨by decide,
   (check_service_hdr_buf_iff [⟨0, 0, 1, 0, 2, 0, 30, 0, 0⟩, ⟨0, 0, 1, 0, 2, 1, 20, 0, 0⟩]
      (by decide) (by decide)).2.2 ⟨by decide, by decide⟩⟩

/-! ## Reordering recovery -/

theorem getElem?_set_set {T : Type} (l : List T) (i j : Nat) (a b : T)
    (hi : i < l.length) (hj : j < l.length) (k : Nat) :
    ((l.set i b).set j a)[k]? = if k = j then some a else if k = i then some b else l[k]? := by
  rw [List.getElem?_set]
  by_cases hkj : j = k
  · subst hkj; simp [hj]
  · rw [if_neg hkj, if_neg (Ne.symm hkj), List.getElem?_set]
    by_cases hki : i = k
    · subst hki; simp [hi]
    · rw [if_neg hki, if_neg (Ne.symm hki)]

theorem swap_at_eq {T : Type} (l : List T) (i j : Nat) (a b : T)
    (hi : l[i]? = some a) (hj : l[j]? = some b) :
    swap_at l i j = some ((l.set i b).set j a) := by
  simp [swap_at, hi, hj]

theorem reorder_find_spec (vv : Nat) (l : List Nat) (s : Nat) (hmem : vv ∈ l) :
    s ≤ reorder_find vv l s ∧ l[reorder_find vv l s - s]? = some vv := by
  induction l generalizing s with
  | nil => cases hmem
  | cons x rest ih =>
    simp only [reorder_find]
    by_cases hx : x = vv
    · simp [hx]
    · rw [if_neg hx]
      have hmem' : vv ∈ rest := by
        rcases List.mem_cons.1 hmem with h | h
        · exact absurd h.symm hx
        · exact h
      obtain ⟨h1, h2⟩ := ih (s + 1) hmem'
      refine ⟨by omega, ?_⟩
      have e : reorder_find vv rest (s + 1) - s = (reorder_find vv rest (s + 1) - (s + 1)) + 1 := by
        omega
      rw [e, List.getElem?_cons_succ]
      exact h2

theorem reorder_step_inv {T : Type} (n : Nat) (vec0 : List T) (p : List Nat) (vv : Nat)
    (vec : List T) (no : List Nat) (hinv : reorder_inv n vec0 p vv vec no) (hvv : vv < n) :
    ∃ vec' no', reorder_step vv vec no = some (vec', no') ∧
      reorder_inv n vec0 p (vv + 1) vec' no' := by
  obtain ⟨hlv, hln, hbd, hinj, hsur, hpre, hrel⟩ := hinv
  have hvvlt : vv < no.length := by omega
  obtain ⟨t, ht⟩ : ∃ t, no[vv]? = some t := ⟨no[vv], List.getElem?_eq_getElem hvvlt⟩
  unfold reorder_step
  rw [ht]
  by_cases htv : t = vv
  · refine ⟨vec, no, by simp [htv], hlv, hln, hbd, hinj, hsur, ?_, hrel⟩
    intro i hi
    by_cases hiv : i = vv
    · rw [hiv, ht, htv]
    · exact hpre i (by omega)
  · -- the position that holds `vv` lies behind `vv`
    obtain ⟨j, hj⟩ := hsur vv hvv
    have hjne : j ≠ vv := by
      intro h; rw [h, ht] at hj; exact htv (Option.some.inj hj)
    have hjgt : vv < j := by
      rcases Nat.lt_or_ge j vv with h | h
      · have := hpre j h
        rw [this] at hj
        have := Option.some.inj hj
        omega
      · omega
    have hmem : vv ∈ no.drop (vv + 1) := by
      rw [List.mem_iff_getElem?]
      refine ⟨j - (vv + 1), ?_⟩
      rw [List.getElem?_drop]
      have : vv + 1 + (j - (vv + 1)) = j := by omega
      rw [this, hj]
    obtain ⟨hoo1, hoo2⟩ := reorder_find_spec vv (no.drop (vv + 1)) (vv + 1) hmem
    generalize reorder_find vv (no.drop (vv + 1)) (vv + 1) = oo at hoo1 hoo2
    rw [List.getElem?_drop] at hoo2
    have e : vv + 1 + (oo - (vv + 1)) = oo := by omega
    rw [e] at hoo2
    have hoolt : oo < no.length := by
      rcases Nat.lt_or_ge oo no.length with h | h
      · exact h
      · rw [List.getElem?_eq_none_iff.2 h] at hoo2; cases hoo2
    have htlt : t < vec.length := by have := hbd vv t ht; omega
    have hvvlt' : vv < vec.length := by omega
    have hva : vec[vv]? = some vec[vv] := List.getElem?_eq_getElem hvvlt'
    have hvb : vec[t]? = some vec[t] := List.getElem?_eq_getElem htlt
    simp only [if_neg htv]
    rw [swap_at_eq vec vv t _ _ hva hvb, swap_at_eq no vv oo _ _ ht hoo2]
    have hswap : ∀ k, ((no.set vv vv).set oo t)[k]? =
        no[if k = oo then vv else if k = vv then oo else k]? := by
      intro k
      rw [getElem?_set_set _ _ _ _ _ hvvlt hoolt]
      by_cases h1 : k = oo
      · rw [if_pos h1, if_pos h1, ht]
      · rw [if_neg h1, if_neg h1]
        by_cases h2 : k = vv
        · rw [if_pos h2, if_pos h2, hoo2]
        · rw [if_neg h2, if_neg h2]
    refine ⟨_, _, rfl, by simp [hlv], by simp [hln], ?_, ?_, ?_, ?_, ?_⟩
    · intro i v hiv
      rw [getElem?_set_set _ _ _ _ _ hvvlt hoolt] at hiv
      split at hiv
      · cases hiv; omega
      · split at hiv
        · cases hiv; omega
        · exact hbd i v hiv
    · intro i k v hi hk
      rw [hswap] at hi hk
      have := hinj _ _ _ hi hk
      split at this <;> split at this <;> (try split at this) <;> (try split at this) <;> omega
    · intro v hv
      obtain ⟨k, hk⟩ := hsur v hv
      by_cases h1 : k = vv
      · refine ⟨oo, ?_⟩
        rw [getElem?_set_set _ _ _ _ _ hvvlt hoolt, if_pos rfl]
        rw [h1, ht] at hk; exact hk
      · by_cases h2 : k = oo
        · refine ⟨vv, ?_⟩
          rw [getElem?_set_set _ _ _ _ _ hvvlt hoolt, if_neg (by omega), if_pos rfl]
          rw [h2, hoo2] at hk; exact hk
        · refine ⟨k, ?_⟩
          rw [getElem?_set_set _ _ _ _ _ hvvlt hoolt, if_neg h2, if_neg h1]
          exact hk
    · intro i hi
      rw [getElem?_set_set _ _ _ _ _ hvvlt hoolt, if_neg (by omega)]
      by_cases hiv : i = vv
      · rw [if_pos hiv, hiv]
      · rw [if_neg hiv]; exact hpre i (by omega)
    · intro i hi
      rw [← hrel i hi, getElem?_set_set _ _ _ _ _ hvvlt hoolt]
      by_cases h1 : i = oo
      · rw [if_pos h1, h1, hoo2]
        simp only [Option.some_bind]
        rw [getElem?_set_set _ _ _ _ _ hvvlt' htlt, if_pos rfl, hva]
      · rw [if_neg h1]
        by_cases h2 : i = vv
        · rw [if_pos h2, h2, ht]
          simp only [Option.some_bind]
          rw [getElem?_set_set _ _ _ _ _ hvvlt' htlt, if_neg (Ne.symm htv), if_pos rfl, hvb]
        · rw [if_neg h2]
          cases hnv : no[i]? with
          | none => rfl
          | some v =>
            simp only [Option.some_bind]
            have hvt : v ≠ t := by
              intro h; rw [h] at hnv; exact h2 (hinj _ _ _ hnv ht)
            have hvv' : v ≠ vv := by
              intro h; rw [h] at hnv; exact h1 (hinj _ _ _ hnv hoo2)
            rw [getElem?_set_set _ _ _ _ _ hvvlt' htlt, if_neg hvt, if_neg hvv']

theorem reorder_loop_inv {T : Type} (n : Nat) (vec0 : List T) (p : List Nat) (k : Nat) :
    ∀ (vv : Nat) (vec : List T) (no : List Nat), reorder_inv n vec0 p vv vec no → vv + k ≤ n →
    ∃ vec' no', reorder_loop k vv vec no = some (vec', no') ∧
      reorder_inv n vec0 p (vv + k) vec' no' := by
  induction k with
  | zero => intro vv vec no hinv _; exact ⟨vec, no, rfl, hinv⟩
  | succ k ih =>
    intro vv vec no hinv hle
    obtain ⟨vec1, no1, hstep, hinv1⟩ := reorder_step_inv n vec0 p vv vec no hinv (by omega)
    obtain ⟨vec2, no2, hloop, hinv2⟩ := ih (vv + 1) vec1 no1 hinv1 (by omega)
    refine ⟨vec2, no2, ?_, ?_⟩
    · simp only [reorder_loop, hstep, hloop]
    · have e : vv + (k + 1) = vv + 1 + k := by omega
      rw [e]; exact hinv2

theorem reorder_inv_init {T : Type} (n : Nat) (vec0 : List T) (p : List Nat)
    (hlen : vec0.length = n) (hp : p.Perm (List.range n)) :
    reorder_inv n vec0 p 0 vec0 p := by
  have hnd : p.Nodup := hp.nodup_iff.2 (List.nodup_range n)
  refine ⟨hlen, by simpa using hp.length_eq, ?_, ?_, ?_, ?_, ?_⟩
  · intro i v hiv
    have : v ∈ p := List.mem_iff_getElem?.2 ⟨i, hiv⟩
    simpa using hp.mem_iff.1 this
  · intro i j v hi hj
    by_contra hne
    rcases Nat.lt_or_gt_of_ne hne with h | h
    · have hjl : j < p.length := by
        rcases Nat.lt_or_ge j p.length with h' | h'
        · exact h'
        · rw [List.getElem?_eq_none_iff.2 h'] at hj; cases hj
      exact List.nodup_iff_getElem?_ne_getElem?.1 hnd i j h hjl (hi.trans hj.symm)
    · have hil : i < p.length := by
        rcases Nat.lt_or_ge i p.length with h' | h'
        · exact h'
        · rw [List.getElem?_eq_none_iff.2 h'] at hi; cases hi
      exact List.nodup_iff_getElem?_ne_getElem?.1 hnd j i h hil (hj.trans hi.symm)
  · intro v hv
    have : v ∈ p := hp.mem_iff.2 (by simpa using hv)
    exact List.mem_iff_getElem?.1 this
  · intro i hi; omega
  · intro i _; rfl

theorem reorder_inv_final {T : Type} (n : Nat) (vec0 : List T) (p : List Nat)
    (vec : List T) (no : List Nat) (hn : 1 ≤ n) (hinv : reorder_inv n vec0 p (n - 1) vec no) :
    vec.length = n ∧ ∀ i, i < n → vec[i]? = (p[i]?).bind (fun v => vec0[v]?) := by
  obtain ⟨hlv, hln, hbd, hinj, hsur, hpre, hrel⟩ := hinv
  refine ⟨hlv, ?_⟩
  have hid : ∀ i, i < n → no[i]? = some i := by
    intro i hi
    by_cases h : i < n - 1
    · exact hpre i h
    · have hi' : i = n - 1 := by omega
      obtain ⟨j, hj⟩ := hsur (n - 1) (by omega)
      have hjl : j < no.length := by
        rcases Nat.lt_or_ge j no.length with h' | h'
        · exact h'
        · rw [List.getElem?_eq_none_iff.2 h'] at hj; cases hj
      by_cases hj' : j < n - 1
      · have := hpre j hj'
        rw [this] at hj
        have := Option.some.inj hj
        omega
      · have hjn : j = n - 1 := by omega
        rw [hi', ← hjn, hj, hjn]
  intro i hi
  rw [← hrel i hi, hid i hi]
  rfl

/-- Applied to a permutation of the positions, `reorder` puts the element of position
`new_order[i]` at position `i`. -/
theorem reorder_spec {T : Type} (vec : List T) (p : List Nat) (hn : 1 ≤ vec.length)
    (hp : p.Perm (List.range vec.length)) :
    ∃ r, reorder vec p = some r ∧ r.length = vec.length ∧
      ∀ i, i < vec.length → r[i]? = (p[i]?).bind (fun v => vec[v]?) := by
  have hpl : p.length = vec.length := by simpa using hp.length_eq
  obtain ⟨vec', no', hloop, hinv⟩ := reorder_loop_inv vec.length vec p (vec.length - 1) 0 vec p
    (reorder_inv_init _ vec p rfl hp) (by omega)
  rw [Nat.zero_add] at hinv
  obtain ⟨h1, h2⟩ := reorder_inv_final _ vec p vec' no' hn hinv
  refine ⟨vec', ?_, h1, h2⟩
  unfold reorder
  rw [if_neg (by omega), if_neg (by omega), hloop]
  rfl

theorem std_sort_perm (comp : Nat → Nat → Bool) (l : List Nat) : (std_sort comp l).Perm l :=
  List.perm_insertionSort _ l

theorem std_sort_keys (key : Nat → Nat) (l : List Nat) :
    ((std_sort (fun A B => decide (key A < key B)) l).map key).Sorted (· ≤ ·) := by
  unfold std_sort
  have hr : (fun a b : Nat => decide (key b < key a) = false) = fun a b => key a ≤ key b := by
    funext a b; simp
  haveI : IsTotal Nat (fun a b => decide (key b < key a) = false) :=
    ⟨fun a b => by simp only [decide_eq_false_iff_not, not_lt]; exact Nat.le_total _ _⟩
  haveI : IsTrans Nat (fun a b => decide (key b < key a) = false) :=
    ⟨fun a b c h1 h2 => by
      simp only [decide_eq_false_iff_not, not_lt] at *; exact Nat.le_trans h1 h2⟩
  have hs := List.sorted_insertionSort (fun a b => decide (key b < key a) = false) l
  rw [List.Sorted, List.pairwise_map]
  refine List.Pairwise.imp ?_ hs
  intro a b h
  simpa using h

/-- Keys that are a permutation of `0..n-1`: the sorted position vector lists, at position
`i`, the position of the key `i`. -/
theorem std_sort_key_at (key : Nat → Nat) (n : Nat)
    (hperm : ((List.range n).map key).Perm (List.range n)) :
    (std_sort (fun A B => decide (key A < key B)) (List.range n)).map key = List.range n := by
  apply List.eq_of_perm_of_sorted (r := (· ≤ ·))
  · exact ((std_sort_perm _ _).map key).trans hperm
  · exact std_sort_keys key _
  · exact (List.sorted_lt_range n).le_of_lt

/-- Recovery of a complete chunk set that arrived in any order (the content of C4). -/
theorem recover_chunks_complete (n : Nat) (hn : 1 ≤ n) (cs : List rte_mbuf)
    (hs : List service_header_cpu) (hcl : cs.length = n) (hhl : hs.length = n)
    (hr : ∀ h ∈ hs, h.in_range) (htot : ∀ h ∈ hs, h.total_chunk_num = n)
    (hperm : (hs.map (·.chunk_num)).Perm (List.range n)) :
    ∃ (cs' : List rte_mbuf) (hs' : List service_header_cpu) (σ : List Nat),
      recover_chunks cs hs = some (cs', hs') ∧ σ.Perm (List.range n) ∧
      cs'.length = n ∧ hs'.length = n ∧
      (∀ i, i < n → cs'[i]? = (σ[i]?).bind (fun k => cs[k]?) ∧
        hs'[i]? = (σ[i]?).bind (fun k => hs[k]?)) ∧
      (∀ i (hi : i < hs'.length), hs'[i].chunk_num = i) ∧
      check_service_hdr_buf hs' = some true := by
  have hne : hs ≠ [] := by intro h; rw [h] at hhl; simp at hhl; omega
  let key : Nat → Nat := fun A => (hs[A]?.map (·.chunk_num)).getD 0
  have hkeymap : (List.range n).map key = hs.map (·.chunk_num) := by
    apply List.ext_getElem?
    intro i
    simp only [List.getElem?_map, key]
    by_cases hi : i < n
    · have hi' : i < hs.length := by omega
      rw [List.getElem?_range hi]
      simp [List.getElem?_eq_getElem hi']
    · rw [List.getElem?_eq_none_iff.2 (by simpa using hi),
        List.getElem?_eq_none_iff.2 (by omega : hs.length ≤ i)]
      simp
  have hsorted := std_sort_key_at key n (by rw [hkeymap]; exact hperm)
  have hσ : (std_sort (fun A B => decide (key A < key B)) (List.range n)).Perm (List.range n) :=
    std_sort_perm _ _
  obtain ⟨σ, hσdef⟩ : ∃ σ, σ = std_sort (fun A B => decide (key A < key B)) (List.range n) :=
    ⟨_, rfl⟩
  rw [← hσdef] at hsorted hσ
  obtain ⟨cs', hcs1, hcs2, hcs3⟩ := reorder_spec cs σ (by omega) (by rw [hcl]; exact hσ)
  obtain ⟨hs', hhs1, hhs2, hhs3⟩ := reorder_spec hs σ (by omega) (by rw [hhl]; exact hσ)
  have hlast : ∀ (l : service_header_cpu), hs.getLast? = some l →
      hs.length = l.total_chunk_num := by
    intro l hl
    rw [List.getLast?_eq_getLast _ hne] at hl
    rw [← Option.some.inj hl, htot _ (List.getLast_mem hne), hhl]
  have hmem' : ∀ i (hi : i < hs'.length), hs'[i] ∈ hs ∧ hs'[i].chunk_num = i := by
    intro i hi
    have h1 := (hhs3 i (by omega))
    rw [List.getElem?_eq_getElem hi] at h1
    have hiσ : i < σ.length := by have := hσ.length_eq; simp at this; omega
    rw [List.getElem?_eq_getElem hiσ, Option.some_bind] at h1
    have hk : (σ.map key)[i]? = (List.range n)[i]? := by rw [hsorted]
    rw [List.getElem?_map, List.getElem?_eq_getElem hiσ, List.getElem?_range (by omega)] at hk
    simp only [Option.map_some', Option.some.injEq, key] at hk
    rw [← h1] at hk
    simp only [Option.map_some', Option.getD_some] at hk
    exact ⟨List.mem_iff_getElem?.2 ⟨_, h1.symm⟩, hk⟩
  have hne' : hs' ≠ [] := by intro h; rw [h] at hhs2; simp at hhs2; omega
  have hlast' : (hs'.getLast hne').total_chunk_num = n := by
    obtain ⟨i, hi, he⟩ := List.getElem_of_mem (List.getLast_mem hne')
    rw [← he]
    exact htot _ (hmem' i hi).1
  refine ⟨cs', hs', σ, ?_, hσ, by omega, by omega, ?_, fun i hi => (hmem' i hi).2, ?_⟩
  · unfold recover_chunks
    cases hl : hs.getLast? with
    | none => exact absurd (List.getLast?_eq_none_iff.1 hl) hne
    | some l =>
      simp only [ne_eq, hlast l hl, not_true_eq_false, if_false, hcl]
      show (match reorder cs (std_sort (fun A B => decide (key A < key B)) (List.range n)),
        reorder hs (std_sort (fun A B => decide (key A < key B)) (List.range n)) with
        | some a, some b => some (a, b)
        | _, _ => none) = _
      rw [← hσdef, hcs1, hhs1]
  · intro i hi
    exact ⟨hcs3 i (by omega), hhs3 i (by omega)⟩
  · have hrange : (hs'.getLast hne').total_chunk_num < 65536 := by
      obtain ⟨i, hi, he⟩ := List.getElem_of_mem (List.getLast_mem hne')
      rw [← he]
      exact (hr _ (hmem' i hi).1).2.2.2.2.1
    rw [check_service_hdr_buf_eq hs' hne' hrange]
    simp only [Option.some.injEq, decide_eq_true_eq]
    exact ⟨by rw [hlast']; omega, fun i hi => (hmem' i hi).2⟩

/-- C4: for `n ≥ 1` paired chunk/header entries of a complete chunk set in any arrival order
(every `total_chunk_num = n`, the `chunk_num` values a permutation of `0..n-1`),
`recover_chunks` returns; it moves the chunk and the header of arrival position `σ[i]` to
position `i` for one and the same permutation `σ`, afterwards `headers[i].chunk_num = i` for
every `i`, and `check_service_hdr_buf` returns true. -/
theorem recover_chunks_spec (n : Nat) (hn : 1 ≤ n) (cs : List rte_mbuf)
    (hs : List service_header_cpu) (hcl : cs.length = n) (hhl : hs.length = n)
    (hr : ∀ h ∈ hs, h.in_range) (htot : ∀ h ∈ hs, h.total_chunk_num = n)
    (hperm : (hs.map (·.chunk_num)).Perm (List.range n)) :
    ∃ (cs' : List rte_mbuf) (hs' : List service_header_cpu) (σ : List Nat),
      recover_chunks cs hs = some (cs', hs') ∧ σ.Perm (List.range n) ∧
      cs'.length = n ∧ hs'.length = n ∧
      (∀ i, i < n → cs'[i]? = (σ[i]?).bind (fun k => cs[k]?) ∧
        hs'[i]? = (σ[i]?).bind (fun k => hs[k]?)) ∧
      (∀ i (hi : i < hs'.length), hs'[i].chunk_num = i) ∧
      check_service_hdr_buf hs' = some true :=
  recover_chunks_complete n hn cs hs hcl hhl hr htot hperm

theorem recover_chunks_spec_witness :
    ∃ (cs' : List rte_mbuf) (hs' : List service_header_cpu),
      recover_chunks
        [⟨[2], 1, 1, 128, []⟩, ⟨[0], 1, 1, 128, []⟩, ⟨[3], 1, 1, 128, []⟩, ⟨[1], 1, 1, 128, []⟩]
        [⟨0, 0, 1, 0, 4, 2, 30, 0, 0⟩, ⟨0, 0, 1, 0, 4, 0, 30, 0, 0⟩,
         ⟨0, 0, 1, 0, 4, 3, 30, 0, 0⟩, ⟨0, 0, 1, 0, 4, 1, 30, 0, 0⟩] = some (cs', hs') ∧
      check_service_hdr_buf hs' = some true := by
  obtain ⟨cs', hs', _, h1, _, _, _, _, _, h7⟩ := recover_chunks_spec 4 (by decide)
    [⟨[2], 1, 1, 128, []⟩, ⟨[0], 1, 1, 128, []⟩, ⟨[3], 1, 1, 128, []⟩, ⟨[1], 1, 1, 128, []⟩]
    [⟨0, 0, 1, 0, 4, 2, 30, 0, 0⟩, ⟨0, 0, 1, 0, 4, 0, 30, 0, 0⟩,
     ⟨0, 0, 1, 0, 4, 3, 30, 0, 0⟩, ⟨0, 0, 1, 0, 4, 1, 30, 0, 0⟩]
    (by decide) (by decide) (by decide) (by decide) (by decide)
  exact ⟨cs', hs', h1, h7⟩

/-! ## Defragmentation -/

theorem defragment_loop_carries (parts : List (List Nat × rte_mbuf × service_header_cpu))
    (hsz : ∀ t ∈ parts, t.1.length ≤ MAX_CHUNK_SIZE)
    (hc : ∀ t ∈ parts, carries t.1 t.2.1 t.2.2) (acc : List Nat) :
    defragment_loop (parts.map (·.2.1)) (parts.map (·.2.2)) acc =
      some (acc ++ (parts.map (·.1)).flatten) := by
  induction parts generalizing acc with
  | nil => simp [defragment_loop]
  | cons t rest ih =>
    obtain ⟨h1, h2, h3⟩ := hc t (List.mem_cons_self _ _)
    have hsz1 : t.1.length ≤ 1400 := hsz t (List.mem_cons_self _ _)
    have eL : SERVICE_HEADER_LEN = 16 := rfl
    have hn : (t.2.2.chunk_len + 4294967296 - SERVICE_HEADER_LEN) % 4294967296 = t.1.length := by
      rw [h3, eL]; omega
    have hlen : t.2.1.data_len = SERVICE_HEADER_OFFSET + SERVICE_HEADER_LEN + t.1.length := by
      have := congrArg List.length h2
      rw [List.length_drop] at this
      unfold rte_mbuf.data_len at h1 ⊢
      omega
    simp only [List.map_cons, defragment_loop, hn]
    rw [if_pos (by omega), h2, List.take_length]
    rw [ih (fun x hx => hsz x (List.mem_cons_of_mem _ hx))
      (fun x hx => hc x (List.mem_cons_of_mem _ hx))]
    simp

/-- C5: if a byte string is split in order into slices of at most 1400 bytes and every slice
is the payload of one chunk whose header has `chunk_len` = slice length + service-header
length, then `defragment` of the chunks and headers in order returns the byte string. -/
theorem defragment_law (parts : List (List Nat × rte_mbuf × service_header_cpu))
    (hsz : ∀ t ∈ parts, t.1.length ≤ MAX_CHUNK_SIZE)
    (hc : ∀ t ∈ parts, carries t.1 t.2.1 t.2.2) :
    defragment (parts.map (·.2.1)) (parts.map (·.2.2)) = some (parts.map (·.1)).flatten := by
  unfold defragment
  rw [if_neg (by simp), defragment_loop_carries parts hsz hc]
  simp

theorem defragment_law_witness :
    defragment
      [⟨List.replicate 58 0 ++ [1, 2, 3], 61, 1, 128, []⟩, ⟨List.replicate 58 0 ++ [4, 5], 60, 1, 128, []⟩]
      [⟨0, 0, 1, 0, 2, 0, 19, 0, 0⟩, ⟨0, 0, 1, 0, 2, 1, 18, 0, 0⟩] = some [1, 2, 3, 4, 5] :=
  defragment_law
    [([1, 2, 3], ⟨List.replicate 58 0 ++ [1, 2, 3], 61, 1, 128, []⟩, ⟨0, 0, 1, 0, 2, 0, 19, 0, 0⟩),
     ([4, 5], ⟨List.replicate 58 0 ++ [4, 5], 60, 1, 128, []⟩, ⟨0, 0, 1, 0, 2, 1, 18, 0, 0⟩)]
    (by decide) (by decide)

/-! ## Synthesized chunk series -/

theorem create_uW_chunk_eq (pool : Nat) (m : rte_mbuf) (hdr : service_header_cpu)
    (payload : List Nat) (hpool : 0 < pool)
    (hm : full_skeleton m) (hp : payload.length ≤ 1400) :
    create_uW_chunk pool m hdr payload =
      some (uW_chunk m hdr payload) := by
  obtain ⟨h1, h2, h3, h4⟩ := hm
  have h1' : m.data.length = 1458 := h1
  unfold create_uW_chunk
  rw [if_neg (by omega), if_neg (by omega)]
  have hcopy : deepcopy_chunk pool m = some ⟨m.data, 1458, 1, RTE_PKTMBUF_HEADROOM, []⟩ := by
    unfold deepcopy_chunk
    rw [if_neg (by omega), if_neg (by omega), if_neg (by simp [h4]), h2]
  rw [hcopy]
  have htrim : rte_pktmbuf_trim ⟨m.data, 1458, 1, RTE_PKTMBUF_HEADROOM, []⟩ MAX_CHUNK_SIZE =
      ⟨m.data.take 58, 58, 1, RTE_PKTMBUF_HEADROOM, []⟩ := by
    simp only [rte_pktmbuf_trim, rte_mbuf.data_len, MAX_CHUNK_SIZE, h1']
    rw [if_neg (by omega)]
  simp only [htrim]
  have hlt : (m.data.take 58).length = 58 := by simp [h1']
  have hplen : (pack_service_header_data (m.data.take 58) hdr).length = 58 := by
    rw [length_pack_service_header_data, hlt]
  have hmod : payload.length % 65536 = payload.length := Nat.mod_eq_of_lt (by omega)
  have hmod' : payload.length % 4294967296 = payload.length := Nat.mod_eq_of_lt (by omega)
  have happ : rte_pktmbuf_append (pack_service_header ⟨m.data.take 58, 58, 1, RTE_PKTMBUF_HEADROOM, []⟩ hdr)
      (payload.length % 65536) =
      some ⟨pack_service_header_data (m.data.take 58) hdr ++ List.replicate payload.length 0,
        58 + payload.length, 1, RTE_PKTMBUF_HEADROOM, []⟩ := by
    simp only [rte_pktmbuf_append, pack_service_header, rte_mbuf.data_len, hplen, hmod,
      RTE_MBUF_DEFAULT_DATAROOM]
    rw [if_neg (by omega), Nat.mod_eq_of_lt (by omega)]
  simp only [rte_mbuf.data_len, hlt, ne_eq, not_true_eq_false, if_false, happ,
    List.length_append, hplen, List.length_replicate]
  have eA : SERVICE_HEADER_OFFSET + SERVICE_HEADER_LEN = 58 := rfl
  rw [eA, if_neg (by omega)]
  have hcpy : rte_memcpy (pack_service_header_data (m.data.take 58) hdr ++
      List.replicate payload.length 0) 58 payload =
      pack_service_header_data (m.data.take 58) hdr ++ payload := by
    unfold rte_memcpy
    rw [List.take_append_of_le_length (by omega), List.take_of_length_le (by omega),
      List.drop_of_length_le (by simp [hplen]), List.append_nil]
  simp only [hcpy, hmod', List.length_append, hplen, MAX_CHUNK_SIZE, uW_chunk, uW_chunk_base]
  split <;> rfl

theorem getD_store_u16_ne (d : List Nat) (off v i : Nat) (h1 : i ≠ off) (h2 : i ≠ off + 1) :
    (store_u16 d off v).getD i 0 = d.getD i 0 := by
  unfold store_u16
  rw [List.getD_eq_getElem?_getD, List.getD_eq_getElem?_getD,
    List.getElem?_set_ne (Ne.symm h2), List.getElem?_set_ne (Ne.symm h1)]

theorem length_store_u16 (d : List Nat) (off v : Nat) : (store_u16 d off v).length = d.length := by
  simp only [store_u16, List.length_set]

theorem drop_store_u16 (d : List Nat) (off v n : Nat) (h : off + 1 < n) :
    (store_u16 d off v).drop n = d.drop n := by
  unfold store_u16
  rw [List.drop_set_of_lt _ _ (by omega), List.drop_set_of_lt _ _ (by omega)]

/-- The result of `unpack_service_header` depends on the bytes at offsets 42 to 57 only. -/
theorem unpack_service_header_congr_room (m1 m2 : rte_mbuf)
    (h : ∀ i, 42 ≤ i → i < 58 → m1.room.getD i 0 = m2.room.getD i 0) :
    unpack_service_header m1 = unpack_service_header m2 := by
  simp only [unpack_service_header, load_u8, load_u16, SERVICE_HEADER_OFFSET,
    sizeof_rte_ether_hdr, sizeof_rte_ipv4_hdr, sizeof_rte_udp_hdr, Nat.reduceAdd]
  rw [h 42 (by omega) (by omega), h 43 (by omega) (by omega), h 44 (by omega) (by omega),
    h 45 (by omega) (by omega), h 46 (by omega) (by omega), h 47 (by omega) (by omega),
    h 48 (by omega) (by omega), h 49 (by omega) (by omega), h 50 (by omega) (by omega),
    h 51 (by omega) (by omega), h 52 (by omega) (by omega), h 53 (by omega) (by omega),
    h 54 (by omega) (by omega), h 55 (by omega) (by omega), h 56 (by omega) (by omega),
    h 57 (by omega) (by omega)]

/-- Two buffers with packet data of the same length and the same stale bytes behind it
unpack alike when their data agree at offsets 42 to 57. -/
theorem unpack_service_header_congr (m1 m2 : rte_mbuf)
    (hl : m1.data.length = m2.data.length) (hs : m1.stale = m2.stale)
    (h : ∀ i, 42 ≤ i → i < 58 → m1.data.getD i 0 = m2.data.getD i 0) :
    unpack_service_header m1 = unpack_service_header m2 := by
  apply unpack_service_header_congr_room
  intro i h1 h2
  unfold rte_mbuf.room
  by_cases hi : i < m1.data.length
  · rw [List.getD_append _ _ _ _ hi, List.getD_append _ _ _ _ (hl ▸ hi)]
    exact h i h1 h2
  · rw [List.getD_append_right _ _ _ _ (by omega), List.getD_append_right _ _ _ _ (by omega),
      hl, hs]

theorem unpack_update_l3_l4_header (m : rte_mbuf) (p : Nat) :
    unpack_service_header (update_l3_l4_header m p) = unpack_service_header m := by
  refine unpack_service_header_congr (update_l3_l4_header m p) m
    (by simp only [update_l3_l4_header, length_store_u16]) rfl ?_
  intro i h1 h2
  simp only [update_l3_l4_header, sizeof_rte_ether_hdr, sizeof_rte_ipv4_hdr,
    UDP_DGRAM_LEN_OFFSET, IPV4_TOTAL_LENGTH_OFFSET, Nat.reduceAdd]
  rw [getD_store_u16_ne _ _ _ _ (by omega) (by omega),
    getD_store_u16_ne _ _ _ _ (by omega) (by omega)]

theorem unpack_recalc_ipv4_udp_cksum (cks : List Nat → Nat) (m : rte_mbuf) :
    unpack_service_header (recalc_ipv4_udp_cksum cks m) = unpack_service_header m := by
  refine unpack_service_header_congr (recalc_ipv4_udp_cksum cks m) m
    (by simp only [recalc_ipv4_udp_cksum, length_store_u16]) rfl ?_
  intro i h1 h2
  simp only [recalc_ipv4_udp_cksum, sizeof_rte_ether_hdr, sizeof_rte_ipv4_hdr,
    UDP_DGRAM_CKSUM_OFFSET, IPV4_HDR_CHECKSUM_OFFSET, Nat.reduceAdd]
  rw [getD_store_u16_ne _ _ _ _ (by omega) (by omega),
    getD_store_u16_ne _ _ _ _ (by omega) (by omega),
    getD_store_u16_ne _ _ _ _ (by omega) (by omega)]

theorem unpack_uW_chunk_base (m : rte_mbuf) (hdr : service_header_cpu) (payload : List Nat)
    (hm : m.data_len = 1458) (hh : hdr.in_range) :
    unpack_service_header (uW_chunk_base m hdr payload) = hdr := by
  have hlt : (m.data.take 58).length = 58 := by
    have : m.data.length = 1458 := hm
    rw [List.length_take]; omega
  have hplen : (pack_service_header_data (m.data.take 58) hdr).length = 58 := by
    rw [length_pack_service_header_data, hlt]
  refine Eq.trans ?_ (unpack_pack_eq ⟨m.data.take 58, 58, 1, RTE_PKTMBUF_HEADROOM, []⟩ hdr
    (by show 58 ≤ (m.data.take 58).length; omega) hh)
  apply unpack_service_header_congr_room
  intro i h1 h2
  simp only [uW_chunk_base, pack_service_header, rte_mbuf.room, List.append_nil]
  rw [List.getD_eq_getElem?_getD, List.getD_eq_getElem?_getD,
    List.getElem?_append_left (by omega)]

/-- The service header of a chunk built by `create_uW_chunk` is the header it was given. -/
theorem unpack_create_uW_chunk (pool : Nat) (m : rte_mbuf) (hdr : service_header_cpu)
    (payload : List Nat) (hpool : 0 < pool)
    (hm : full_skeleton m) (hp : payload.length ≤ 1400) (hh : hdr.in_range) :
    ∃ c, create_uW_chunk pool m hdr payload = some c ∧ unpack_service_header c = hdr ∧
      c.data.drop (SERVICE_HEADER_OFFSET + SERVICE_HEADER_LEN) = payload ∧
      c.data_len = SERVICE_HEADER_OFFSET + SERVICE_HEADER_LEN + payload.length := by
  have hplen : (pack_service_header_data (m.data.take 58) hdr).length = 58 := by
    have : m.data.length = 1458 := hm.1
    rw [length_pack_service_header_data, List.length_take]; omega
  have eA : SERVICE_HEADER_OFFSET + SERVICE_HEADER_LEN = 58 := rfl
  refine ⟨_, create_uW_chunk_eq pool m hdr payload hpool hm hp, ?_, ?_, ?_⟩
  all_goals unfold uW_chunk
  · split
    · rw [unpack_update_l3_l4_header]; exact unpack_uW_chunk_base m hdr payload hm.1 hh
    · exact unpack_uW_chunk_base m hdr payload hm.1 hh
  · rw [eA]
    have hb : (uW_chunk_base m hdr payload).data.drop 58 = payload := by
      simp only [uW_chunk_base]
      rw [List.drop_append_of_le_length (by omega), List.drop_of_length_le (by omega),
        List.nil_append]
    split
    · simp only [update_l3_l4_header, sizeof_rte_ether_hdr, sizeof_rte_ipv4_hdr,
        UDP_DGRAM_LEN_OFFSET, IPV4_TOTAL_LENGTH_OFFSET, Nat.reduceAdd]
      rw [drop_store_u16 _ _ _ _ (by omega), drop_store_u16 _ _ _ _ (by omega)]
      exact hb
    · exact hb
  · rw [eA]
    have hb : (uW_chunk_base m hdr payload).data.length = 58 + payload.length := by
      simp only [uW_chunk_base, List.length_append, hplen]
    unfold rte_mbuf.data_len
    split
    · simp only [update_l3_l4_header, length_store_u16]
      exact hb
    · exact hb

theorem length_uW_slice (bytes : List Nat) (j : Nat) :
    (uW_slice bytes j).length = min 1400 (bytes.length - 1400 * j) := by
  simp only [uW_slice, MAX_CHUNK_SIZE, List.length_take, List.length_drop]

theorem update_uW_chunk_loop_eq (m : rte_mbuf) (new_hdr : service_header_cpu) (bytes : List Nat)
    (g : Nat → rte_mbuf) (K : Nat) (hK : K = (bytes.length + 1399) / 1400)
    (hg : ∀ j pool, j < K → 0 < pool →
      create_uW_chunk pool m (uW_hdr new_hdr bytes j) (uW_slice bytes j) = some (g j)) :
    ∀ (r k : Nat) (acc : List rte_mbuf) (fuel pool : Nat), k + r = K → r < fuel → r ≤ pool →
      update_uW_chunk_loop m new_hdr bytes fuel pool (MAX_CHUNK_SIZE * k) acc =
        some (acc ++ (List.range' k r).map g) := by
  intro r
  induction r with
  | zero =>
    intro k acc fuel pool hk hf _
    obtain ⟨f, rfl⟩ : ∃ f, fuel = f + 1 := ⟨fuel - 1, by omega⟩
    simp only [update_uW_chunk_loop, MAX_CHUNK_SIZE]
    rw [if_neg (by omega)]
    simp
  | succ r ih =>
    intro k acc fuel pool hk hf hpool
    obtain ⟨f, rfl⟩ : ∃ f, fuel = f + 1 := ⟨fuel - 1, by omega⟩
    have hlt : MAX_CHUNK_SIZE * k < bytes.length := by
      simp only [MAX_CHUNK_SIZE]; omega
    have hcreate := hg k pool (by omega) (by omega)
    simp only [uW_hdr, uW_slice] at hcreate
    simp only [update_uW_chunk_loop, if_pos hlt, hcreate]
    have e : MAX_CHUNK_SIZE * k + MAX_CHUNK_SIZE = MAX_CHUNK_SIZE * (k + 1) := by
      rw [Nat.mul_succ]
    rw [e, ih (k + 1) (acc ++ [g k]) f (pool - 1) (by omega) (by omega) (by omega)]
    simp [List.range'_succ]

theorem uW_new_hdr_in_range (tmpl : service_header_cpu) (fin : Bool) (it : Nat)
    (bytes : List Nat) (ht : tmpl.in_range) (j : Nat) :
    (uW_hdr (uW_new_hdr tmpl fin it bytes) bytes j).in_range := by
  obtain ⟨h1, h2, h3, h4, h5, h6, h7, h8, h9⟩ := ht
  simp only [service_header_cpu.in_range, uW_hdr, uW_new_hdr]
  refine ⟨by omega, ?_, h3, h4, Nat.mod_lt _ (by omega), Nat.mod_lt _ (by omega),
    Nat.mod_lt _ (by omega), by omega, Nat.mod_lt _ (by omega)⟩
  cases fin <;> simp

/-- Closed form of `update_uW_chunk_buf` for a payload whose chunks the pool can hold: chunk
`j` of the series is built from slice `j` of the payload and the header of iteration `j`. -/
theorem update_uW_chunk_buf_eq (old : List rte_mbuf) (m : rte_mbuf) (tmpl : service_header_cpu)
    (fin : Bool) (it : Nat) (bytes : List Nat) (hm : bytes ≠ [] → full_skeleton m)
    (hpool : bytes.length ≤ FAST_FORWARD_POOL_SIZE * MAX_CHUNK_SIZE) :
    update_uW_chunk_buf old m tmpl fin it bytes =
      some ((List.range ((bytes.length + 1399) / 1400)).map (fun j =>
        uW_chunk m (uW_hdr (uW_new_hdr tmpl fin it bytes) bytes j) (uW_slice bytes j))) := by
  have h := update_uW_chunk_loop_eq m (uW_new_hdr tmpl fin it bytes) bytes
    (fun j => uW_chunk m (uW_hdr (uW_new_hdr tmpl fin it bytes) bytes j) (uW_slice bytes j))
    ((bytes.length + 1399) / 1400) rfl
    (by
      intro j pool hj hp
      have hne : bytes ≠ [] := by
        intro h0; rw [h0] at hj; simp at hj
      have hl := length_uW_slice bytes j
      exact create_uW_chunk_eq pool m _ _ hp (hm hne) (by omega))
    ((bytes.length + 1399) / 1400) 0 [] (bytes.length + 1) FAST_FORWARD_POOL_SIZE (by omega)
    (by omega) (by
      simp only [FAST_FORWARD_POOL_SIZE, MAX_CHUNK_SIZE] at hpool ⊢
      omega)
  rw [Nat.mul_zero, List.nil_append, ← List.range_eq_range'] at h
  exact h

theorem create_uW_chunk_no_buffer (m : rte_mbuf) (hdr : service_header_cpu)
    (payload : List Nat) : create_uW_chunk 0 m hdr payload = none := by
  unfold create_uW_chunk
  split
  · rfl
  · split
    · rfl
    · have hd : deepcopy_chunk 0 m = none := by
        unfold deepcopy_chunk
        split
        · rfl
        · rfl
      rw [hd]

/-- The loop of `update_uW_chunk_buf` ends the process when more chunks are left to build than
the pool has free buffers. -/
theorem update_uW_chunk_loop_exhausted (m : rte_mbuf) (new_hdr : service_header_cpu)
    (bytes : List Nat) :
    ∀ (fuel pool i : Nat) (acc : List rte_mbuf), i + pool * MAX_CHUNK_SIZE < bytes.length →
      update_uW_chunk_loop m new_hdr bytes fuel pool i acc = none := by
  intro fuel
  induction fuel with
  | zero =>
    intro pool i acc _
    rfl
  | succ f ih =>
    intro pool i acc h
    have hi : i < bytes.length := by omega
    simp only [update_uW_chunk_loop, if_pos hi]
    cases pool with
    | zero => rw [create_uW_chunk_no_buffer]
    | succ p =>
      split
      · rfl
      · apply ih
        simp only [Nat.add_sub_cancel]
        rw [Nat.succ_mul] at h
        omega

/-- A payload of more than `FAST_FORWARD_POOL_SIZE` chunks is not synthesized: the pool runs
out of buffers and `deepcopy_chunk` ends the process. -/
theorem update_uW_chunk_buf_exhausted (old : List rte_mbuf) (m : rte_mbuf)
    (tmpl : service_header_cpu) (fin : Bool) (it : Nat) (bytes : List Nat)
    (h : FAST_FORWARD_POOL_SIZE * MAX_CHUNK_SIZE < bytes.length) :
    update_uW_chunk_buf old m tmpl fin it bytes = none := by
  unfold update_uW_chunk_buf
  exact update_uW_chunk_loop_exhausted m _ bytes _ _ _ _ (by omega)

theorem flatten_uW_slices (bytes : List Nat) (r k : Nat) :
    ((List.range' k r).map (uW_slice bytes)).flatten =
      (bytes.drop (1400 * k)).take (1400 * r) := by
  induction r generalizing k with
  | zero => simp
  | succ r ih =>
    rw [List.range'_succ, List.map_cons, List.flatten_cons, ih (k + 1)]
    have e1 : 1400 * (r + 1) = 1400 + 1400 * r := by omega
    have e2 : 1400 * (k + 1) = 1400 * k + 1400 := by omega
    rw [e1, List.take_add, e2, ← List.drop_drop]
    rfl

theorem flatten_all_uW_slices (bytes : List Nat) :
    ((List.range ((bytes.length + 1399) / 1400)).map (uW_slice bytes)).flatten = bytes := by
  rw [List.range_eq_range', flatten_uW_slices, Nat.mul_zero, List.drop_zero,
    List.take_of_length_le (by omega)]

theorem uW_chunk_facts (m : rte_mbuf) (hdr : service_header_cpu) (payload : List Nat)
    (hm : full_skeleton m) (hp : payload.length ≤ 1400) (hh : hdr.in_range) :
    unpack_service_header (uW_chunk m hdr payload) = hdr ∧
    (uW_chunk m hdr payload).data.drop (SERVICE_HEADER_OFFSET + SERVICE_HEADER_LEN) = payload ∧
    (uW_chunk m hdr payload).data_len =
      SERVICE_HEADER_OFFSET + SERVICE_HEADER_LEN + payload.length := by
  obtain ⟨c, h1, h2, h3, h4⟩ := unpack_create_uW_chunk 1 m hdr payload (by decide) hm hp hh
  rw [create_uW_chunk_eq 1 m _ _ (by decide) hm hp] at h1
  rw [Option.some.inj h1]
  exact ⟨h2, h3, h4⟩

/-- C7 (as stated) fails: a payload of `4096 * 1400 + 1` bytes, which is below
`65535 * 1400`, needs 4097 chunks. Every chunk of a series holds one buffer of
`fast_forward_pool`, which has 4096: the 4097th `rte_pktmbuf_alloc` returns null and
`deepcopy_chunk` ends the process, so no series is left in the buffer. -/
theorem update_uW_chunk_buf_exhausts_pool :
    (List.replicate (4096 * 1400 + 1) 0).length ≤ 65535 * 1400 ∧
    update_uW_chunk_buf [] ⟨List.replicate 1458 0, 1458, 1, 128, []⟩
      ⟨0, 0, 1, 0, 1, 0, 30, 0, 0⟩ false 0 (List.replicate (4096 * 1400 + 1) 0) = none := by
  refine ⟨?_, update_uW_chunk_buf_exhausted _ _ _ _ _ _ ?_⟩
  · rw [List.length_replicate]
    decide
  · rw [List.length_replicate]
    decide

/-- C7 (amended): for a payload of `L ≤ 4096 * 1400` bytes, as many as the buffers of
`fast_forward_pool` can carry, `update_uW_chunk_buf` returns a buffer that does not depend on
the old buffer and holds exactly `⌈L / 1400⌉` chunks; every chunk carries
`total_chunk_num = ⌈L / 1400⌉` in its header; chunk `j` carries bytes `1400 j ..` of the
payload, 1400 of them unless it is the last chunk, which carries the remaining
`L - 1400 (⌈L / 1400⌉ - 1)`. The skeleton must pass the assertions of `create_uW_chunk`
unless the payload is empty. For a longer payload the pool is exhausted and the process
ends. -/
theorem update_uW_chunk_buf_count (old : List rte_mbuf) (m : rte_mbuf)
    (tmpl : service_header_cpu) (fin : Bool) (it : Nat) (bytes : List Nat)
    (hL : bytes.length ≤ FAST_FORWARD_POOL_SIZE * MAX_CHUNK_SIZE)
    (hm : bytes ≠ [] → full_skeleton m) (ht : tmpl.in_range) :
    (∃ out, update_uW_chunk_buf old m tmpl fin it bytes = some out ∧
      update_uW_chunk_buf [] m tmpl fin it bytes = some out ∧
      out.length = (bytes.length + 1399) / 1400 ∧
      (∀ c ∈ out, (unpack_service_header c).total_chunk_num = (bytes.length + 1399) / 1400) ∧
      (∀ j (hj : j < out.length),
        out[j].data.drop (SERVICE_HEADER_OFFSET + SERVICE_HEADER_LEN) =
          (bytes.drop (1400 * j)).take 1400 ∧
        (out[j].data.drop (SERVICE_HEADER_OFFSET + SERVICE_HEADER_LEN)).length =
          if j + 1 < out.length then 1400 else bytes.length - 1400 * (out.length - 1))) ∧
    ∀ longer : List Nat, FAST_FORWARD_POOL_SIZE * MAX_CHUNK_SIZE < longer.length →
      update_uW_chunk_buf old m tmpl fin it longer = none := by
  have hL' : bytes.length ≤ 4096 * 1400 := hL
  refine ⟨⟨_, update_uW_chunk_buf_eq old m tmpl fin it bytes hm hL,
    update_uW_chunk_buf_eq [] m tmpl fin it bytes hm hL, by simp, ?_, ?_⟩,
    fun longer h => update_uW_chunk_buf_exhausted old m tmpl fin it longer h⟩
  · intro c hc
    obtain ⟨j, hj, rfl⟩ := List.mem_map.1 hc
    have hjK : j < (bytes.length + 1399) / 1400 := List.mem_range.1 hj
    have hne : bytes ≠ [] := by
      intro h0; rw [h0] at hjK; simp at hjK
    have hl := length_uW_slice bytes j
    rw [(uW_chunk_facts m _ (uW_slice bytes j) (hm hne) (by omega)
      (uW_new_hdr_in_range tmpl fin it bytes ht j)).1]
    simp only [uW_hdr, uW_new_hdr, MAX_CHUNK_SIZE]
    exact Nat.mod_eq_of_lt (by omega)
  · intro j hj
    simp only [List.length_map, List.length_range] at hj ⊢
    have hne : bytes ≠ [] := by
      intro h0; rw [h0] at hj; simp at hj
    have hl := length_uW_slice bytes j
    simp only [List.getElem_map, List.getElem_range]
    rw [(uW_chunk_facts m _ (uW_slice bytes j) (hm hne) (by omega)
      (uW_new_hdr_in_range tmpl fin it bytes ht j)).2.1]
    refine ⟨rfl, ?_⟩
    rw [hl]
    split <;> omega

theorem update_uW_chunk_buf_count_witness :
    ∃ out, update_uW_chunk_buf [⟨[], 0, 1, 128, []⟩] ⟨List.replicate 1458 0, 1458, 1, 128, []⟩
        ⟨0, 0, 1, 0, 2, 0, 30, 0, 0⟩ true 2 (List.replicate 1401 7) = some out ∧
      out.length = 2 ∧
      (out.map (fun c => (unpack_service_header c).total_chunk_num)) = [2, 2] := by
  obtain ⟨out, h1, _, h3, h4, _⟩ := (update_uW_chunk_buf_count [⟨[], 0, 1, 128, []⟩]
    ⟨List.replicate 1458 0, 1458, 1, 128, []⟩ ⟨0, 0, 1, 0, 2, 0, 30, 0, 0⟩ true 2
    (List.replicate 1401 7) (by rw [List.length_replicate]; decide)
    (fun _ => ⟨List.length_replicate _ _, rfl, Nat.le_refl 1, rfl⟩) (by decide)).1
  rw [List.length_replicate] at h3 h4
  have h3' : out.length = 2 := h3
  refine ⟨out, h1, h3', ?_⟩
  match out, h3', h4 with
  | [a, b], _, h4 =>
    simp only [List.map_cons, List.map_nil]
    rw [h4 a (by simp), h4 b (by simp)]

theorem payload_update_uW_chunk_buf (m : rte_mbuf) (hdr : service_header_cpu)
    (bytes : List Nat) (hm : bytes ≠ [] → full_skeleton m) (hh : ∀ j, (uW_hdr hdr bytes j).in_range) :
    (((List.range ((bytes.length + 1399) / 1400)).map (fun j =>
        uW_chunk m (uW_hdr hdr bytes j) (uW_slice bytes j))).map
      (fun c => c.data.drop (SERVICE_HEADER_OFFSET + SERVICE_HEADER_LEN))).flatten = bytes := by
  rw [List.map_map]
  have : (List.range ((bytes.length + 1399) / 1400)).map
      ((fun c : rte_mbuf => c.data.drop (SERVICE_HEADER_OFFSET + SERVICE_HEADER_LEN)) ∘
        fun j => uW_chunk m (uW_hdr hdr bytes j) (uW_slice bytes j)) =
      (List.range ((bytes.length + 1399) / 1400)).map (uW_slice bytes) := by
    apply List.map_congr_left
    intro j hj
    have hjK : j < (bytes.length + 1399) / 1400 := List.mem_range.1 hj
    have hne : bytes ≠ [] := by
      intro h0; rw [h0] at hjK; simp at hjK
    have hl := length_uW_slice bytes j
    exact (uW_chunk_facts m _ (uW_slice bytes j) (hm hne) (by omega) (hh j)).2.1
  rw [this, flatten_all_uW_slices]

/-- MEICA `process_chunks` up to the call of `update_uW_chunk_buf`: with no uW chunks
buffered the bridge gets an empty uW string and iteration 0, otherwise the defragmented uW
bytes and the `iter_num` of the last uW header; the first two bytes of its output are the
final-result flag and the new iteration number, the rest is the new uW payload. -/
theorem process_chunks_eq (bridge : List Nat → List Nat → Nat → Nat → List Nat)
    (m : rte_mbuf) (tmpl : service_header_cpu) (X_bytes : List Nat)
    (uW_chunk_buf : List rte_mbuf) (uW_service_hdr_buf : List service_header_cpu)
    (max_rounds : Nat) (uW_bytes : List Nat) (iter_num : Nat) (b : List Nat) (b0 b1 : Nat)
    (hin : (uW_chunk_buf = [] ∧ uW_bytes = [] ∧ iter_num = 0) ∨
      (uW_chunk_buf ≠ [] ∧ defragment uW_chunk_buf uW_service_hdr_buf = some uW_bytes ∧
        uW_bytes ≠ [] ∧ ∃ last, uW_service_hdr_buf.getLast? = some last ∧
          iter_num = last.iter_num))
    (hb : bridge X_bytes uW_bytes iter_num max_rounds = b)
    (hb0 : b[0]? = some b0) (hb1 : b[1]? = some b1) :
    process_chunks bridge m tmpl X_bytes uW_chunk_buf uW_service_hdr_buf max_rounds =
      update_uW_chunk_buf uW_chunk_buf m tmpl (decide (b0 % 256 = 1)) (b1 % 256) (b.drop 2) := by
  unfold process_chunks
  rcases hin with ⟨h1, h2, h3⟩ | ⟨h1, h2, h3, last, h4, h5⟩
  · subst h1 h2 h3
    simp only [List.length_nil, ne_eq, not_true_eq_false, if_false, hb, hb0, hb1]
  · have hl : uW_chunk_buf.length ≠ 0 := fun h0 => h1 (List.length_eq_zero.1 h0)
    have hl' : ¬ uW_bytes.length = 0 := fun h0 => h3 (List.length_eq_zero.1 h0)
    simp only [ne_eq, hl, not_false_eq_true, if_true, h2, h4, hl', if_false, ← h5, hb, hb0, hb1]

theorem getElem?_zero_cons_cons (a b : Nat) (l : List Nat) : (a :: b :: l)[0]? = some a := rfl

theorem getElem?_one_cons_cons (a b : Nat) (l : List Nat) : (a :: b :: l)[1]? = some b := by
  simp

/-- C8 (as stated) fails: a bridge output of `2 + 4096 * 1400 + 1` bytes carries a uW payload
of 4097 chunks. `fast_forward_pool` has 4096 buffers, so `deepcopy_chunk` ends the process at
the 4097th chunk and `process_chunks` places no series in the uW buffer. -/
theorem process_chunks_exhausts_pool :
    2 ≤ (0 :: 1 :: List.replicate (4096 * 1400 + 1) 0).length ∧
    process_chunks (fun _ _ _ _ => 0 :: 1 :: List.replicate (4096 * 1400 + 1) 0)
      ⟨List.replicate 1458 0, 1458, 1, 128, []⟩ ⟨0, 0, 1, 0, 2, 0, 30, 0, 0⟩ [1, 2, 3] [] []
      4 = none := by
  refine ⟨?_, ?_⟩
  · rw [List.length_cons, List.length_cons, List.length_replicate]
    decide
  rw [process_chunks_eq (fun _ _ _ _ => 0 :: 1 :: List.replicate (4096 * 1400 + 1) 0)
    ⟨List.replicate 1458 0, 1458, 1, 128, []⟩ ⟨0, 0, 1, 0, 2, 0, 30, 0, 0⟩ [1, 2, 3] [] [] 4
    [] 0 (0 :: 1 :: List.replicate (4096 * 1400 + 1) 0) 0 1 (Or.inl ⟨rfl, rfl, rfl⟩) rfl
    (getElem?_zero_cons_cons _ _ _) (getElem?_one_cons_cons _ _ _)]
  apply update_uW_chunk_buf_exhausted
  simp only [List.drop_succ_cons, List.drop_zero, List.length_replicate]
  decide

/-- C8 (amended): when the bridge returns at least two bytes and a uW payload behind them of
at most `4096 * 1400` bytes, as many as the buffers of `fast_forward_pool` can carry, MEICA
`process_chunks` returns a uW buffer in which every chunk has `msg_type = 1`, `msg_flags = 1`
if the first byte of the bridge output is 1 and 0 otherwise, `iter_num` = the second byte,
`data_chunk_num = 0` and the template's `total_msg_num` and `msg_num`; the payloads of the
chunks, concatenated, are the bridge output from its third byte on. -/
theorem process_chunks_header (bridge : List Nat → List Nat → Nat → Nat → List Nat)
    (m : rte_mbuf) (tmpl : service_header_cpu) (X_bytes : List Nat)
    (uW_chunk_buf : List rte_mbuf) (uW_service_hdr_buf : List service_header_cpu)
    (max_rounds : Nat) (uW_bytes : List Nat) (iter_num : Nat) (b : List Nat)
    (hin : (uW_chunk_buf = [] ∧ uW_bytes = [] ∧ iter_num = 0) ∨
      (uW_chunk_buf ≠ [] ∧ defragment uW_chunk_buf uW_service_hdr_buf = some uW_bytes ∧
        uW_bytes ≠ [] ∧ ∃ last, uW_service_hdr_buf.getLast? = some last ∧
          iter_num = last.iter_num))
    (hb : bridge X_bytes uW_bytes iter_num max_rounds = b)
    (hbytes : ∀ x ∈ b, x < 256) (hlen : 2 ≤ b.length)
    (hpool : b.length ≤ 2 + FAST_FORWARD_POOL_SIZE * MAX_CHUNK_SIZE)
    (hm : 2 < b.length → full_skeleton m) (ht : tmpl.in_range) :
    ∃ out, process_chunks bridge m tmpl X_bytes uW_chunk_buf uW_service_hdr_buf max_rounds =
        some out ∧
      (∀ c ∈ out,
        (unpack_service_header c).msg_type = 1 ∧
        (unpack_service_header c).msg_flags = (if b[0]? = some 1 then 1 else 0) ∧
        some (unpack_service_header c).iter_num = b[1]? ∧
        (unpack_service_header c).data_chunk_num = 0 ∧
        (unpack_service_header c).total_msg_num = tmpl.total_msg_num ∧
        (unpack_service_header c).msg_num = tmpl.msg_num) ∧
      (out.map (fun c => c.data.drop (SERVICE_HEADER_OFFSET + SERVICE_HEADER_LEN))).flatten =
        b.drop 2 := by
  obtain ⟨b0, hb0⟩ : ∃ b0, b[0]? = some b0 := ⟨b[0], List.getElem?_eq_getElem (by omega)⟩
  obtain ⟨b1, hb1⟩ : ∃ b1, b[1]? = some b1 := ⟨b[1], List.getElem?_eq_getElem (by omega)⟩
  have hb0lt : b0 < 256 := hbytes _ (List.mem_iff_getElem?.2 ⟨0, hb0⟩)
  have hb1lt : b1 < 256 := hbytes _ (List.mem_iff_getElem?.2 ⟨1, hb1⟩)
  have hm' : b.drop 2 ≠ [] → full_skeleton m := by
    intro h
    apply hm
    have : (b.drop 2).length ≠ 0 := fun h0 => h (List.length_eq_zero.1 h0)
    rw [List.length_drop] at this
    omega
  have hpool' : (b.drop 2).length ≤ FAST_FORWARD_POOL_SIZE * MAX_CHUNK_SIZE := by
    rw [List.length_drop]
    omega
  rw [process_chunks_eq bridge m tmpl X_bytes uW_chunk_buf uW_service_hdr_buf max_rounds
    uW_bytes iter_num b b0 b1 hin hb hb0 hb1, update_uW_chunk_buf_eq _ m tmpl _ _ _ hm' hpool']
  refine ⟨_, rfl, ?_, ?_⟩
  · intro c hc
    obtain ⟨j, hj, rfl⟩ := List.mem_map.1 hc
    have hjK : j < ((b.drop 2).length + 1399) / 1400 := List.mem_range.1 hj
    have hne : b.drop 2 ≠ [] := by
      intro h0; rw [h0] at hjK; simp at hjK
    have hl := length_uW_slice (b.drop 2) j
    rw [(uW_chunk_facts m _ (uW_slice (b.drop 2) j) (hm' hne) (by omega)
      (uW_new_hdr_in_range tmpl _ _ _ ht j)).1]
    simp only [uW_hdr, uW_new_hdr, hb0, hb1, Option.some.injEq, Nat.mod_eq_of_lt hb0lt,
      Nat.mod_eq_of_lt hb1lt, true_and, and_true]
    refine ⟨?_, Nat.mod_eq_of_lt (by omega)⟩
    by_cases h01 : b0 = 1 <;> simp [h01]
  · exact payload_update_uW_chunk_buf m _ _ hm' (uW_new_hdr_in_range tmpl _ _ _ ht)

theorem process_chunks_header_witness :
    ∃ out, process_chunks (fun _ _ _ _ => 0 :: 1 :: List.replicate 1401 85)
        ⟨List.replicate 1458 0, 1458, 1, 128, []⟩ ⟨0, 0, 1, 0, 2, 0, 30, 0, 0⟩ [1, 2, 3] [] [] 4 =
        some out ∧
      (∀ c ∈ out, (unpack_service_header c).msg_type = 1 ∧
        (unpack_service_header c).msg_flags = 0 ∧ (unpack_service_header c).iter_num = 1) ∧
      (out.map (fun c => c.data.drop (SERVICE_HEADER_OFFSET + SERVICE_HEADER_LEN))).flatten =
        List.replicate 1401 85 := by
  obtain ⟨out, h1, h2, h3⟩ := process_chunks_header
    (fun _ _ _ _ => 0 :: 1 :: List.replicate 1401 85)
    ⟨List.replicate 1458 0, 1458, 1, 128, []⟩ ⟨0, 0, 1, 0, 2, 0, 30, 0, 0⟩ [1, 2, 3] [] [] 4 [] 0
    (0 :: 1 :: List.replicate 1401 85) (Or.inl ⟨rfl, rfl, rfl⟩) rfl
    (by
      intro x hx
      rcases List.mem_cons.1 hx with h | hx
      · omega
      rcases List.mem_cons.1 hx with h | hx
      · omega
      · have := List.eq_of_mem_replicate hx
        omega)
    (by
      rw [List.length_cons, List.length_cons, List.length_replicate]
      decide)
    (by
      rw [List.length_cons, List.length_cons, List.length_replicate]
      decide)
    (fun _ => ⟨List.length_replicate _ _, rfl, Nat.le_refl 1, rfl⟩) (by decide)
  refine ⟨out, h1, ?_, h3⟩
  intro c hc
  obtain ⟨g1, g2, g3, _⟩ := h2 c hc
  rw [getElem?_zero_cons_cons] at g2
  rw [getElem?_one_cons_cons] at g3
  refine ⟨g1, ?_, ?_⟩
  · rw [g2]; rfl
  · exact Option.some.inj g3

theorem load_u16_store_u16 (d : List Nat) (off v : Nat) (h : off + 1 < d.length) :
    load_u16 (store_u16 d off v) off = v % 256 + 256 * (v / 256 % 256) := by
  unfold load_u16 store_u16
  rw [List.getD_eq_getElem?_getD, List.getD_eq_getElem?_getD,
    List.getElem?_set_ne (by omega), List.getElem?_set_self (by omega),
    List.getElem?_set_self (by rw [List.length_set]; omega)]
  rfl

theorem load_u16_store_u16_ne (d : List Nat) (off off' v : Nat) (h1 : off' + 1 < off ∨ off + 1 < off') :
    load_u16 (store_u16 d off v) off' = load_u16 d off' := by
  unfold load_u16
  rw [getD_store_u16_ne _ _ _ _ (by omega) (by omega),
    getD_store_u16_ne _ _ _ _ (by omega) (by omega)]

theorem be16_roundtrip (x : Nat) (hx : x < 65536) :
    rte_be_to_cpu_16 (rte_cpu_to_be_16 x % 256 + 256 * (rte_cpu_to_be_16 x / 256 % 256)) = x := by
  unfold rte_cpu_to_be_16
  rw [bswap_lo, bswap_hi]
  exact be16_decode x hx

/-- The length fields after `update_l3_l4_header`. -/
theorem lengths_update_l3_l4_header (m : rte_mbuf) (p : Nat) (hlen : 42 ≤ m.data_len) :
    udp_dgram_len (update_l3_l4_header m p) =
      (p + SERVICE_HEADER_LEN + sizeof_rte_udp_hdr) % 4294967296 % 65536 ∧
    ipv4_total_length (update_l3_l4_header m p) =
      ((p + SERVICE_HEADER_LEN + sizeof_rte_udp_hdr) % 4294967296 % 65536 +
        sizeof_rte_ipv4_hdr) % 65536 := by
  have hlen' : 42 ≤ m.data.length := hlen
  simp only [udp_dgram_len, ipv4_total_length, update_l3_l4_header, sizeof_rte_ether_hdr,
    sizeof_rte_ipv4_hdr, UDP_DGRAM_LEN_OFFSET, IPV4_TOTAL_LENGTH_OFFSET, Nat.reduceAdd]
  constructor
  · rw [load_u16_store_u16_ne _ _ _ _ (by omega), load_u16_store_u16 _ _ _ (by omega),
      be16_roundtrip _ (Nat.mod_lt _ (by omega))]
  · rw [load_u16_store_u16 _ _ _ (by rw [length_store_u16]; omega),
      be16_roundtrip _ (Nat.mod_lt _ (by omega))]

theorem getD_uW_chunk_base (m : rte_mbuf) (hdr : service_header_cpu) (payload : List Nat)
    (hm : m.data_len = 1458) (i : Nat) (hi : i < 42) :
    (uW_chunk_base m hdr payload).data.getD i 0 = m.data.getD i 0 := by
  have hm' : m.data.length = 1458 := hm
  have hplen : (pack_service_header_data (m.data.take 58) hdr).length = 58 := by
    rw [length_pack_service_header_data, List.length_take]; omega
  simp only [uW_chunk_base]
  rw [List.getD_eq_getElem?_getD, List.getD_eq_getElem?_getD,
    List.getElem?_append_left (by omega), getElem?_pack_service_header_data,
    if_neg (by omega), List.getElem?_take_of_lt (by omega)]

/-- The length fields of a synthesized chunk: patched for every payload length except
1342, where the chunk keeps the length fields of the skeleton. -/
theorem lengths_create_uW_chunk (pool : Nat) (m : rte_mbuf) (hdr : service_header_cpu)
    (payload : List Nat) (hpool : 0 < pool)
    (hm : full_skeleton m) (hp : payload.length ≤ 1400) :
    ∃ c, create_uW_chunk pool m hdr payload = some c ∧
      (payload.length ≠ 1342 →
        udp_dgram_len c = payload.length + SERVICE_HEADER_LEN + sizeof_rte_udp_hdr ∧
        ipv4_total_length c =
          payload.length + SERVICE_HEADER_LEN + sizeof_rte_udp_hdr + sizeof_rte_ipv4_hdr) ∧
      (payload.length = 1342 →
        udp_dgram_len c = udp_dgram_len m ∧ ipv4_total_length c = ipv4_total_length m) := by
  have hplen : (pack_service_header_data (m.data.take 58) hdr).length = 58 := by
    have : m.data.length = 1458 := hm.1
    rw [length_pack_service_header_data, List.length_take]; omega
  have hb : (uW_chunk_base m hdr payload).data.length = 58 + payload.length := by
    simp only [uW_chunk_base, List.length_append, hplen]
  refine ⟨_, create_uW_chunk_eq pool m hdr payload hpool hm hp, ?_, ?_⟩
  · intro hne
    unfold uW_chunk
    rw [if_pos (by omega)]
    obtain ⟨h1, h2⟩ := lengths_update_l3_l4_header (uW_chunk_base m hdr payload) payload.length
      (by show 42 ≤ (uW_chunk_base m hdr payload).data.length; omega)
    rw [h1, h2]
    have e1 : SERVICE_HEADER_LEN = 16 := rfl
    have e2 : sizeof_rte_udp_hdr = 8 := rfl
    have e3 : sizeof_rte_ipv4_hdr = 20 := rfl
    rw [e1, e2, e3]
    omega
  · intro he
    unfold uW_chunk
    rw [if_neg (by omega)]
    simp only [udp_dgram_len, ipv4_total_length, load_u16, sizeof_rte_ether_hdr,
      sizeof_rte_ipv4_hdr, UDP_DGRAM_LEN_OFFSET, IPV4_TOTAL_LENGTH_OFFSET, Nat.reduceAdd]
    rw [getD_uW_chunk_base m hdr payload hm.1 38 (by omega),
      getD_uW_chunk_base m hdr payload hm.1 39 (by omega),
      getD_uW_chunk_base m hdr payload hm.1 16 (by omega),
      getD_uW_chunk_base m hdr payload hm.1 17 (by omega)]
    exact ⟨rfl, rfl⟩

/-- The `chunk_num` values of a synthesized series in transmission order: chunk `j` carries
the byte offset `1400 j` reduced to 16 bits. -/
theorem chunk_nums_update_uW_chunk_buf (cks : List Nat → Nat) (old : List rte_mbuf)
    (m : rte_mbuf) (tmpl : service_header_cpu) (fin : Bool) (it : Nat) (bytes : List Nat)
    (hm : bytes ≠ [] → full_skeleton m) (ht : tmpl.in_range)
    (hpool : bytes.length ≤ FAST_FORWARD_POOL_SIZE * MAX_CHUNK_SIZE) :
    ∃ out, update_uW_chunk_buf old m tmpl fin it bytes = some out ∧
      (send_chunks cks out).map (fun c => (unpack_service_header c).chunk_num) =
        (List.range ((bytes.length + 1399) / 1400)).map (fun j => 1400 * j % 65536) := by
  refine ⟨_, update_uW_chunk_buf_eq old m tmpl fin it bytes hm hpool, ?_⟩
  simp only [send_chunks, pre_send_chunks, List.map_map]
  apply List.map_congr_left
  intro j hj
  have hjK : j < (bytes.length + 1399) / 1400 := List.mem_range.1 hj
  have hne : bytes ≠ [] := by
    intro h0; rw [h0] at hjK; simp at hjK
  have hl := length_uW_slice bytes j
  simp only [Function.comp_apply, unpack_recalc_ipv4_udp_cksum]
  rw [(uW_chunk_facts m _ (uW_slice bytes j) (hm hne) (by omega)
    (uW_new_hdr_in_range tmpl fin it bytes ht j)).1]
  rfl

/-- C6 fails on the code: for a payload of 65801 bytes the 47th transmitted chunk has
`chunk_num = 64400` and the 48th has `chunk_num = 264`. -/
theorem emit_order_wraps :
    ∃ out, update_uW_chunk_buf [] ⟨List.replicate 1458 0, 1458, 1, 128, []⟩
        ⟨0, 0, 1, 0, 1, 0, 30, 0, 0⟩ false 1 (List.replicate 65801 0) = some out ∧
      ((send_chunks (fun _ => 0) out).map
        (fun c => (unpack_service_header c).chunk_num))[46]? = some 64400 ∧
      ((send_chunks (fun _ => 0) out).map
        (fun c => (unpack_service_header c).chunk_num))[47]? = some 264 := by
  obtain ⟨out, h1, h2⟩ := chunk_nums_update_uW_chunk_buf (fun _ => 0) []
    ⟨List.replicate 1458 0, 1458, 1, 128, []⟩ ⟨0, 0, 1, 0, 1, 0, 30, 0, 0⟩ false 1
    (List.replicate 65801 0)
    (fun _ => ⟨List.length_replicate _ _, rfl, Nat.le_refl 1, rfl⟩) (by decide)
    (by rw [List.length_replicate]; decide)
  refine ⟨out, h1, ?_, ?_⟩
  · rw [h2, List.length_replicate, List.getElem?_map, List.getElem?_range (by omega)]
    rfl
  · rw [h2, List.length_replicate, List.getElem?_map, List.getElem?_range (by omega)]
    rfl

/-- C9 fails on the code: from a full skeleton whose length fields describe a full chunk
(UDP length 1424, IPv4 total length 1444), the chunk built for a payload slice of 1342 bytes
keeps these two values, although the slice calls for 1366 and 1386: the resulting `data_len`
is 1400 = `MAX_CHUNK_SIZE`, so `update_l3_l4_header` is not called. -/
theorem create_uW_chunk_1342_not_patched :
    ∃ c, create_uW_chunk FAST_FORWARD_POOL_SIZE
        (update_l3_l4_header ⟨List.replicate 1458 0, 1458, 1, 128, []⟩ 1400)
        ⟨1, 0, 1, 0, 1, 0, 1358, 0, 1⟩ (List.replicate 1342 0) = some c ∧
      c.data_len = 1400 ∧
      udp_dgram_len c = 1424 ∧ ipv4_total_length c = 1444 ∧
      1342 + SERVICE_HEADER_LEN + sizeof_rte_udp_hdr = 1366 ∧
      1342 + SERVICE_HEADER_LEN + sizeof_rte_udp_hdr + sizeof_rte_ipv4_hdr = 1386 := by
  have hlen : (update_l3_l4_header ⟨List.replicate 1458 0, 1458, 1, 128, []⟩ 1400).data_len = 1458 := by
    simp only [rte_mbuf.data_len, update_l3_l4_header, length_store_u16, List.length_replicate]
  have hsk : full_skeleton (update_l3_l4_header ⟨List.replicate 1458 0, 1458, 1, 128, []⟩ 1400) :=
    ⟨hlen, rfl, Nat.le_refl 1, rfl⟩
  obtain ⟨c, h1, -, h3⟩ := lengths_create_uW_chunk FAST_FORWARD_POOL_SIZE _
    ⟨1, 0, 1, 0, 1, 0, 1358, 0, 1⟩
    (List.replicate 1342 0) (by decide) hsk (by rw [List.length_replicate]; omega)
  obtain ⟨h4, h5⟩ := h3 (List.length_replicate _ _)
  obtain ⟨h6, h7⟩ := lengths_update_l3_l4_header ⟨List.replicate 1458 0, 1458, 1, 128, []⟩ 1400
    (by show 42 ≤ (List.replicate 1458 0).length; rw [List.length_replicate]; omega)
  obtain ⟨c', h1', -, -, h8⟩ := unpack_create_uW_chunk FAST_FORWARD_POOL_SIZE _
    ⟨1, 0, 1, 0, 1, 0, 1358, 0, 1⟩
    (List.replicate 1342 0) (by decide) hsk (by rw [List.length_replicate]; omega) (by decide)
  rw [h1] at h1'
  cases h1'
  refine ⟨c, h1, ?_, ?_, ?_, rfl, rfl⟩
  · rw [h8, List.length_replicate]; rfl
  · rw [h4, h6]; rfl
  · rw [h5, h7]; rfl

/-- C10: on a packet that holds at least the Ethernet and IPv4 headers, `is_valid_chunk` is
true exactly when the two EtherType bytes are `08 00` (0x0800 in network order) and the IPv4
protocol byte is 17 (UDP). -/
theorem is_valid_chunk_iff (m : rte_mbuf)
    (hlen : sizeof_rte_ether_hdr + sizeof_rte_ipv4_hdr ≤ m.data_len) :
    is_valid_chunk m = true ↔
      m.data[ETHER_TYPE_OFFSET]? = some 0x08 ∧ m.data[ETHER_TYPE_OFFSET + 1]? = some 0x00 ∧
        m.data[sizeof_rte_ether_hdr + IPV4_NEXT_PROTO_ID_OFFSET]? = some IPPROTO_UDP := by
  have hlen' : 34 ≤ m.data.length := hlen
  have e : rte_cpu_to_be_16 RTE_ETHER_TYPE_IPV4 = 8 := by decide
  simp only [is_valid_chunk, e, load_u16, load_u8, ETHER_TYPE_OFFSET, sizeof_rte_ether_hdr,
    IPV4_NEXT_PROTO_ID_OFFSET, IPPROTO_UDP, Nat.reduceAdd,
    getD_room m 12 (by omega), getD_room m 13 (by omega), getD_room m 23 (by omega)]
  simp only [ETHER_TYPE_OFFSET, sizeof_rte_ether_hdr,
    IPV4_NEXT_PROTO_ID_OFFSET, IPPROTO_UDP, Nat.reduceAdd, List.getD_eq_getElem?_getD,
    List.getElem?_eq_getElem (by omega : 12 < m.data.length),
    List.getElem?_eq_getElem (by omega : 13 < m.data.length),
    List.getElem?_eq_getElem (by omega : 23 < m.data.length), Option.getD_some,
    Option.some.injEq]
  by_cases h1 : m.data[12] + 256 * m.data[13] = 8
  · by_cases h2 : m.data[23] = 17
    · simp only [h1, h2, ne_eq, not_true_eq_false, if_false, true_iff, and_true]
      exact ⟨by omega, by omega⟩
    · simp only [h1, h2, ne_eq, not_true_eq_false, not_false_eq_true, if_true, if_false]
      simp
  · simp only [h1, ne_eq, not_false_eq_true, if_true]
    constructor
    · intro h; cases h
    · intro ⟨a, b, _⟩; omega

theorem is_valid_chunk_iff_witness :
    is_valid_chunk
      ⟨[0, 0, 0, 0, 0, 0, 0, 0, 0, 0, 0, 0, 8, 0,
        69, 0, 0, 20, 0, 0, 0, 0, 64, 17, 0, 0, 10, 0, 0, 1, 10, 0, 0, 2], 34, 1, 128, []⟩ = true :=
  (is_valid_chunk_iff
    ⟨[0, 0, 0, 0, 0, 0, 0, 0, 0, 0, 0, 0, 8, 0,
      69, 0, 0, 20, 0, 0, 0, 0, 64, 17, 0, 0, 10, 0, 0, 1, 10, 0, 0, 2], 34, 1, 128, []⟩
    (by decide)).2 ⟨by decide, by decide, by decide⟩

/-! ## Synthesized series seen by the receiver -/

/-- Every chunk of a synthesized series carries its slice: the facts of `uW_chunk_facts` for
chunk `j` of the series. -/
theorem uW_series_chunk (m : rte_mbuf) (tmpl : service_header_cpu) (fin : Bool) (it : Nat)
    (bytes : List Nat) (hm : full_skeleton m) (ht : tmpl.in_range) (j : Nat) :
    unpack_service_header
        (uW_chunk m (uW_hdr (uW_new_hdr tmpl fin it bytes) bytes j) (uW_slice bytes j)) =
      uW_hdr (uW_new_hdr tmpl fin it bytes) bytes j ∧
    carries (uW_slice bytes j)
      (uW_chunk m (uW_hdr (uW_new_hdr tmpl fin it bytes) bytes j) (uW_slice bytes j))
      (uW_hdr (uW_new_hdr tmpl fin it bytes) bytes j) := by
  have hl := length_uW_slice bytes j
  obtain ⟨h1, h2, h3⟩ := uW_chunk_facts m _ (uW_slice bytes j) hm (by omega)
    (uW_new_hdr_in_range tmpl fin it bytes ht j)
  refine ⟨h1, ?_, h2, ?_⟩
  · rw [h3]; omega
  · simp only [uW_hdr]
    have e : SERVICE_HEADER_LEN = 16 := rfl
    rw [e]
    exact Nat.mod_eq_of_lt (by omega)

theorem replicate_succ_ne_nil (n x : Nat) : List.replicate (n + 1) x ≠ [] := by
  intro h
  have := congrArg List.length h
  rw [List.length_replicate] at this
  cases this

/-- C19 (as stated) fails: a byte string `B` of `4096 * 1400 + 1` bytes is non-empty and
below `65535 * 1400` bytes, but its series would take 4097 buffers of `fast_forward_pool`,
which has 4096: the process ends in `deepcopy_chunk` and there are no chunks to
defragment. -/
theorem round_trip_exhausts_pool :
    List.replicate (4096 * 1400 + 1) 7 ≠ [] ∧
    (List.replicate (4096 * 1400 + 1) 7).length ≤ 65535 * 1400 ∧
    ¬ ∃ out, update_uW_chunk_buf [] ⟨List.replicate 1458 0, 1458, 1, 128, []⟩
        ⟨0, 0, 1, 0, 2, 0, 30, 0, 0⟩ false 1 (List.replicate (4096 * 1400 + 1) 7) = some out ∧
      defragment out (out.map unpack_service_header) =
        some (List.replicate (4096 * 1400 + 1) 7) := by
  refine ⟨replicate_succ_ne_nil _ _, ?_, ?_⟩
  · rw [List.length_replicate]
    decide
  · rintro ⟨out, h, -⟩
    rw [update_uW_chunk_buf_exhausted _ _ _ _ _ _ (by rw [List.length_replicate]; decide)] at h
    cases h

/-- C19 (amended): for every non-empty byte string `B` of at most `4096 * 1400` bytes, as
many as the buffers of `fast_forward_pool` can carry, every template header and every full
skeleton, `defragment` applied to the chunks built by `update_uW_chunk_buf` and to their
unpacked service headers, in buffer order, returns `B`. -/
theorem defragment_update_uW_chunk_buf (old : List rte_mbuf) (m : rte_mbuf)
    (tmpl : service_header_cpu) (fin : Bool) (it : Nat) (B : List Nat)
    (_hne : B ≠ []) (hL : B.length ≤ FAST_FORWARD_POOL_SIZE * MAX_CHUNK_SIZE)
    (hm : full_skeleton m) (ht : tmpl.in_range) :
    ∃ out, update_uW_chunk_buf old m tmpl fin it B = some out ∧
      defragment out (out.map unpack_service_header) = some B := by
  refine ⟨_, update_uW_chunk_buf_eq old m tmpl fin it B (fun _ => hm) hL, ?_⟩
  have hparts := defragment_loop_carries
    ((List.range ((B.length + 1399) / 1400)).map (fun j =>
      (uW_slice B j,
       uW_chunk m (uW_hdr (uW_new_hdr tmpl fin it B) B j) (uW_slice B j),
       uW_hdr (uW_new_hdr tmpl fin it B) B j)))
    (by
      intro t ht'
      obtain ⟨j, -, rfl⟩ := List.mem_map.1 ht'
      have hl := length_uW_slice B j
      show (uW_slice B j).length ≤ 1400
      omega)
    (by
      intro t ht'
      obtain ⟨j, -, rfl⟩ := List.mem_map.1 ht'
      exact (uW_series_chunk m tmpl fin it B hm ht j).2)
    []
  simp only [List.map_map, List.nil_append] at hparts
  unfold defragment
  rw [if_neg (by simp)]
  simp only [List.map_map]
  have e1 : (unpack_service_header ∘ fun j =>
      uW_chunk m (uW_hdr (uW_new_hdr tmpl fin it B) B j) (uW_slice B j)) =
      fun j => uW_hdr (uW_new_hdr tmpl fin it B) B j := by
    funext j
    exact (uW_series_chunk m tmpl fin it B hm ht j).1
  rw [e1]
  have e2 : ((fun t : List Nat × rte_mbuf × service_header_cpu => t.1) ∘ fun j =>
      (uW_slice B j,
       uW_chunk m (uW_hdr (uW_new_hdr tmpl fin it B) B j) (uW_slice B j),
       uW_hdr (uW_new_hdr tmpl fin it B) B j)) = uW_slice B := rfl
  rw [e2, flatten_all_uW_slices] at hparts
  exact hparts

theorem defragment_update_uW_chunk_buf_witness :
    ∃ out, update_uW_chunk_buf [] ⟨List.replicate 1458 0, 1458, 1, 128, []⟩
        ⟨0, 0, 1, 0, 2, 0, 30, 0, 0⟩ false 1 (List.replicate (1400 + 1) 85) = some out ∧
      defragment out (out.map unpack_service_header) = some (List.replicate (1400 + 1) 85) :=
  defragment_update_uW_chunk_buf [] ⟨List.replicate 1458 0, 1458, 1, 128, []⟩
    ⟨0, 0, 1, 0, 2, 0, 30, 0, 0⟩ false 1 (List.replicate (1400 + 1) 85)
    (replicate_succ_ne_nil _ _) (by rw [List.length_replicate]; decide)
    ⟨List.length_replicate _ _, rfl, Nat.le_refl 1, rfl⟩ (by decide)

/-- C20 (as stated) fails: for a payload of `4096 * 1400 + 1` bytes, non-empty and below
`65535 * 1400` bytes, `update_uW_chunk_buf` builds no series, because the 4097th chunk finds
`fast_forward_pool` without a free buffer and the process ends; there are no headers to
check. -/
theorem check_series_exhausts_pool :
    List.replicate (4096 * 1400 + 1) 9 ≠ [] ∧
    (List.replicate (4096 * 1400 + 1) 9).length ≤ 65535 * 1400 ∧
    ¬ ∃ out, update_uW_chunk_buf [] ⟨List.replicate 1458 0, 1458, 1, 128, []⟩
        ⟨0, 0, 1, 0, 2, 0, 30, 0, 0⟩ true 3 (List.replicate (4096 * 1400 + 1) 9) = some out ∧
      (check_service_hdr_buf (out.map unpack_service_header) = some true ↔
        out.length = 1) := by
  refine ⟨replicate_succ_ne_nil _ _, ?_, ?_⟩
  · rw [List.length_replicate]
    decide
  · rintro ⟨out, h, -⟩
    rw [update_uW_chunk_buf_exhausted _ _ _ _ _ _ (by rw [List.length_replicate]; decide)] at h
    cases h

/-- C20 (amended): for every non-empty payload of at most `4096 * 1400` bytes, as many as
the buffers of `fast_forward_pool` can carry, the headers of the series built by
`update_uW_chunk_buf` pass `check_service_hdr_buf` exactly when the series has one chunk,
which is exactly when the payload has at most 1400 bytes; chunk `k` of the series carries
`chunk_num = 1400 k mod 65536`. -/
theorem check_update_uW_chunk_buf (old : List rte_mbuf) (m : rte_mbuf)
    (tmpl : service_header_cpu) (fin : Bool) (it : Nat) (B : List Nat)
    (hne : B ≠ []) (hL : B.length ≤ FAST_FORWARD_POOL_SIZE * MAX_CHUNK_SIZE)
    (hm : full_skeleton m) (ht : tmpl.in_range) :
    ∃ out, update_uW_chunk_buf old m tmpl fin it B = some out ∧
      (check_service_hdr_buf (out.map unpack_service_header) = some true ↔ out.length = 1) ∧
      (out.length = 1 ↔ B.length ≤ 1400) ∧
      (∃ b, check_service_hdr_buf (out.map unpack_service_header) = some b) ∧
      ∀ k (hk : k < out.length), (unpack_service_header out[k]).chunk_num = 1400 * k % 65536 := by
  have hpos : 0 < B.length := List.length_pos.2 hne
  have hK : 0 < (B.length + 1399) / 1400 := by omega
  have hL' : B.length ≤ 4096 * 1400 := hL
  refine ⟨_, update_uW_chunk_buf_eq old m tmpl fin it B (fun _ => hm) hL, ?_⟩
  have hnum : ∀ k (hk : k < ((List.range ((B.length + 1399) / 1400)).map (fun j =>
      uW_chunk m (uW_hdr (uW_new_hdr tmpl fin it B) B j) (uW_slice B j))).length),
      (unpack_service_header ((List.range ((B.length + 1399) / 1400)).map (fun j =>
        uW_chunk m (uW_hdr (uW_new_hdr tmpl fin it B) B j) (uW_slice B j)))[k]).chunk_num =
        1400 * k % 65536 := by
    intro k hk
    simp only [List.getElem_map, List.getElem_range]
    rw [(uW_series_chunk m tmpl fin it B hm ht k).1]
    rfl
  have hmap : ((List.range ((B.length + 1399) / 1400)).map (fun j =>
      uW_chunk m (uW_hdr (uW_new_hdr tmpl fin it B) B j) (uW_slice B j))).map
        unpack_service_header =
      (List.range ((B.length + 1399) / 1400)).map
        (fun j => uW_hdr (uW_new_hdr tmpl fin it B) B j) := by
    rw [List.map_map]
    apply List.map_congr_left
    intro j _
    exact (uW_series_chunk m tmpl fin it B hm ht j).1
  have hne' : (List.range ((B.length + 1399) / 1400)).map
      (fun j => uW_hdr (uW_new_hdr tmpl fin it B) B j) ≠ [] := by
    intro h0
    have := congrArg List.length h0
    simp at this
    omega
  have hlast : ((List.range ((B.length + 1399) / 1400)).map
      (fun j => uW_hdr (uW_new_hdr tmpl fin it B) B j)).getLast hne' =
      uW_hdr (uW_new_hdr tmpl fin it B) B ((B.length + 1399) / 1400 - 1) := by
    rw [List.getLast_eq_getElem]
    simp
  have htot : (uW_hdr (uW_new_hdr tmpl fin it B) B ((B.length + 1399) / 1400 - 1)).total_chunk_num
      = (B.length + 1399) / 1400 := by
    simp only [uW_hdr, uW_new_hdr, MAX_CHUNK_SIZE]
    exact Nat.mod_eq_of_lt (by omega)
  have hcheck := check_service_hdr_buf_eq _ hne' (by rw [hlast, htot]; omega)
  rw [hmap, hcheck]
  simp only [List.length_map, List.length_range, hlast, htot, true_and, Option.some.injEq,
    decide_eq_true_eq, List.getElem_map, List.getElem_range]
  refine ⟨?_, by omega, ⟨_, rfl⟩, ?_⟩
  · constructor
    · intro H
      by_contra hK1
      have := H 1 (by omega)
      simp [uW_hdr, MAX_CHUNK_SIZE] at this
    · intro hK1 i hi
      have hi0 : i = 0 := by omega
      subst hi0
      simp [uW_hdr]
  · intro k hk
    have := hnum k (by simpa using hk)
    simpa using this

theorem check_update_uW_chunk_buf_witness :
    (∃ out, update_uW_chunk_buf [] ⟨List.replicate 1458 0, 1458, 1, 128, []⟩
        ⟨0, 0, 1, 0, 2, 0, 30, 0, 0⟩ false 1 [85, 87, 49] = some out ∧
      check_service_hdr_buf (out.map unpack_service_header) = some true) ∧
    ∃ out, update_uW_chunk_buf [] ⟨List.replicate 1458 0, 1458, 1, 128, []⟩
        ⟨0, 0, 1, 0, 2, 0, 30, 0, 0⟩ false 1 (List.replicate (1400 + 1) 85) = some out ∧
      check_service_hdr_buf (out.map unpack_service_header) ≠ some true := by
  constructor
  · obtain ⟨out, h1, h2, h3, _⟩ := check_update_uW_chunk_buf []
      ⟨List.replicate 1458 0, 1458, 1, 128, []⟩
      ⟨0, 0, 1, 0, 2, 0, 30, 0, 0⟩ false 1 [85, 87, 49] (by decide) (by decide)
      ⟨List.length_replicate _ _, rfl, Nat.le_refl 1, rfl⟩ (by decide)
    exact ⟨out, h1, h2.2 (h3.2 (by decide))⟩
  · obtain ⟨out, h1, h2, h3, _⟩ := check_update_uW_chunk_buf []
      ⟨List.replicate 1458 0, 1458, 1, 128, []⟩
      ⟨0, 0, 1, 0, 2, 0, 30, 0, 0⟩ false 1 (List.replicate (1400 + 1) 85)
      (replicate_succ_ne_nil _ _) (by rw [List.length_replicate]; decide)
      ⟨List.length_replicate _ _, rfl, Nat.le_refl 1, rfl⟩ (by decide)
    refine ⟨out, h1, fun hc => ?_⟩
    have := h3.1 (h2.1 hc)
    rw [List.length_replicate] at this
    omega

/-! ## Receive loop -/

theorem deepcopy_chunk_eq (pool : Nat) (hpool : 0 < pool) (m : rte_mbuf) (h : forwardable m) :
    deepcopy_chunk pool m =
      some { data := m.data, pkt_len := m.pkt_len, nb_segs := 1,
             headroom := RTE_PKTMBUF_HEADROOM, stale := [] } := by
  unfold deepcopy_chunk
  rw [if_neg (by have := h.1; omega), if_neg (by omega), if_neg (by simp [h.2])]

/-- Effect of the `for` loop of `recv_send_chunks` on one burst. -/
theorem recv_send_burst_eq (rx_buf : List rte_mbuf) :
    ∀ (chunk_buf : List rte_mbuf) (service_hdr_buf : List service_header_cpu) (e : effects),
    (∀ m ∈ rx_buf, is_valid_chunk m = true → (unpack_service_header m).msg_type = 0 →
      forwardable m) →
    recv_send_burst rx_buf chunk_buf service_hdr_buf e =
      some (chunk_buf ++ kept rx_buf,
        service_hdr_buf ++ (kept rx_buf).map unpack_service_header,
        { e with
          allocated := e.allocated + (forwarded rx_buf).length
          tx := e.tx ++ forwarded rx_buf
          freed := e.freed ++ dropped rx_buf }) := by
  induction rx_buf with
  | nil =>
    intro cb hb e _
    simp [recv_send_burst, kept, dropped, forwarded]
  | cons m rest ih =>
    intro cb hb e hf
    have hf' : ∀ x ∈ rest, is_valid_chunk x = true → (unpack_service_header x).msg_type = 0 →
        forwardable x := fun x hx => hf x (List.mem_cons_of_mem _ hx)
    unfold recv_send_burst
    by_cases hv : is_valid_chunk m = true
    · have hv' : ¬ is_valid_chunk m = false := by simp [hv]
      rw [if_neg hv']
      by_cases ht : (unpack_service_header m).msg_type = 0
      · simp only [ht, if_true, deepcopy_chunk_eq FAST_FORWARD_POOL_SIZE (by decide) m
          (hf m (List.mem_cons_self _ _) hv ht)]
        rw [ih _ _ _ hf']
        simp [kept, dropped, forwarded, hv, ht, fast_forward_copy, Nat.add_assoc, Nat.add_comm]
      · simp only [ht, if_false]
        rw [ih _ _ _ hf']
        simp [kept, dropped, forwarded, hv, ht]
    · have hv' : is_valid_chunk m = false := by simpa using hv
      rw [if_pos hv', ih _ _ _ hf']
      simp [kept, dropped, forwarded, hv']

/-- C11 (as stated) fails: a 42-byte IPv4/UDP packet, too short to hold a service header, is
not freed; it is appended to the assembly buffer, with a header read from the 16 stale bytes
behind the packet data (here `0xAB`, which gives `msg_type = 171`, so no copy is sent). -/
theorem short_packet_is_buffered :
    ∃ r, recv_send_burst
        [⟨[0, 0, 0, 0, 0, 1, 0, 0, 0, 0, 0, 2, 8, 0,
           69, 0, 0, 28, 0, 0, 0, 0, 64, 17, 0, 0, 10, 0, 0, 1, 10, 0, 0, 2,
           0, 7, 0, 9, 0, 8, 0, 0], 42, 1, 128, List.replicate 16 171⟩] [] []
        ⟨1, 0, [], [], []⟩ = some r ∧
      r.1 = [⟨[0, 0, 0, 0, 0, 1, 0, 0, 0, 0, 0, 2, 8, 0,
           69, 0, 0, 28, 0, 0, 0, 0, 64, 17, 0, 0, 10, 0, 0, 1, 10, 0, 0, 2,
           0, 7, 0, 9, 0, 8, 0, 0], 42, 1, 128, List.replicate 16 171⟩] ∧
      r.2.1 = [⟨171, 171, 43947, 43947, 43947, 43947, 43947, 43947, 43947⟩] ∧
      r.2.2.freed = [] ∧ r.2.2.tx = [] ∧
      (42 : Nat) < SERVICE_HEADER_OFFSET + SERVICE_HEADER_LEN := by
  refine ⟨_, rfl, ?_⟩
  decide

/-- C11 (amended): in the loop over a burst of buffers whose data room holds the 58 bytes of
the headers, every buffer that is not an IPv4/UDP packet is freed and is neither unpacked,
forwarded nor appended, and the loop goes on with the next buffer: after the burst the
assembly buffer has grown by exactly the valid chunks of the burst and their headers, in
order, the freed buffers are exactly the others, and only copies of valid chunks were
transmitted. The length of a buffer is not looked at: an IPv4/UDP packet of any length is
appended, and when it is shorter than 58 bytes its header is what `unpack_service_header`
reads from the stale bytes behind the packet data. -/
theorem recv_send_burst_drops_invalid (rx_buf : List rte_mbuf) (chunk_buf : List rte_mbuf)
    (service_hdr_buf : List service_header_cpu) (e : effects)
    (_hroom : ∀ m ∈ rx_buf, SERVICE_HEADER_OFFSET + SERVICE_HEADER_LEN ≤ m.room.length)
    (hcopy : ∀ m ∈ rx_buf, is_valid_chunk m = true → (unpack_service_header m).msg_type = 0 →
      forwardable m) :
    ∃ chunk_buf' service_hdr_buf' e',
      recv_send_burst rx_buf chunk_buf service_hdr_buf e =
        some (chunk_buf', service_hdr_buf', e') ∧
      chunk_buf' = chunk_buf ++ rx_buf.filter is_valid_chunk ∧
      service_hdr_buf' =
        service_hdr_buf ++ (rx_buf.filter is_valid_chunk).map unpack_service_header ∧
      e'.freed = e.freed ++ rx_buf.filter (fun m => !is_valid_chunk m) ∧
      e'.tx = e.tx ++ forwarded rx_buf ∧
      (∀ m ∈ rx_buf, is_valid_chunk m = false →
        m ∈ e'.freed ∧ (m ∉ chunk_buf → m ∉ chunk_buf') ∧
        recv_send_burst (m :: rx_buf) chunk_buf service_hdr_buf e =
          recv_send_burst rx_buf chunk_buf service_hdr_buf
            { e with freed := e.freed ++ [m] }) := by
  refine ⟨_, _, _, recv_send_burst_eq rx_buf chunk_buf service_hdr_buf e hcopy, rfl, rfl, rfl,
    rfl, ?_⟩
  intro m hm hv
  refine ⟨?_, ?_, ?_⟩
  · simp only [List.mem_append, dropped, List.mem_filter]
    exact Or.inr ⟨hm, by simp [hv]⟩
  · intro hn hc
    rcases List.mem_append.1 hc with h | h
    · exact hn h
    · have := (List.mem_filter.1 h).2
      rw [hv] at this
      cases this
  · conv_lhs => unfold recv_send_burst
    rw [if_pos hv]

theorem recv_send_burst_drops_invalid_witness :
    ∃ r, recv_send_burst
        [⟨[0, 0, 0, 0, 0, 1, 0, 0, 0, 0, 0, 2, 8, 6, 0, 1, 8, 0, 6, 4, 0, 1], 22, 1, 128,
           List.replicate 36 171⟩,
         ⟨[0, 0, 0, 0, 0, 1, 0, 0, 0, 0, 0, 2, 8, 0,
           69, 0, 0, 28, 0, 0, 0, 0, 64, 17, 0, 0, 10, 0, 0, 1, 10, 0, 0, 2,
           0, 7, 0, 9, 0, 8, 0, 0], 42, 1, 128, List.replicate 16 0⟩,
         example_chunk ⟨1, 0, 1, 0, 1, 0, 17, 0, 0⟩ [5]] [] [] ⟨3, 0, [], [], []⟩ = some r ∧
      r.1 = [⟨[0, 0, 0, 0, 0, 1, 0, 0, 0, 0, 0, 2, 8, 0,
           69, 0, 0, 28, 0, 0, 0, 0, 64, 17, 0, 0, 10, 0, 0, 1, 10, 0, 0, 2,
           0, 7, 0, 9, 0, 8, 0, 0], 42, 1, 128, List.replicate 16 0⟩,
         example_chunk ⟨1, 0, 1, 0, 1, 0, 17, 0, 0⟩ [5]] ∧
      r.2.2.freed =
        [⟨[0, 0, 0, 0, 0, 1, 0, 0, 0, 0, 0, 2, 8, 6, 0, 1, 8, 0, 6, 4, 0, 1], 22, 1, 128,
           List.replicate 36 171⟩] ∧
      r.2.2.tx.length = 1 := by
  obtain ⟨cb, hb, e, h1, h2, _, h4, h5, _⟩ := recv_send_burst_drops_invalid
    [⟨[0, 0, 0, 0, 0, 1, 0, 0, 0, 0, 0, 2, 8, 6, 0, 1, 8, 0, 6, 4, 0, 1], 22, 1, 128,
       List.replicate 36 171⟩,
     ⟨[0, 0, 0, 0, 0, 1, 0, 0, 0, 0, 0, 2, 8, 0,
       69, 0, 0, 28, 0, 0, 0, 0, 64, 17, 0, 0, 10, 0, 0, 1, 10, 0, 0, 2,
       0, 7, 0, 9, 0, 8, 0, 0], 42, 1, 128, List.replicate 16 0⟩,
     example_chunk ⟨1, 0, 1, 0, 1, 0, 17, 0, 0⟩ [5]] [] [] ⟨3, 0, [], [], []⟩
    (by decide) (by decide)
  refine ⟨(cb, hb, e), h1, ?_, ?_, ?_⟩
  · show cb = _
    rw [h2]; decide
  · show e.freed = _
    rw [h4]; decide
  · show e.tx.length = _
    rw [h5]; decide
/-! ## Store-and-forward loop -/

/-- C13 fails on the code: for a burst of one ARP frame followed by one valid chunk the loop
writes one entry of `tx_buf` (`t = 1`) and frees the ARP frame, but calls `rte_eth_tx_burst`
with the count `nb_rx = 2`. The second buffer handed to TX is whatever `tx_buf[1]` held: an
entry never written on the first turn, and the second chunk of the previous burst, handed to
TX a second time, when the previous burst was two valid chunks. -/
theorem store_forward_hands_over_nb_rx :
    (run_store_forward_turn (List.replicate 128 none)
      [⟨[0, 0, 0, 0, 0, 1, 0, 0, 0, 0, 0, 2, 8, 6, 0, 1, 8, 0, 6, 4, 0, 1], 22, 1, 128, []⟩,
       example_chunk ⟨0, 0, 1, 0, 1, 0, 17, 0, 0⟩ [5]]).t = 1 ∧
    (run_store_forward_turn (List.replicate 128 none)
      [⟨[0, 0, 0, 0, 0, 1, 0, 0, 0, 0, 0, 2, 8, 6, 0, 1, 8, 0, 6, 4, 0, 1], 22, 1, 128, []⟩,
       example_chunk ⟨0, 0, 1, 0, 1, 0, 17, 0, 0⟩ [5]]).nb_pkts = 2 ∧
    (run_store_forward_turn (List.replicate 128 none)
      [⟨[0, 0, 0, 0, 0, 1, 0, 0, 0, 0, 0, 2, 8, 6, 0, 1, 8, 0, 6, 4, 0, 1], 22, 1, 128, []⟩,
       example_chunk ⟨0, 0, 1, 0, 1, 0, 17, 0, 0⟩ [5]]).handed_to_tx =
      [some (disable_udp_cksum (example_chunk ⟨0, 0, 1, 0, 1, 0, 17, 0, 0⟩ [5])), none] ∧
    (run_store_forward_turn
      (run_store_forward_turn (List.replicate 128 none)
        [example_chunk ⟨0, 0, 1, 0, 2, 0, 17, 0, 0⟩ [3],
         example_chunk ⟨0, 0, 1, 0, 2, 1, 17, 0, 0⟩ [4]]).tx_buf
      [⟨[0, 0, 0, 0, 0, 1, 0, 0, 0, 0, 0, 2, 8, 6, 0, 1, 8, 0, 6, 4, 0, 1], 22, 1, 128, []⟩,
       example_chunk ⟨0, 0, 1, 0, 1, 0, 17, 0, 0⟩ [5]]).handed_to_tx =
      [some (disable_udp_cksum (example_chunk ⟨0, 0, 1, 0, 1, 0, 17, 0, 0⟩ [5])),
       some (disable_udp_cksum (example_chunk ⟨0, 0, 1, 0, 2, 1, 17, 0, 0⟩ [4]))] := by
  decide

theorem store_forward_burst_eq (rx_buf : List rte_mbuf) :
    ∀ (t : Nat) (tx_buf : List (Option rte_mbuf)) (freed : List rte_mbuf),
    t + (kept rx_buf).length ≤ tx_buf.length →
    store_forward_burst rx_buf t tx_buf freed =
      (t + (kept rx_buf).length,
       tx_buf.take t ++ (kept rx_buf).map (fun m => some (disable_udp_cksum m)) ++
         tx_buf.drop (t + (kept rx_buf).length),
       freed ++ dropped rx_buf) := by
  induction rx_buf with
  | nil =>
    intro t tx_buf freed _
    simp [store_forward_burst, kept, dropped]
  | cons m rest ih =>
    intro t tx_buf freed hle
    unfold store_forward_burst
    by_cases hv : is_valid_chunk m = true
    · have hv' : ¬ is_valid_chunk m = false := by simp [hv]
      have hk : kept (m :: rest) = m :: kept rest := by simp [kept, hv]
      rw [hk, List.length_cons] at hle
      rw [if_neg hv', ih _ _ _ (by rw [List.length_set]; omega)]
      have e1 : t + 1 + (kept rest).length = t + (kept (m :: rest)).length := by
        rw [hk, List.length_cons]; omega
      have e2 : List.take (t + 1) (tx_buf.set t (some (disable_udp_cksum m))) =
          List.take t tx_buf ++ [some (disable_udp_cksum m)] := by
        apply List.ext_getElem?
        intro i
        rw [List.getElem?_take, List.getElem?_set]
        by_cases hi : i < t
        · rw [if_pos (by omega), if_neg (by omega),
            List.getElem?_append_left (by rw [List.length_take]; omega),
            List.getElem?_take, if_pos hi]
        · by_cases hi' : i = t
          · subst hi'
            rw [if_pos (by omega), if_pos rfl, if_pos (by omega),
              List.getElem?_append_right (by rw [List.length_take]; omega)]
            simp [List.length_take, Nat.min_eq_left (by omega : i ≤ tx_buf.length)]
          · rw [if_neg (by omega),
              List.getElem?_append_right (by rw [List.length_take]; omega)]
            symm
            rw [List.getElem?_eq_none_iff]
            simp [List.length_take, Nat.min_eq_left (by omega : t ≤ tx_buf.length)]
            omega
      have e3 : List.drop (t + 1 + (kept rest).length) (tx_buf.set t (some (disable_udp_cksum m))) =
          List.drop (t + 1 + (kept rest).length) tx_buf := by
        rw [List.drop_set_of_lt _ _ (by omega)]
      rw [e2, e3, hk]
      simp [dropped, hv, Nat.add_assoc, Nat.add_comm 1]
    · have hv' : is_valid_chunk m = false := by simpa using hv
      rw [if_pos hv', ih _ _ _ (by simpa [kept, hv'] using hle)]
      simp [kept, dropped, hv']

/-! ## MEICA state machine -/

/-- C17 (as stated) fails: with `msg_flags = 3` in the first uW header, where bit 0 is set,
the follower goes to `PROCESS_CHUNKS`. -/
theorem final_flag_is_not_bit_0 :
    (3 : Nat) % 2 = 1 ∧
    (vnf_step (fun _ _ _ _ => [1, 2]) (fun _ => 0) false 4
      { state := VNF_STATE.TRY_FORWARD_UW_CHUNKS
        X_chunk_buf := [example_chunk ⟨0, 0, 1, 0, 1, 0, 17, 0, 0⟩ [5]]
        uW_chunk_buf := [example_chunk ⟨1, 3, 1, 0, 1, 0, 17, 0, 1⟩ [6]]
        X_bytes := []
        X_service_hdr_buf := [⟨0, 0, 1, 0, 1, 0, 17, 0, 0⟩]
        uW_service_hdr_buf := [⟨1, 3, 1, 0, 1, 0, 17, 0, 1⟩]
        rx := []
        e := ⟨2, 1, [], [], []⟩
        force_quit := false }).map (fun v => v.state) = some VNF_STATE.PROCESS_CHUNKS := by
  decide

/-- C17 (amended): in `TRY_FORWARD_UW_CHUNKS` the follower goes to `SEND_UW_CHUNKS` if the
`msg_flags` of the first received uW header equals 1, and to `PROCESS_CHUNKS` for every other
value of `msg_flags`; nothing but the state changes. -/
theorem try_forward_iff_msg_flags_eq_1
    (run_meica_dist : List Nat → List Nat → Nat → Nat → List Nat)
    (rte_ipv4_cksum : List Nat → Nat) (is_leader : Bool) (max_rounds : Nat) (v : vnf)
    (front : service_header_cpu) (hs : v.state = VNF_STATE.TRY_FORWARD_UW_CHUNKS)
    (hq : v.force_quit = false) (hf : v.uW_service_hdr_buf.head? = some front) :
    ∃ v', vnf_step run_meica_dist rte_ipv4_cksum is_leader max_rounds v = some v' ∧
      (v'.state = VNF_STATE.SEND_UW_CHUNKS ↔ front.msg_flags = 1) ∧
      (v'.state = VNF_STATE.PROCESS_CHUNKS ↔ front.msg_flags ≠ 1) ∧
      v' = { v with state := v'.state } := by
  unfold vnf_step
  simp only [hq, hs, hf, Bool.false_eq_true, if_false]
  by_cases h1 : front.msg_flags = 1
  · rw [if_pos h1]
    exact ⟨_, rfl, by simp [h1], by simp [h1], rfl⟩
  · rw [if_neg h1]
    exact ⟨_, rfl, by simp [h1], by simp [h1], rfl⟩

theorem try_forward_iff_msg_flags_eq_1_witness :
    ∃ v', vnf_step (fun _ _ _ _ => [1, 2]) (fun _ => 0) false 4
      { state := VNF_STATE.TRY_FORWARD_UW_CHUNKS
        X_chunk_buf := [example_chunk ⟨0, 0, 1, 0, 1, 0, 17, 0, 0⟩ [5]]
        uW_chunk_buf := [example_chunk ⟨1, 1, 1, 0, 1, 0, 17, 0, 1⟩ [6]]
        X_bytes := []
        X_service_hdr_buf := [⟨0, 0, 1, 0, 1, 0, 17, 0, 0⟩]
        uW_service_hdr_buf := [⟨1, 1, 1, 0, 1, 0, 17, 0, 1⟩]
        rx := []
        e := ⟨2, 1, [], [], []⟩
        force_quit := false } = some v' ∧
      (v'.state = VNF_STATE.SEND_UW_CHUNKS ↔ (1 : Nat) = 1) := by
  obtain ⟨v', h1, h2, _⟩ := try_forward_iff_msg_flags_eq_1 (fun _ _ _ _ => [1, 2]) (fun _ => 0)
    false 4
    { state := VNF_STATE.TRY_FORWARD_UW_CHUNKS
      X_chunk_buf := [example_chunk ⟨0, 0, 1, 0, 1, 0, 17, 0, 0⟩ [5]]
      uW_chunk_buf := [example_chunk ⟨1, 1, 1, 0, 1, 0, 17, 0, 1⟩ [6]]
      X_bytes := []
      X_service_hdr_buf := [⟨0, 0, 1, 0, 1, 0, 17, 0, 0⟩]
      uW_service_hdr_buf := [⟨1, 1, 1, 0, 1, 0, 17, 0, 1⟩]
      rx := []
      e := ⟨2, 1, [], [], []⟩
      force_quit := false } ⟨1, 1, 1, 0, 1, 0, 17, 0, 1⟩ rfl rfl rfl
  exact ⟨v', h1, h2⟩

/-- What `recv_send_burst` preserves, whatever the burst holds: the two vectors grow by the
same number of entries, the headers stay the unpacked headers of the chunks, and the bridge
is not called. -/
theorem recv_send_burst_inv (rx_buf : List rte_mbuf) :
    ∀ (cb : List rte_mbuf) (hb : List service_header_cpu) (e : effects)
      (cb' : List rte_mbuf) (hb' : List service_header_cpu) (e' : effects),
    recv_send_burst rx_buf cb hb e = some (cb', hb', e') →
    e'.bridge_calls = e.bridge_calls ∧ e'.received = e.received ∧
    (cb.length = hb.length → cb'.length = hb'.length) ∧
    (hb = cb.map unpack_service_header → hb' = cb'.map unpack_service_header) := by
  induction rx_buf with
  | nil =>
    intro cb hb e cb' hb' e' h
    simp only [recv_send_burst, Option.some.injEq, Prod.mk.injEq] at h
    obtain ⟨rfl, rfl, rfl⟩ := h
    exact ⟨rfl, rfl, id, id⟩
  | cons m rest ih =>
    intro cb hb e cb' hb' e' h
    unfold recv_send_burst at h
    by_cases hv : is_valid_chunk m = false
    · rw [if_pos hv] at h
      obtain ⟨h1, h2, h3, h4⟩ := ih _ _ _ _ _ _ h
      exact ⟨h1, h2, h3, h4⟩
    · rw [if_neg hv] at h
      by_cases ht : (unpack_service_header m).msg_type = 0
      · simp only [ht, if_true] at h
        cases hc : deepcopy_chunk FAST_FORWARD_POOL_SIZE m with
        | none => rw [hc] at h; cases h
        | some m_copy =>
          rw [hc] at h
          obtain ⟨h1, h2, h3, h4⟩ := ih _ _ _ _ _ _ h
          refine ⟨h1, h2, fun hl => h3 (by simp [hl]), fun hh => h4 (by simp [hh])⟩
      · simp only [ht, if_false] at h
        obtain ⟨h1, h2, h3, h4⟩ := ih _ _ _ _ _ _ h
        refine ⟨h1, h2, fun hl => h3 (by simp [hl]), fun hh => h4 (by simp [hh])⟩

/-- What `recv_send_chunks` preserves, whatever the bursts hold. -/
theorem recv_send_chunks_inv (rx : List (List rte_mbuf)) :
    ∀ (cb : List rte_mbuf) (hb : List service_header_cpu) (e : effects) (r : recv_outcome),
    recv_send_chunks rx cb hb e = some r →
    r.e.bridge_calls = e.bridge_calls ∧
    (cb.length = hb.length → r.chunk_buf.length = r.service_hdr_buf.length) ∧
    (hb = cb.map unpack_service_header →
      r.service_hdr_buf = r.chunk_buf.map unpack_service_header) := by
  induction rx with
  | nil =>
    intro cb hb e r h
    simp only [recv_send_chunks, Option.some.injEq] at h
    subst h
    exact ⟨rfl, id, id⟩
  | cons b rest ih =>
    intro cb hb e r h
    unfold recv_send_chunks at h
    by_cases hz : b.length = 0
    · rw [if_pos hz] at h
      exact ih _ _ _ _ h
    · rw [if_neg hz] at h
      cases hB : recv_send_burst b cb hb { e with received := e.received + b.length } with
      | none => rw [hB] at h; cases h
      | some t =>
        obtain ⟨cb', hb', e'⟩ := t
        rw [hB] at h
        obtain ⟨h1, -, h3, h4⟩ := recv_send_burst_inv b _ _ _ _ _ _ hB
        cases hl : hb'.getLast? with
        | none => simp only [hl] at h; cases h
        | some last =>
          simp only [hl] at h
          by_cases ht : (last.chunk_num : Int) = (last.total_chunk_num : Int) - 1
          · rw [if_pos ht] at h
            simp only [Option.some.injEq] at h
            subst h
            exact ⟨h1, h3, h4⟩
          · rw [if_neg ht] at h
            obtain ⟨g1, g2, g3⟩ := ih _ _ _ _ h
            exact ⟨g1.trans h1, fun hh => g2 (h3 hh), fun hh => g3 (h4 hh)⟩

/-- C16: for a MEICA follower, when the X message and then the uW message have been received
and the first uW header has `msg_flags = 1`, the state machine goes
`FORWARD_X_CHUNKS → RECV_UW_CHUNKS → TRY_FORWARD_UW_CHUNKS → SEND_UW_CHUNKS →
FORWARD_X_CHUNKS`; the compute bridge is not called, and the chunks emitted in
`SEND_UW_CHUNKS` are the received uW chunks after `recalc_ipv4_udp_cksum`, each with its
service header, `msg_flags` included, as received. -/
theorem final_flag_fast_path (run_meica_dist : List Nat → List Nat → Nat → Nat → List Nat)
    (rte_ipv4_cksum : List Nat → Nat) (max_rounds : Nat) (v : vnf) (r1 r2 : recv_outcome)
    (front : service_header_cpu)
    (hs : v.state = VNF_STATE.FORWARD_X_CHUNKS) (hq : v.force_quit = false)
    (hX : v.X_chunk_buf = [] ∧ v.X_service_hdr_buf = [])
    (huW : v.uW_chunk_buf = [] ∧ v.uW_service_hdr_buf = [])
    (h1 : recv_send_chunks v.rx [] [] v.e = some r1) (hq1 : r1.force_quit = false)
    (h2 : recv_send_chunks r1.rx [] [] r1.e = some r2) (hq2 : r2.force_quit = false)
    (hf : r2.service_hdr_buf.head? = some front) (hflag : front.msg_flags = 1) :
    ∃ v1 v2 v3 v4,
      vnf_step run_meica_dist rte_ipv4_cksum false max_rounds v = some v1 ∧
      v1.state = VNF_STATE.RECV_UW_CHUNKS ∧
      vnf_step run_meica_dist rte_ipv4_cksum false max_rounds v1 = some v2 ∧
      v2.state = VNF_STATE.TRY_FORWARD_UW_CHUNKS ∧ v2.uW_chunk_buf = r2.chunk_buf ∧
      vnf_step run_meica_dist rte_ipv4_cksum false max_rounds v2 = some v3 ∧
      v3.state = VNF_STATE.SEND_UW_CHUNKS ∧
      vnf_step run_meica_dist rte_ipv4_cksum false max_rounds v3 = some v4 ∧
      v4.state = VNF_STATE.FORWARD_X_CHUNKS ∧
      v4.e.bridge_calls = v.e.bridge_calls ∧
      v4.e.tx = r2.e.tx ++ r2.chunk_buf.map (recalc_ipv4_udp_cksum rte_ipv4_cksum) ∧
      r2.service_hdr_buf = r2.chunk_buf.map unpack_service_header ∧
      ∀ c ∈ r2.chunk_buf,
        unpack_service_header (recalc_ipv4_udp_cksum rte_ipv4_cksum c) =
          unpack_service_header c := by
  obtain ⟨hX1, hX2⟩ := hX
  obtain ⟨hU1, hU2⟩ := huW
  obtain ⟨b1, -, -⟩ := recv_send_chunks_inv _ _ _ _ _ h1
  obtain ⟨b2, -, b3⟩ := recv_send_chunks_inv _ _ _ _ _ h2
  refine ⟨{ v with
      rx := r1.rx, X_chunk_buf := r1.chunk_buf, X_service_hdr_buf := r1.service_hdr_buf,
      e := r1.e, force_quit := r1.force_quit, state := VNF_STATE.RECV_UW_CHUNKS },
    { v with
      rx := r2.rx, X_chunk_buf := r1.chunk_buf, X_service_hdr_buf := r1.service_hdr_buf,
      uW_chunk_buf := r2.chunk_buf, uW_service_hdr_buf := r2.service_hdr_buf,
      e := r2.e, force_quit := r2.force_quit, state := VNF_STATE.TRY_FORWARD_UW_CHUNKS },
    { v with
      rx := r2.rx, X_chunk_buf := r1.chunk_buf, X_service_hdr_buf := r1.service_hdr_buf,
      uW_chunk_buf := r2.chunk_buf, uW_service_hdr_buf := r2.service_hdr_buf,
      e := r2.e, force_quit := r2.force_quit, state := VNF_STATE.SEND_UW_CHUNKS },
    { v with
      rx := r2.rx, X_chunk_buf := [], X_service_hdr_buf := [],
      uW_chunk_buf := [], uW_service_hdr_buf := [],
      e := { r2.e with tx := r2.e.tx ++ send_chunks rte_ipv4_cksum r2.chunk_buf },
      force_quit := r2.force_quit, state := VNF_STATE.FORWARD_X_CHUNKS },
    ?_, rfl, ?_, rfl, rfl, ?_, rfl, ?_, rfl, ?_, rfl, b3 rfl, ?_⟩
  · unfold vnf_step
    simp only [hq, hs, hX1, hX2, h1, List.length_nil, and_self, if_true, Bool.false_eq_true,
      if_false]
  · unfold vnf_step
    simp only [hq1, hU1, hU2, h2, List.length_nil, and_self, if_true, Bool.false_eq_true,
      if_false]
  · unfold vnf_step
    simp only [hq2, hf, hflag, if_true, Bool.false_eq_true, if_false]
  · unfold vnf_step
    simp only [hq2, Bool.false_eq_true, if_false]
  · show r2.e.bridge_calls = v.e.bridge_calls
    rw [b2, b1]
  · intro c _
    exact unpack_recalc_ipv4_udp_cksum rte_ipv4_cksum c

theorem final_flag_fast_path_witness :
    ∃ v3 v4,
      v3.state = VNF_STATE.SEND_UW_CHUNKS ∧
      vnf_step (fun _ _ _ _ => [1, 2]) (fun _ => 0) false 4 v3 = some v4 ∧
      v4.state = VNF_STATE.FORWARD_X_CHUNKS ∧
      v4.e.bridge_calls =
        (vnf_init [[example_chunk ⟨0, 0, 1, 0, 2, 0, 18, 0, 0⟩ [7, 8],
                    example_chunk ⟨0, 0, 1, 0, 2, 1, 17, 0, 0⟩ [9]],
                   [example_chunk ⟨1, 1, 1, 0, 1, 0, 19, 0, 3⟩ [1, 2, 3]]]).e.bridge_calls := by
  obtain ⟨_, _, v3, v4, _, _, _, _, _, _, h7, h8, h9, h10, _⟩ :=
    final_flag_fast_path (fun _ _ _ _ => [1, 2]) (fun _ => 0) 4
      (vnf_init [[example_chunk ⟨0, 0, 1, 0, 2, 0, 18, 0, 0⟩ [7, 8],
                  example_chunk ⟨0, 0, 1, 0, 2, 1, 17, 0, 0⟩ [9]],
                 [example_chunk ⟨1, 1, 1, 0, 1, 0, 19, 0, 3⟩ [1, 2, 3]]])
      _ _ ⟨1, 1, 1, 0, 1, 0, 19, 0, 3⟩ rfl rfl ⟨rfl, rfl⟩ ⟨rfl, rfl⟩ rfl rfl rfl rfl rfl rfl
  exact ⟨v3, v4, h7, h8, h9, h10⟩

/-- C14 fails on the code: a follower receives an X message of two chunks and then a uW
message of one chunk with `msg_flags = 1`. After the cycle
`FORWARD_X_CHUNKS, RECV_UW_CHUNKS, TRY_FORWARD_UW_CHUNKS, SEND_UW_CHUNKS` the state machine is
back in `FORWARD_X_CHUNKS` with empty vectors; it has received 3 buffers and allocated 2, but
only 3 buffers were handed to TX (the two copies and the uW chunk) and none was freed: the
two X chunks are neither transmitted nor freed. With `msg_flags = 0` in the uW chunk the
cycle goes through `PROCESS_CHUNKS`, which frees the X chunks, and the counts balance. -/
theorem final_uW_cycle_leaks_X_chunks :
    (∃ v, vnf_run (fun _ _ _ _ => [1, 2]) (fun _ => 0) false 4 4
        (vnf_init [[example_chunk ⟨0, 0, 1, 0, 2, 0, 18, 0, 0⟩ [7, 8],
                    example_chunk ⟨0, 0, 1, 0, 2, 1, 17, 0, 0⟩ [9]],
                   [example_chunk ⟨1, 1, 1, 0, 1, 0, 19, 0, 3⟩ [1, 2, 3]]]) = some v ∧
      v.state = VNF_STATE.FORWARD_X_CHUNKS ∧ v.X_chunk_buf = [] ∧ v.uW_chunk_buf = [] ∧
      v.rx = [] ∧ v.e.received = 3 ∧ v.e.allocated = 2 ∧ v.e.freed = [] ∧
      v.e.tx =
        [fast_forward_copy (example_chunk ⟨0, 0, 1, 0, 2, 0, 18, 0, 0⟩ [7, 8]),
         fast_forward_copy (example_chunk ⟨0, 0, 1, 0, 2, 1, 17, 0, 0⟩ [9]),
         recalc_ipv4_udp_cksum (fun _ => 0)
           (example_chunk ⟨1, 1, 1, 0, 1, 0, 19, 0, 3⟩ [1, 2, 3])] ∧
      v.e.received + v.e.allocated = v.e.tx.length + v.e.freed.length + 2) ∧
    (∃ v, vnf_run (fun _ _ _ _ => [1, 2]) (fun _ => 0) false 4 5
        (vnf_init [[example_chunk ⟨0, 0, 1, 0, 2, 0, 18, 0, 0⟩ [7, 8],
                    example_chunk ⟨0, 0, 1, 0, 2, 1, 17, 0, 0⟩ [9]],
                   [example_chunk ⟨1, 0, 1, 0, 1, 0, 19, 0, 3⟩ [1, 2, 3]]]) = some v ∧
      v.state = VNF_STATE.FORWARD_X_CHUNKS ∧ v.X_chunk_buf = [] ∧ v.uW_chunk_buf = [] ∧
      v.e.freed =
        [example_chunk ⟨1, 0, 1, 0, 1, 0, 19, 0, 3⟩ [1, 2, 3],
         example_chunk ⟨0, 0, 1, 0, 2, 0, 18, 0, 0⟩ [7, 8],
         example_chunk ⟨0, 0, 1, 0, 2, 1, 17, 0, 0⟩ [9]] ∧
      v.e.received + v.e.allocated = v.e.tx.length + v.e.freed.length) := by
  constructor
  · refine ⟨_, rfl, ?_⟩
    decide
  · refine ⟨_, rfl, ?_⟩
    decide

/-! ## Assembly-buffer invariant -/

set_option maxRecDepth 1000000 in
/-- C15 (as stated) fails: a leader that has received a one-chunk X message and gone through
`PROCESS_CHUNKS` is in `SEND_UW_CHUNKS` with one chunk in the uW chunk vector and no header
in the uW header vector. -/
theorem uW_vectors_differ_after_process_chunks :
    ∃ v, vnf_run (fun _ _ _ _ => [0, 1, 85, 87, 49]) (fun _ => 0) true 4 2
        (vnf_init [[example_chunk ⟨0, 0, 1, 0, 1, 0, 1416, 0, 0⟩ (List.replicate 1400 7)]]) =
        some v ∧
      v.state = VNF_STATE.SEND_UW_CHUNKS ∧
      v.uW_chunk_buf.length = 1 ∧ v.uW_service_hdr_buf.length = 0 := by
  refine ⟨_, rfl, ?_⟩
  decide

theorem process_chunks_prologue_length (cb : List rte_mbuf) (hb : List service_header_cpu)
    (cb' : List rte_mbuf) (hb' : List service_header_cpu) (X_bytes : List Nat)
    (h : process_chunks_prologue cb hb = some (cb', hb', X_bytes)) :
    cb'.length = hb'.length ∧ defragment cb' hb' = some X_bytes ∧
      check_service_hdr_buf hb' = some true := by
  unfold process_chunks_prologue at h
  cases hc : check_service_hdr_buf hb with
  | none => rw [hc] at h; cases h
  | some ok =>
    rw [hc] at h
    simp only at h
    generalize (if ok = false then recover_chunks cb hb else some (cb, hb)) = rec at h
    cases rec with
    | none => cases h
    | some p =>
      obtain ⟨c, hd⟩ := p
      simp only at h
      cases hc2 : check_service_hdr_buf hd with
      | none => rw [hc2] at h; cases h
      | some b =>
        rw [hc2] at h
        cases b with
        | false => cases h
        | true =>
          simp only at h
          cases hdf : defragment c hd with
          | none => rw [hdf] at h; cases h
          | some xb =>
            rw [hdf] at h
            simp only [Option.some.injEq, Prod.mk.injEq] at h
            obtain ⟨rfl, rfl, rfl⟩ := h
            refine ⟨?_, hdf, hc2⟩
            unfold defragment at hdf
            by_contra hne
            rw [if_pos hne] at hdf
            cases hdf

theorem vnf_step_assembly_inv (run_meica_dist : List Nat → List Nat → Nat → Nat → List Nat)
    (rte_ipv4_cksum : List Nat → Nat) (is_leader : Bool) (max_rounds : Nat) (v v' : vnf)
    (hinv : assembly_inv v)
    (hstep : vnf_step run_meica_dist rte_ipv4_cksum is_leader max_rounds v = some v') :
    assembly_inv v' := by
  obtain ⟨hX, hU⟩ := hinv
  unfold vnf_step at hstep
  by_cases hq : v.force_quit = true
  · rw [if_pos hq] at hstep; cases hstep
  · rw [if_neg hq] at hstep
    cases hs : v.state with
    | RESET =>
      simp only [hs, reset_bufs, Option.some.injEq] at hstep
      subst hstep
      exact ⟨rfl, fun _ => rfl⟩
    | FORWARD_X_CHUNKS =>
      simp only [hs] at hstep
      split at hstep
      · cases hr : recv_send_chunks v.rx v.X_chunk_buf v.X_service_hdr_buf v.e with
        | none => rw [hr] at hstep; cases hstep
        | some r =>
          rw [hr] at hstep
          simp only [Option.some.injEq] at hstep
          subst hstep
          obtain ⟨-, g, -⟩ := recv_send_chunks_inv _ _ _ _ _ hr
          exact ⟨g hX, fun _ => hU (by rw [hs]; decide)⟩
      · cases hstep
    | RECV_UW_CHUNKS =>
      simp only [hs] at hstep
      split at hstep
      · cases hr : recv_send_chunks v.rx v.uW_chunk_buf v.uW_service_hdr_buf v.e with
        | none => rw [hr] at hstep; cases hstep
        | some r =>
          rw [hr] at hstep
          simp only [Option.some.injEq] at hstep
          subst hstep
          obtain ⟨-, g, -⟩ := recv_send_chunks_inv _ _ _ _ _ hr
          exact ⟨hX, fun _ => g (hU (by rw [hs]; decide))⟩
      · cases hstep
    | TRY_FORWARD_UW_CHUNKS =>
      simp only [hs] at hstep
      cases hf : v.uW_service_hdr_buf.head? with
      | none => rw [hf] at hstep; cases hstep
      | some front =>
        rw [hf] at hstep
        simp only at hstep
        split at hstep
        · simp only [Option.some.injEq] at hstep
          subst hstep
          exact ⟨hX, fun h => absurd rfl h⟩
        · simp only [Option.some.injEq] at hstep
          subst hstep
          exact ⟨hX, fun _ => hU (by rw [hs]; decide)⟩
    | PROCESS_CHUNKS =>
      simp only [hs] at hstep
      cases hp : process_chunks_prologue v.X_chunk_buf v.X_service_hdr_buf with
      | none => rw [hp] at hstep; cases hstep
      | some t =>
        obtain ⟨cb, hb, xb⟩ := t
        rw [hp] at hstep
        simp only at hstep
        obtain ⟨hl, -, -⟩ := process_chunks_prologue_length _ _ _ _ _ hp
        cases h1 : cb.head? with
        | none => rw [h1] at hstep; cases hstep
        | some m =>
          cases h2 : hb.head? with
          | none => rw [h1, h2] at hstep; cases hstep
          | some t =>
            rw [h1, h2] at hstep
            simp only at hstep
            cases h3 : process_chunks run_meica_dist m t xb v.uW_chunk_buf
                v.uW_service_hdr_buf max_rounds with
            | none => rw [h3] at hstep; cases hstep
            | some out =>
              rw [h3] at hstep
              simp only [Option.some.injEq] at hstep
              subst hstep
              exact ⟨hl, fun h => absurd rfl h⟩
    | SEND_UW_CHUNKS =>
      simp only [hs, Option.some.injEq] at hstep
      subst hstep
      exact ⟨rfl, fun _ => rfl⟩

theorem vnf_run_assembly_inv (run_meica_dist : List Nat → List Nat → Nat → Nat → List Nat)
    (rte_ipv4_cksum : List Nat → Nat) (is_leader : Bool) (max_rounds : Nat) (k : Nat) :
    ∀ (v v' : vnf), assembly_inv v →
      vnf_run run_meica_dist rte_ipv4_cksum is_leader max_rounds k v = some v' →
      assembly_inv v' := by
  induction k with
  | zero =>
    intro v v' hinv h
    simp only [vnf_run, Option.some.injEq] at h
    subst h; exact hinv
  | succ k ih =>
    intro v v' hinv h
    unfold vnf_run at h
    cases hs : vnf_step run_meica_dist rte_ipv4_cksum is_leader max_rounds v with
    | none => rw [hs] at h; cases h
    | some v1 =>
      rw [hs] at h
      exact ih v1 v' (vnf_step_assembly_inv _ _ _ _ _ _ hinv hs) h

theorem cnn_vnf_step_assembly_inv (run_cnn_dist : List Nat → List Nat)
    (rte_ipv4_cksum : List Nat → Nat) (v v' : cnn.vnf) (hinv : cnn.assembly_inv v)
    (hstep : cnn.vnf_step run_cnn_dist rte_ipv4_cksum v = some v') :
    cnn.assembly_inv v' := by
  unfold cnn.assembly_inv at hinv ⊢
  unfold cnn.vnf_step at hstep
  by_cases hq : v.force_quit = true
  · rw [if_pos hq] at hstep; cases hstep
  · rw [if_neg hq] at hstep
    cases hs : v.state with
    | RESET =>
      simp only [hs, reset_bufs, Option.some.injEq] at hstep
      subst hstep
      rfl
    | RECV_X_CHUNKS =>
      simp only [hs, cnn.recv_chunks] at hstep
      split at hstep
      · cases hr : recv_send_chunks v.rx v.X_chunk_buf v.X_service_hdr_buf v.e with
        | none => rw [hr] at hstep; cases hstep
        | some r =>
          rw [hr] at hstep
          simp only [Option.some.injEq] at hstep
          subst hstep
          obtain ⟨-, g, -⟩ := recv_send_chunks_inv _ _ _ _ _ hr
          exact g hinv
      · cases hstep
    | PROCESS_CHUNKS =>
      simp only [hs] at hstep
      cases hp : process_chunks_prologue v.X_chunk_buf v.X_service_hdr_buf with
      | none => rw [hp] at hstep; cases hstep
      | some t =>
        obtain ⟨cb, hb, xb⟩ := t
        rw [hp] at hstep
        simp only at hstep
        obtain ⟨hl, -, -⟩ := process_chunks_prologue_length _ _ _ _ _ hp
        cases h1 : cb.head? with
        | none => rw [h1] at hstep; cases hstep
        | some m =>
          cases h2 : hb.head? with
          | none => rw [h1, h2] at hstep; cases hstep
          | some t =>
            rw [h1, h2] at hstep
            simp only [Option.some.injEq] at hstep
            subst hstep
            exact hl
    | SEND_RESULT_CHUNKS =>
      simp only [hs, Option.some.injEq] at hstep
      subst hstep
      rfl

theorem cnn_vnf_run_assembly_inv (run_cnn_dist : List Nat → List Nat)
    (rte_ipv4_cksum : List Nat → Nat) (k : Nat) :
    ∀ (v v' : cnn.vnf), cnn.assembly_inv v →
      cnn.vnf_run run_cnn_dist rte_ipv4_cksum k v = some v' → cnn.assembly_inv v' := by
  induction k with
  | zero =>
    intro v v' hinv h
    simp only [cnn.vnf_run, Option.some.injEq] at h
    subst h; exact hinv
  | succ k ih =>
    intro v v' hinv h
    unfold cnn.vnf_run at h
    cases hs : cnn.vnf_step run_cnn_dist rte_ipv4_cksum v with
    | none => rw [hs] at h; cases h
    | some v1 =>
      rw [hs] at h
      exact ih v1 v' (cnn_vnf_step_assembly_inv _ _ _ _ hinv hs) h

/-- What a `PROCESS_CHUNKS` turn of the MEICA state machine does to the uW vectors: the uW
chunk vector becomes the series that `process_chunks` returns for the first X chunk and
header after the head of the turn, and the uW header vector is left as it was. -/
theorem vnf_step_process_chunks (run_meica_dist : List Nat → List Nat → Nat → Nat → List Nat)
    (rte_ipv4_cksum : List Nat → Nat) (is_leader : Bool) (max_rounds : Nat) (v v' : vnf)
    (hs : v.state = VNF_STATE.PROCESS_CHUNKS)
    (hstep : vnf_step run_meica_dist rte_ipv4_cksum is_leader max_rounds v = some v') :
    v'.state = VNF_STATE.SEND_UW_CHUNKS ∧
    v'.uW_service_hdr_buf = v.uW_service_hdr_buf ∧
    ∃ (X_chunk_buf : List rte_mbuf) (X_service_hdr_buf : List service_header_cpu)
      (X_bytes : List Nat) (m_data_full : rte_mbuf) (hdr_template : service_header_cpu),
      process_chunks_prologue v.X_chunk_buf v.X_service_hdr_buf =
        some (X_chunk_buf, X_service_hdr_buf, X_bytes) ∧
      X_chunk_buf.head? = some m_data_full ∧ X_service_hdr_buf.head? = some hdr_template ∧
      process_chunks run_meica_dist m_data_full hdr_template X_bytes v.uW_chunk_buf
        v.uW_service_hdr_buf max_rounds = some v'.uW_chunk_buf := by
  unfold vnf_step at hstep
  by_cases hq : v.force_quit = true
  · rw [if_pos hq] at hstep; cases hstep
  · rw [if_neg hq] at hstep
    simp only [hs] at hstep
    cases hp : process_chunks_prologue v.X_chunk_buf v.X_service_hdr_buf with
    | none => rw [hp] at hstep; cases hstep
    | some t =>
      obtain ⟨cb, hb, xb⟩ := t
      rw [hp] at hstep
      simp only at hstep
      cases h1 : cb.head? with
      | none => rw [h1] at hstep; cases hstep
      | some m =>
        cases h2 : hb.head? with
        | none => rw [h1, h2] at hstep; cases hstep
        | some tmpl =>
          rw [h1, h2] at hstep
          simp only at hstep
          cases h3 : process_chunks run_meica_dist m tmpl xb v.uW_chunk_buf
              v.uW_service_hdr_buf max_rounds with
          | none => rw [h3] at hstep; cases hstep
          | some out =>
            rw [h3] at hstep
            simp only [Option.some.injEq] at hstep
            subst hstep
            exact ⟨rfl, rfl, cb, hb, xb, m, tmpl, rfl, h1, h2, h3⟩

/-- C15 (amended): every step of the MEICA and of the CNN state machine keeps as many X
chunks as X headers, and every step of the MEICA state machine keeps as many uW chunks as uW
headers in every state other than `SEND_UW_CHUNKS`; so this holds in every reachable state.
`PROCESS_CHUNKS` replaces the uW chunks by the series that `process_chunks` synthesizes and
leaves the uW header vector as it was; `SEND_UW_CHUNKS` then clears both vectors. -/
theorem assembly_invariant (run_meica_dist : List Nat → List Nat → Nat → Nat → List Nat)
    (run_cnn_dist : List Nat → List Nat) (rte_ipv4_cksum : List Nat → Nat)
    (is_leader : Bool) (max_rounds : Nat) :
    (∀ v v', assembly_inv v →
      vnf_step run_meica_dist rte_ipv4_cksum is_leader max_rounds v = some v' →
      assembly_inv v') ∧
    (∀ rx k v, vnf_run run_meica_dist rte_ipv4_cksum is_leader max_rounds k (vnf_init rx) =
      some v → assembly_inv v) ∧
    (∀ v v', v.state = VNF_STATE.PROCESS_CHUNKS →
      vnf_step run_meica_dist rte_ipv4_cksum is_leader max_rounds v = some v' →
      v'.state = VNF_STATE.SEND_UW_CHUNKS ∧
      v'.uW_service_hdr_buf = v.uW_service_hdr_buf ∧
      ∃ (X_chunk_buf : List rte_mbuf) (X_service_hdr_buf : List service_header_cpu)
        (X_bytes : List Nat) (m_data_full : rte_mbuf) (hdr_template : service_header_cpu),
        process_chunks_prologue v.X_chunk_buf v.X_service_hdr_buf =
          some (X_chunk_buf, X_service_hdr_buf, X_bytes) ∧
        X_chunk_buf.head? = some m_data_full ∧ X_service_hdr_buf.head? = some hdr_template ∧
        process_chunks run_meica_dist m_data_full hdr_template X_bytes v.uW_chunk_buf
          v.uW_service_hdr_buf max_rounds = some v'.uW_chunk_buf) ∧
    (∀ v v', v.state = VNF_STATE.SEND_UW_CHUNKS →
      vnf_step run_meica_dist rte_ipv4_cksum is_leader max_rounds v = some v' →
      v'.uW_chunk_buf = [] ∧ v'.uW_service_hdr_buf = []) ∧
    (∀ v v', cnn.assembly_inv v → cnn.vnf_step run_cnn_dist rte_ipv4_cksum v = some v' →
      cnn.assembly_inv v') ∧
    (∀ rx k v, cnn.vnf_run run_cnn_dist rte_ipv4_cksum k (cnn.vnf_init rx) = some v →
      cnn.assembly_inv v) := by
  refine ⟨fun v v' => vnf_step_assembly_inv _ _ _ _ v v', ?_,
    fun v v' => vnf_step_process_chunks _ _ _ _ v v', ?_,
    fun v v' => cnn_vnf_step_assembly_inv _ _ v v', ?_⟩
  · intro rx k v h
    exact vnf_run_assembly_inv _ _ _ _ k (vnf_init rx) v ⟨rfl, fun _ => rfl⟩ h
  · intro v v' hs hstep
    unfold vnf_step at hstep
    by_cases hq : v.force_quit = true
    · rw [if_pos hq] at hstep; cases hstep
    · rw [if_neg hq] at hstep
      simp only [hs, Option.some.injEq] at hstep
      subst hstep
      exact ⟨rfl, rfl⟩
  · intro rx k v h
    exact cnn_vnf_run_assembly_inv _ _ k (cnn.vnf_init rx) v rfl h

theorem assembly_invariant_witness :
    ∃ v, vnf_run (fun _ _ _ _ => [1, 2]) (fun _ => 0) false 4 3
        (vnf_init [[example_chunk ⟨0, 0, 1, 0, 2, 0, 18, 0, 0⟩ [7, 8],
                    example_chunk ⟨0, 0, 1, 0, 2, 1, 17, 0, 0⟩ [9]],
                   [example_chunk ⟨1, 0, 1, 0, 1, 0, 19, 0, 3⟩ [1, 2, 3]]]) = some v ∧
      assembly_inv v := by
  have h := (assembly_invariant (fun _ _ _ _ => [1, 2]) (fun x => x) (fun _ => 0) false 4).2.1
    [[example_chunk ⟨0, 0, 1, 0, 2, 0, 18, 0, 0⟩ [7, 8],
      example_chunk ⟨0, 0, 1, 0, 2, 1, 17, 0, 0⟩ [9]],
     [example_chunk ⟨1, 0, 1, 0, 1, 0, 19, 0, 3⟩ [1, 2, 3]]] 3
  exact ⟨_, rfl, h _ rfl⟩

/-! ## A whole message through the receive loop and `PROCESS_CHUNKS` -/

theorem kept_of_valid (l : List rte_mbuf) (h : ∀ m ∈ l, is_valid_chunk m = true) :
    kept l = l := by
  unfold kept
  exact List.filter_eq_self.2 h

theorem dropped_of_valid (l : List rte_mbuf) (h : ∀ m ∈ l, is_valid_chunk m = true) :
    dropped l = [] := by
  unfold dropped
  rw [List.filter_eq_nil_iff]
  intro m hm
  simp [h m hm]

theorem forwarded_append (a b : List rte_mbuf) :
    forwarded (a ++ b) = forwarded a ++ forwarded b := by
  simp [forwarded, kept]

/-- The receive loop on the bursts of one message: all buffers are valid chunks, the end-of-burst
test holds on the last chunk of the last burst and on no chunk before. The loop returns after
the last burst with every chunk buffered in arrival order. -/
theorem recv_send_chunks_message (pre : List (List rte_mbuf)) :
    ∀ (lb : List rte_mbuf) (more : List (List rte_mbuf)) (cb : List rte_mbuf)
      (hb : List service_header_cpu) (e : effects),
    lb ≠ [] →
    (∀ m ∈ pre.flatten ++ lb, is_valid_chunk m = true ∧ forwardable m) →
    (∀ m ∈ pre.flatten, ¬ exit_test (unpack_service_header m)) →
    (∀ z, lb.getLast? = some z → exit_test (unpack_service_header z)) →
    recv_send_chunks (pre ++ lb :: more) cb hb e =
      some { rx := more
             chunk_buf := cb ++ (pre.flatten ++ lb)
             service_hdr_buf := hb ++ (pre.flatten ++ lb).map unpack_service_header
             e := { e with
               received := e.received + (pre.flatten ++ lb).length
               allocated := e.allocated + (forwarded (pre.flatten ++ lb)).length
               tx := e.tx ++ forwarded (pre.flatten ++ lb) }
             force_quit := false } := by
  induction pre with
  | nil =>
    intro lb more cb hb e hne hv _ hz
    simp only [List.flatten_nil, List.nil_append] at hv ⊢
    unfold recv_send_chunks
    have hl : lb.length ≠ 0 := fun h => hne (List.length_eq_zero.1 h)
    rw [if_neg hl, recv_send_burst_eq lb _ _ _ (fun m hm _ _ => (hv m hm).2)]
    rw [kept_of_valid lb (fun m hm => (hv m hm).1), dropped_of_valid lb (fun m hm => (hv m hm).1)]
    obtain ⟨z, hzl⟩ : ∃ z, lb.getLast? = some z :=
      ⟨lb.getLast hne, List.getLast?_eq_getLast _ hne⟩
    have hlast : (hb ++ lb.map unpack_service_header).getLast? =
        some (unpack_service_header z) := by
      rw [List.getLast?_append, List.getLast?_map, hzl]
      rfl
    simp only [hlast]
    have hex := hz z hzl
    unfold exit_test at hex
    rw [if_pos hex]
    simp
  | cons b rest ih =>
    intro lb more cb hb e hne hv hnx hz
    simp only [List.flatten_cons, List.append_assoc] at hv hnx ⊢
    rw [List.cons_append]
    unfold recv_send_chunks
    by_cases hbz : b.length = 0
    · have hb0 : b = [] := List.length_eq_zero.1 hbz
      subst hb0
      rw [if_pos hbz]
      simp only [List.nil_append] at hv hnx ⊢
      exact ih lb more cb hb e hne hv hnx hz
    · rw [if_neg hbz]
      have hvb : ∀ m ∈ b, is_valid_chunk m = true ∧ forwardable m :=
        fun m hm => hv m (List.mem_append_left _ hm)
      rw [recv_send_burst_eq b _ _ _ (fun m hm _ _ => (hvb m hm).2)]
      rw [kept_of_valid b (fun m hm => (hvb m hm).1),
        dropped_of_valid b (fun m hm => (hvb m hm).1)]
      have hbne : b ≠ [] := fun h => hbz (by rw [h]; rfl)
      have hlast : (hb ++ b.map unpack_service_header).getLast? =
          some (unpack_service_header (b.getLast hbne)) := by
        rw [List.getLast?_append, List.getLast?_map, List.getLast?_eq_getLast _ hbne]
        rfl
      simp only [hlast]
      have hnot : ¬ exit_test (unpack_service_header (b.getLast hbne)) :=
        hnx _ (List.mem_append_left _ (List.getLast_mem hbne))
      unfold exit_test at hnot
      rw [if_neg hnot]
      rw [ih lb more _ _ _ hne (fun m hm => hv m (List.mem_append_right _ hm))
        (fun m hm => hnx m (List.mem_append_right _ hm)) hz]
      simp [forwarded_append, List.append_assoc, Nat.add_assoc]

theorem message_chunk_carries (n : Nat) (c : rte_mbuf) (h : message_chunk n c) :
    carries (chunk_payload c) c (unpack_service_header c) ∧
    (chunk_payload c).length ≤ MAX_CHUNK_SIZE := by
  obtain ⟨_, _, _, _, h5, h6, h7⟩ := h
  have eO : SERVICE_HEADER_OFFSET = 42 := rfl
  have eL : SERVICE_HEADER_LEN = 16 := rfl
  have eM : MAX_CHUNK_SIZE = 1400 := rfl
  have hl : (chunk_payload c).length = c.data_len - 58 := by
    unfold chunk_payload rte_mbuf.data_len
    rw [List.length_drop, eO, eL]
  refine ⟨⟨h5, rfl, ?_⟩, ?_⟩
  · rw [h7, hl, eO, eL]
    rw [eO, eL] at h5
    omega
  · rw [hl, eM]
    omega

/-- The call of `defragment` on chunks that all carry their payload as the header says. -/
theorem defragment_message (n : Nat) (cs : List rte_mbuf) (h : ∀ c ∈ cs, message_chunk n c) :
    defragment cs (cs.map unpack_service_header) = some (cs.map chunk_payload).flatten := by
  have key := defragment_law (cs.map (fun c => (chunk_payload c, c, unpack_service_header c)))
    (by
      intro t ht
      obtain ⟨c, hc, rfl⟩ := List.mem_map.1 ht
      exact (message_chunk_carries n c (h c hc)).2)
    (by
      intro t ht
      obtain ⟨c, hc, rfl⟩ := List.mem_map.1 ht
      exact (message_chunk_carries n c (h c hc)).1)
  simpa [List.map_map, Function.comp_def] using key

/-- The head of `PROCESS_CHUNKS` on a complete message of `n` chunks buffered in any order:
the vectors leave it in `chunk_num` order and `X_bytes` is the concatenation of the payloads
in that order. -/
theorem process_chunks_prologue_message (n : Nat) (hn : 1 ≤ n) (arr : List rte_mbuf)
    (hlen : arr.length = n) (hm : ∀ c ∈ arr, message_chunk n c)
    (hperm : (arr.map (fun c => (unpack_service_header c).chunk_num)).Perm (List.range n)) :
    ∃ sorted : List rte_mbuf,
      process_chunks_prologue arr (arr.map unpack_service_header) =
        some (sorted, sorted.map unpack_service_header, (sorted.map chunk_payload).flatten) ∧
      sorted.length = n ∧ (∀ c ∈ sorted, c ∈ arr) ∧
      ∀ i (hi : i < sorted.length), (unpack_service_header sorted[i]).chunk_num = i := by
  have hne : arr.map unpack_service_header ≠ [] := by
    intro h
    have := congrArg List.length h
    simp only [List.length_map, List.length_nil] at this
    omega
  have hr : ∀ h ∈ arr.map unpack_service_header, h.in_range := by
    intro h hh
    obtain ⟨c, hc, rfl⟩ := List.mem_map.1 hh
    exact (hm c hc).2.2.1
  have htot : ∀ h ∈ arr.map unpack_service_header, h.total_chunk_num = n := by
    intro h hh
    obtain ⟨c, hc, rfl⟩ := List.mem_map.1 hh
    exact (hm c hc).2.2.2.1
  have hlast : ((arr.map unpack_service_header).getLast hne).total_chunk_num = n :=
    htot _ (List.getLast_mem hne)
  have hn16 : n < 65536 := by
    have h1 := hr _ (List.getLast_mem hne)
    unfold service_header_cpu.in_range at h1
    omega
  have hchk := check_service_hdr_buf_eq (arr.map unpack_service_header) hne (by omega)
  have hchk' : ∃ b, check_service_hdr_buf (arr.map unpack_service_header) = some b ∧
      (b = true → ∀ i (hi : i < arr.length), (unpack_service_header arr[i]).chunk_num = i) := by
    refine ⟨_, hchk, fun hb i hi => ?_⟩
    have h2 := (of_decide_eq_true hb).2 i (by rw [List.length_map]; exact hi)
    rw [List.getElem_map] at h2
    exact h2
  obtain ⟨b, hb, hbt⟩ := hchk'
  unfold process_chunks_prologue
  rw [hb]
  cases b with
  | true =>
    simp only [Bool.true_eq_false, if_false, hb, defragment_message n arr hm]
    exact ⟨arr, rfl, hlen, fun c hc => hc, hbt rfl⟩
  | false =>
    simp only [if_true]
    obtain ⟨cs', hs', σ, h1, h2, h3, h4, h5, h6, h7⟩ :=
      recover_chunks_complete n hn arr (arr.map unpack_service_header) hlen
        (by simp [hlen]) hr htot (by simpa [List.map_map, Function.comp_def] using hperm)
    have hmap : hs' = cs'.map unpack_service_header := by
      apply List.ext_getElem?
      intro i
      by_cases hi : i < n
      · obtain ⟨ha, hb⟩ := h5 i hi
        rw [List.getElem?_map, ha, hb]
        cases σ[i]? with
        | none => rfl
        | some k => simp [List.getElem?_map]
      · rw [List.getElem?_eq_none (by omega), List.getElem?_eq_none (by simp; omega)]
    have hmem : ∀ c ∈ cs', c ∈ arr := by
      intro c hc
      obtain ⟨i, hi, hci⟩ := List.getElem_of_mem hc
      have hci' : cs'[i]? = some c := by rw [List.getElem?_eq_getElem hi, hci]
      rw [(h5 i (by omega)).1] at hci'
      cases hk : σ[i]? with
      | none => rw [hk] at hci'; cases hci'
      | some k =>
        rw [hk] at hci'
        exact List.mem_iff_getElem?.2 ⟨k, by simpa using hci'⟩
    subst hmap
    simp only [h1, h7, defragment_message n cs' (fun c hc => hm c (hmem c hc))]
    refine ⟨cs', rfl, h3, hmem, ?_⟩
    intro i hi
    have := h6 i (by simpa using hi)
    simpa using this

/-! ## Out-of-order arrival -/

/-- C18 fails on the code: four chunks of one message arrive in the order
`chunk_num = 2, 0, 3, 1`. In one burst the end-of-burst test looks at chunk 1, so the receive
loop does not exit: it goes on polling until `g_force_quit`, and the leader never reaches the
bridge. Split as `2, 0, 3` and `1` the loop exits after the first burst with three chunks
buffered, chunk 1 still unread, and `PROCESS_CHUNKS` ends in `rte_exit`; the same happens
when every chunk comes in a burst of its own. In no case are the four chunks recovered and
their payloads passed to the bridge, which is what `recover_chunks` is there for. -/
theorem arrival_2_0_3_1_is_not_assembled :
    (∃ r, recv_send_chunks
        [[example_chunk ⟨0, 0, 1, 0, 4, 2, 17, 0, 0⟩ [12],
          example_chunk ⟨0, 0, 1, 0, 4, 0, 17, 0, 0⟩ [10],
          example_chunk ⟨0, 0, 1, 0, 4, 3, 17, 0, 0⟩ [13],
          example_chunk ⟨0, 0, 1, 0, 4, 1, 17, 0, 0⟩ [11]]] [] []
        ⟨0, 0, [], [], []⟩ = some r ∧ r.force_quit = true) ∧
    vnf_run (fun _ _ _ _ => [0, 1]) (fun _ => 0) true 4 2
      (vnf_init
        [[example_chunk ⟨0, 0, 1, 0, 4, 2, 17, 0, 0⟩ [12],
          example_chunk ⟨0, 0, 1, 0, 4, 0, 17, 0, 0⟩ [10],
          example_chunk ⟨0, 0, 1, 0, 4, 3, 17, 0, 0⟩ [13],
          example_chunk ⟨0, 0, 1, 0, 4, 1, 17, 0, 0⟩ [11]]]) = none ∧
    (∃ r, recv_send_chunks
        [[example_chunk ⟨0, 0, 1, 0, 4, 2, 17, 0, 0⟩ [12],
          example_chunk ⟨0, 0, 1, 0, 4, 0, 17, 0, 0⟩ [10],
          example_chunk ⟨0, 0, 1, 0, 4, 3, 17, 0, 0⟩ [13]],
         [example_chunk ⟨0, 0, 1, 0, 4, 1, 17, 0, 0⟩ [11]]] [] []
        ⟨0, 0, [], [], []⟩ = some r ∧ r.force_quit = false ∧ r.chunk_buf.length = 3 ∧
      r.rx = [[example_chunk ⟨0, 0, 1, 0, 4, 1, 17, 0, 0⟩ [11]]] ∧
      process_chunks_prologue r.chunk_buf r.service_hdr_buf = none) ∧
    (∃ r, recv_send_chunks
        [[example_chunk ⟨0, 0, 1, 0, 4, 2, 17, 0, 0⟩ [12]],
         [example_chunk ⟨0, 0, 1, 0, 4, 0, 17, 0, 0⟩ [10]],
         [example_chunk ⟨0, 0, 1, 0, 4, 3, 17, 0, 0⟩ [13]],
         [example_chunk ⟨0, 0, 1, 0, 4, 1, 17, 0, 0⟩ [11]]] [] []
        ⟨0, 0, [], [], []⟩ = some r ∧ r.force_quit = false ∧ r.chunk_buf.length = 3 ∧
      process_chunks_prologue r.chunk_buf r.service_hdr_buf = none) := by
  refine ⟨⟨_, rfl, ?_⟩, ?_, ⟨_, rfl, ?_⟩, ⟨_, rfl, ?_⟩⟩
  · decide
  · decide
  · decide
  · decide

/-- The first two turns of the leader's loop, `FORWARD_X_CHUNKS` and `PROCESS_CHUNKS`, when
the receive loop returns with the chunks `arr` and the head of `PROCESS_CHUNKS` leaves them
as `sorted` with the bytes `X_bytes`: the bridge is called with `X_bytes`. -/
theorem leader_first_turns (run_meica_dist : List Nat → List Nat → Nat → Nat → List Nat)
    (rte_ipv4_cksum : List Nat → Nat) (max_rounds : Nat)
    (rx more : List (List rte_mbuf)) (arr sorted : List rte_mbuf) (e1 : effects)
    (X_bytes : List Nat) (c0 : rte_mbuf)
    (hrecv : recv_send_chunks rx [] [] ⟨0, 0, [], [], []⟩ =
      some ⟨more, arr, arr.map unpack_service_header, e1, false⟩)
    (hpro : process_chunks_prologue arr (arr.map unpack_service_header) =
      some (sorted, sorted.map unpack_service_header, X_bytes))
    (hhead : sorted.head? = some c0) :
    vnf_run run_meica_dist rte_ipv4_cksum true max_rounds 2 (vnf_init rx) =
      (process_chunks run_meica_dist c0 (unpack_service_header c0) X_bytes [] []
        max_rounds).map (fun uW_chunk_buf =>
          { state := VNF_STATE.SEND_UW_CHUNKS
            X_chunk_buf := sorted
            uW_chunk_buf := uW_chunk_buf
            X_bytes := X_bytes
            X_service_hdr_buf := sorted.map unpack_service_header
            uW_service_hdr_buf := []
            rx := more
            e := { e1 with
              allocated := e1.allocated + uW_chunk_buf.length
              freed := e1.freed ++ sorted
              bridge_calls := e1.bridge_calls ++ [X_bytes] }
            force_quit := false }) := by
  have hhead2 : (sorted.map unpack_service_header).head? = some (unpack_service_header c0) := by
    rw [List.head?_map, hhead]; rfl
  simp only [vnf_run, vnf_step, vnf_init, Bool.false_eq_true, if_false, List.length_nil,
    and_self, if_true, hrecv, hpro, hhead, hhead2]
  cases process_chunks run_meica_dist c0 (unpack_service_header c0) X_bytes [] [] max_rounds with
  | none => rfl
  | some uW => simp

theorem eq_of_keys_at_index {T : Type} (key : T → Nat) (s t : List T)
    (hlen : s.length = t.length)
    (hs : ∀ i (hi : i < s.length), key s[i] = i)
    (ht : ∀ i (hi : i < t.length), key t[i] = i)
    (hmem : ∀ c ∈ s, c ∈ t) : s = t := by
  apply List.ext_getElem hlen
  intro i h1 h2
  obtain ⟨j, hj, hji⟩ := List.getElem_of_mem (hmem _ (List.getElem_mem h1))
  have e1 := hs i h1
  rw [← hji, ht j hj] at e1
  subst e1
  exact hji.symm

/-- The arrival orders the receive loop does assemble: four chunks `c0 .. c3` of one message
(`chunk_num` 0 to 3, every `total_chunk_num = 4`) arrive in bursts, in any order in which
chunk 3 is the last buffer of the last burst. The receive loop then returns after that burst
with the four chunks buffered in arrival order, the head of `PROCESS_CHUNKS` puts them in the
order `c0, c1, c2, c3` and defragments the concatenation of the four payloads in that order,
and the leader calls the bridge with these bytes. -/
theorem out_of_order_message (c0 c1 c2 c3 : rte_mbuf)
    (h0 : message_chunk 4 c0) (h1 : message_chunk 4 c1) (h2 : message_chunk 4 c2)
    (h3 : message_chunk 4 c3)
    (k0 : (unpack_service_header c0).chunk_num = 0)
    (k1 : (unpack_service_header c1).chunk_num = 1)
    (k2 : (unpack_service_header c2).chunk_num = 2)
    (k3 : (unpack_service_header c3).chunk_num = 3)
    (pre : List (List rte_mbuf)) (lb : List rte_mbuf) (more : List (List rte_mbuf))
    (hperm : (pre.flatten ++ lb).Perm [c0, c1, c2, c3])
    (hlast : lb.getLast? = some c3) :
    (∀ e : effects,
      recv_send_chunks (pre ++ lb :: more) [] [] e =
        some { rx := more
               chunk_buf := pre.flatten ++ lb
               service_hdr_buf := (pre.flatten ++ lb).map unpack_service_header
               e := { e with
                 received := e.received + 4
                 allocated := e.allocated + (forwarded (pre.flatten ++ lb)).length
                 tx := e.tx ++ forwarded (pre.flatten ++ lb) }
               force_quit := false }) ∧
    process_chunks_prologue (pre.flatten ++ lb)
        ((pre.flatten ++ lb).map unpack_service_header) =
      some ([c0, c1, c2, c3], [c0, c1, c2, c3].map unpack_service_header,
        chunk_payload c0 ++ chunk_payload c1 ++ chunk_payload c2 ++ chunk_payload c3) ∧
    ∀ (run_meica_dist : List Nat → List Nat → Nat → Nat → List Nat)
      (rte_ipv4_cksum : List Nat → Nat) (max_rounds : Nat),
      vnf_run run_meica_dist rte_ipv4_cksum true max_rounds 2 (vnf_init (pre ++ lb :: more)) =
        (process_chunks run_meica_dist c0 (unpack_service_header c0)
          (chunk_payload c0 ++ chunk_payload c1 ++ chunk_payload c2 ++ chunk_payload c3) [] []
          max_rounds).map (fun uW_chunk_buf =>
            { state := VNF_STATE.SEND_UW_CHUNKS
              X_chunk_buf := [c0, c1, c2, c3]
              uW_chunk_buf := uW_chunk_buf
              X_bytes :=
                chunk_payload c0 ++ chunk_payload c1 ++ chunk_payload c2 ++ chunk_payload c3
              X_service_hdr_buf := [c0, c1, c2, c3].map unpack_service_header
              uW_service_hdr_buf := []
              rx := more
              e := { received := 4
                     allocated := (forwarded (pre.flatten ++ lb)).length + uW_chunk_buf.length
                     tx := forwarded (pre.flatten ++ lb)
                     freed := [c0, c1, c2, c3]
                     bridge_calls :=
                       [chunk_payload c0 ++ chunk_payload c1 ++ chunk_payload c2 ++
                         chunk_payload c3] }
              force_quit := false }) := by
  have hall : ∀ c ∈ [c0, c1, c2, c3], message_chunk 4 c := by
    intro c hc
    simp only [List.mem_cons, List.mem_singleton, List.not_mem_nil, or_false] at hc
    rcases hc with rfl | rfl | rfl | rfl
    · exact h0
    · exact h1
    · exact h2
    · exact h3
  have hm : ∀ c ∈ pre.flatten ++ lb, message_chunk 4 c :=
    fun c hc => hall c (hperm.mem_iff.1 hc)
  have hlen : (pre.flatten ++ lb).length = 4 := by rw [hperm.length_eq]; rfl
  have hne : lb ≠ [] := by
    intro h
    rw [h] at hlast
    cases hlast
  have hnd : (pre.flatten ++ lb).Nodup := by
    rw [hperm.nodup_iff]
    have d : ([c0, c1, c2, c3].map (fun c => (unpack_service_header c).chunk_num)).Nodup := by
      simp only [List.map_cons, List.map_nil, k0, k1, k2, k3]
      decide
    exact List.Nodup.of_map _ d
  have hc3 : c3 ∈ lb := List.mem_of_mem_getLast? hlast
  have hpre : ∀ m ∈ pre.flatten, ¬ exit_test (unpack_service_header m) := by
    intro m hmp
    have hmc : m ∈ [c0, c1, c2, c3] := hperm.mem_iff.1 (List.mem_append_left _ hmp)
    have hne3 : m ≠ c3 := by
      intro h
      subst h
      exact (List.nodup_append.1 hnd).2.2 hmp hc3
    have ht := (hall m hmc).2.2.2.1
    unfold exit_test
    rw [ht]
    simp only [List.mem_cons, List.mem_singleton, List.not_mem_nil, or_false] at hmc
    rcases hmc with rfl | rfl | rfl | rfl
    · rw [k0]; decide
    · rw [k1]; decide
    · rw [k2]; decide
    · exact absurd rfl hne3
  have hz : ∀ z, lb.getLast? = some z → exit_test (unpack_service_header z) := by
    intro z hzl
    rw [hlast] at hzl
    cases hzl
    unfold exit_test
    rw [h3.2.2.2.1, k3]
    decide
  have hrecv := fun e => recv_send_chunks_message pre lb more [] [] e hne
    (fun m hmm => ⟨(hm m hmm).1, (hm m hmm).2.1⟩) hpre hz
  have hkeys : ((pre.flatten ++ lb).map (fun c => (unpack_service_header c).chunk_num)).Perm
      (List.range 4) := by
    have := hperm.map (fun c => (unpack_service_header c).chunk_num)
    simpa only [List.map_cons, List.map_nil, k0, k1, k2, k3] using this
  obtain ⟨sorted, hp1, hp2, hp3, hp4⟩ :=
    process_chunks_prologue_message 4 (by decide) (pre.flatten ++ lb) hlen hm hkeys
  have hsorted : sorted = [c0, c1, c2, c3] := by
    apply eq_of_keys_at_index (fun c => (unpack_service_header c).chunk_num) sorted
      [c0, c1, c2, c3] hp2 hp4
    · intro i hi
      have hi4 : i < 4 := hi
      interval_cases i
      · exact k0
      · exact k1
      · exact k2
      · exact k3
    · exact fun c hc => hperm.mem_iff.1 (hp3 c hc)
  subst hsorted
  have hpro : process_chunks_prologue (pre.flatten ++ lb)
      ((pre.flatten ++ lb).map unpack_service_header) =
      some ([c0, c1, c2, c3], [c0, c1, c2, c3].map unpack_service_header,
        chunk_payload c0 ++ chunk_payload c1 ++ chunk_payload c2 ++ chunk_payload c3) := by
    rw [hp1]
    simp [List.append_assoc]
  have hrecv0 : recv_send_chunks (pre ++ lb :: more) [] [] ⟨0, 0, [], [], []⟩ =
      some ⟨more, pre.flatten ++ lb, (pre.flatten ++ lb).map unpack_service_header,
        ⟨4, (forwarded (pre.flatten ++ lb)).length, forwarded (pre.flatten ++ lb), [], []⟩,
        false⟩ := by
    rw [hrecv, hlen]
    simp
  refine ⟨?_, hpro, ?_⟩
  · intro e
    rw [hrecv e, hlen]
    simp
  · intro bridge cks mr
    rw [leader_first_turns bridge cks mr (pre ++ lb :: more) more (pre.flatten ++ lb)
      [c0, c1, c2, c3] _ _ c0 hrecv0 hpro rfl]
    cases process_chunks bridge c0 (unpack_service_header c0)
      (chunk_payload c0 ++ chunk_payload c1 ++ chunk_payload c2 ++ chunk_payload c3) [] [] mr with
    | none => rfl
    | some uW => simp

theorem out_of_order_message_witness :
    process_chunks_prologue
        [example_chunk ⟨0, 0, 1, 0, 4, 2, 17, 0, 0⟩ [12],
         example_chunk ⟨0, 0, 1, 0, 4, 0, 17, 0, 0⟩ [10],
         example_chunk ⟨0, 0, 1, 0, 4, 1, 17, 0, 0⟩ [11],
         example_chunk ⟨0, 0, 1, 0, 4, 3, 17, 0, 0⟩ [13]]
        [⟨0, 0, 1, 0, 4, 2, 17, 0, 0⟩, ⟨0, 0, 1, 0, 4, 0, 17, 0, 0⟩,
         ⟨0, 0, 1, 0, 4, 1, 17, 0, 0⟩, ⟨0, 0, 1, 0, 4, 3, 17, 0, 0⟩] =
      some ([example_chunk ⟨0, 0, 1, 0, 4, 0, 17, 0, 0⟩ [10],
             example_chunk ⟨0, 0, 1, 0, 4, 1, 17, 0, 0⟩ [11],
             example_chunk ⟨0, 0, 1, 0, 4, 2, 17, 0, 0⟩ [12],
             example_chunk ⟨0, 0, 1, 0, 4, 3, 17, 0, 0⟩ [13]],
            [⟨0, 0, 1, 0, 4, 0, 17, 0, 0⟩, ⟨0, 0, 1, 0, 4, 1, 17, 0, 0⟩,
             ⟨0, 0, 1, 0, 4, 2, 17, 0, 0⟩, ⟨0, 0, 1, 0, 4, 3, 17, 0, 0⟩],
            [10, 11, 12, 13]) ∧
    ∃ v, vnf_run (fun _ _ _ _ => [0, 1]) (fun _ => 0) true 4 2
        (vnf_init
          [[example_chunk ⟨0, 0, 1, 0, 4, 2, 17, 0, 0⟩ [12],
            example_chunk ⟨0, 0, 1, 0, 4, 0, 17, 0, 0⟩ [10]],
           [example_chunk ⟨0, 0, 1, 0, 4, 1, 17, 0, 0⟩ [11],
            example_chunk ⟨0, 0, 1, 0, 4, 3, 17, 0, 0⟩ [13]]]) = some v ∧
      v.state = VNF_STATE.SEND_UW_CHUNKS ∧ v.X_bytes = [10, 11, 12, 13] ∧
      v.e.bridge_calls = [[10, 11, 12, 13]] ∧ v.e.received = 4 := by
  have h := out_of_order_message
    (example_chunk ⟨0, 0, 1, 0, 4, 0, 17, 0, 0⟩ [10])
    (example_chunk ⟨0, 0, 1, 0, 4, 1, 17, 0, 0⟩ [11])
    (example_chunk ⟨0, 0, 1, 0, 4, 2, 17, 0, 0⟩ [12])
    (example_chunk ⟨0, 0, 1, 0, 4, 3, 17, 0, 0⟩ [13])
    (by decide) (by decide) (by decide) (by decide)
    (by decide) (by decide) (by decide) (by decide)
    [[example_chunk ⟨0, 0, 1, 0, 4, 2, 17, 0, 0⟩ [12],
      example_chunk ⟨0, 0, 1, 0, 4, 0, 17, 0, 0⟩ [10]]]
    [example_chunk ⟨0, 0, 1, 0, 4, 1, 17, 0, 0⟩ [11],
     example_chunk ⟨0, 0, 1, 0, 4, 3, 17, 0, 0⟩ [13]] []
    (by decide) (by decide)
  refine ⟨h.2.1, ?_⟩
  have h2 := h.2.2 (fun _ _ _ _ => [0, 1]) (fun _ => 0) 4
  exact ⟨_, h2, by decide⟩

/-! ## The CNN receive loop -/

theorem kept_append (a b : List rte_mbuf) : kept (a ++ b) = kept a ++ kept b := by
  simp [kept]

theorem dropped_append (a b : List rte_mbuf) : dropped (a ++ b) = dropped a ++ dropped b := by
  simp [dropped]

theorem forwarded_of_data (l : List rte_mbuf)
    (h : ∀ m ∈ l, is_valid_chunk m = true ∧ (unpack_service_header m).msg_type = 0) :
    forwarded l = l.map fast_forward_copy := by
  unfold forwarded
  rw [kept_of_valid l (fun m hm => (h m hm).1)]
  congr 1
  exact List.filter_eq_self.2 (fun m hm => by simp [(h m hm).2])

theorem forwardable_of_deepcopy_chunk (pool : Nat) (m c : rte_mbuf)
    (h : deepcopy_chunk pool m = some c) : forwardable m ∧ 0 < pool := by
  unfold deepcopy_chunk at h
  unfold forwardable
  by_cases h1 : m.nb_segs > 1
  · rw [if_pos h1] at h; cases h
  · by_cases h0 : pool = 0
    · rw [if_neg h1, if_pos h0] at h; cases h
    · by_cases h2 : m.headroom ≠ RTE_PKTMBUF_HEADROOM
      · rw [if_neg h1, if_neg h0, if_pos h2] at h; cases h
      · exact ⟨⟨by omega, by simpa using h2⟩, by omega⟩

/-- A burst on which the `for` loop of the receive loop runs to its end held only data
chunks that `deepcopy_chunk` copies. -/
theorem recv_send_burst_forwardable (rx_buf : List rte_mbuf) :
    ∀ (cb : List rte_mbuf) (hb : List service_header_cpu) (e : effects)
      (t : List rte_mbuf × List service_header_cpu × effects),
    recv_send_burst rx_buf cb hb e = some t →
    ∀ m ∈ rx_buf, is_valid_chunk m = true → (unpack_service_header m).msg_type = 0 →
      forwardable m := by
  induction rx_buf with
  | nil =>
    intro cb hb e t _ m hm
    cases hm
  | cons x rest ih =>
    intro cb hb e t h m hm hv ht
    unfold recv_send_burst at h
    by_cases hxv : is_valid_chunk x = false
    · rw [if_pos hxv] at h
      rcases List.mem_cons.1 hm with rfl | hmr
      · rw [hv] at hxv; cases hxv
      · exact ih _ _ _ _ h m hmr hv ht
    · rw [if_neg hxv] at h
      by_cases hxt : (unpack_service_header x).msg_type = 0
      · simp only [hxt, if_true] at h
        cases hc : deepcopy_chunk FAST_FORWARD_POOL_SIZE x with
        | none => rw [hc] at h; cases h
        | some x_copy =>
          rw [hc] at h
          rcases List.mem_cons.1 hm with rfl | hmr
          · exact (forwardable_of_deepcopy_chunk _ _ _ hc).1
          · exact ih _ _ _ _ h m hmr hv ht
      · simp only [hxt, if_false] at h
        rcases List.mem_cons.1 hm with rfl | hmr
        · exact absurd ht hxt
        · exact ih _ _ _ _ h m hmr hv ht

/-- What the receive loop has done when it returns: it consumed a prefix of the bursts, kept
the valid chunks, freed the other buffers, and allocated and transmitted one copy for every
valid chunk with `msg_type = 0`. -/
theorem recv_send_chunks_effects (rx : List (List rte_mbuf)) :
    ∀ (cb : List rte_mbuf) (hb : List service_header_cpu) (e : effects) (r : recv_outcome),
    recv_send_chunks rx cb hb e = some r →
    ∃ consumed : List (List rte_mbuf), rx = consumed ++ r.rx ∧
      r.chunk_buf = cb ++ kept consumed.flatten ∧
      r.service_hdr_buf = hb ++ (kept consumed.flatten).map unpack_service_header ∧
      r.e.received = e.received + consumed.flatten.length ∧
      r.e.allocated = e.allocated + (forwarded consumed.flatten).length ∧
      r.e.tx = e.tx ++ forwarded consumed.flatten ∧
      r.e.freed = e.freed ++ dropped consumed.flatten := by
  induction rx with
  | nil =>
    intro cb hb e r h
    simp only [recv_send_chunks, Option.some.injEq] at h
    subst h
    exact ⟨[], rfl, by simp [kept], by simp [kept], rfl, by simp [forwarded, kept],
      by simp [forwarded, kept], by simp [dropped]⟩
  | cons b rest ih =>
    intro cb hb e r h
    unfold recv_send_chunks at h
    by_cases hz : b.length = 0
    · rw [if_pos hz] at h
      have hb0 : b = [] := List.length_eq_zero.1 hz
      obtain ⟨c, g1, g2, g3, g4, g5, g6, g7⟩ := ih _ _ _ _ h
      refine ⟨b :: c, by rw [g1]; rfl, ?_, ?_, ?_, ?_, ?_, ?_⟩ <;>
        simp only [List.flatten_cons, hb0, List.nil_append] <;> assumption
    · rw [if_neg hz] at h
      cases hB : recv_send_burst b cb hb { e with received := e.received + b.length } with
      | none => rw [hB] at h; cases h
      | some t =>
        have hf := recv_send_burst_forwardable b _ _ _ _ hB
        rw [recv_send_burst_eq b _ _ _ hf] at hB
        rw [recv_send_burst_eq b _ _ _ hf] at h
        cases hl : (hb ++ (kept b).map unpack_service_header).getLast? with
        | none => simp only [hl] at h; cases h
        | some last =>
          simp only [hl] at h
          by_cases ht : (last.chunk_num : Int) = (last.total_chunk_num : Int) - 1
          · rw [if_pos ht] at h
            simp only [Option.some.injEq] at h
            subst h
            exact ⟨[b], rfl, by simp, by simp, by simp, by simp, by simp, by simp⟩
          · rw [if_neg ht] at h
            obtain ⟨c, g1, g2, g3, g4, g5, g6, g7⟩ := ih _ _ _ _ h
            refine ⟨b :: c, by rw [g1]; rfl, ?_, ?_, ?_, ?_, ?_, ?_⟩
            · rw [g2]; simp [kept_append]
            · rw [g3]; simp [kept_append]
            · rw [g4]; simp [Nat.add_assoc]
            · rw [g5]; simp [forwarded_append, Nat.add_assoc]
            · rw [g6]; simp [forwarded_append]
            · rw [g7]; simp [dropped_append]

/-- C12 fails on the code: the CNN `recv_chunks` on one burst with the three chunks of a
message allocates three copies from `fast_forward_pool` and transmits them, and one full CNN
cycle hands six buffers to TX, the three copies and then the three original chunks: every
chunk of the message goes out twice, where the receive-only loop of the claim sends the three
original chunks once. -/
theorem cnn_recv_chunks_forwards_copies :
    (∃ r, cnn.recv_chunks
        [[example_chunk ⟨0, 0, 1, 0, 3, 0, 17, 0, 0⟩ [10],
          example_chunk ⟨0, 0, 1, 0, 3, 1, 17, 0, 0⟩ [11],
          example_chunk ⟨0, 0, 1, 0, 3, 2, 17, 0, 0⟩ [12]]] [] []
        ⟨0, 0, [], [], []⟩ = some r ∧ r.e.allocated = 3 ∧
      r.e.tx =
        [fast_forward_copy (example_chunk ⟨0, 0, 1, 0, 3, 0, 17, 0, 0⟩ [10]),
         fast_forward_copy (example_chunk ⟨0, 0, 1, 0, 3, 1, 17, 0, 0⟩ [11]),
         fast_forward_copy (example_chunk ⟨0, 0, 1, 0, 3, 2, 17, 0, 0⟩ [12])]) ∧
    (∃ v, cnn.vnf_run (fun _ => []) (fun _ => 0) 3
        (cnn.vnf_init
          [[example_chunk ⟨0, 0, 1, 0, 3, 0, 17, 0, 0⟩ [10],
            example_chunk ⟨0, 0, 1, 0, 3, 1, 17, 0, 0⟩ [11],
            example_chunk ⟨0, 0, 1, 0, 3, 2, 17, 0, 0⟩ [12]]]) = some v ∧
      v.state = cnn.VNF_STATE.RECV_X_CHUNKS ∧ v.e.allocated = 3 ∧ v.e.tx.length = 6 ∧
      v.e.tx ≠
        [recalc_ipv4_udp_cksum (fun _ => 0) (example_chunk ⟨0, 0, 1, 0, 3, 0, 17, 0, 0⟩ [10]),
         recalc_ipv4_udp_cksum (fun _ => 0) (example_chunk ⟨0, 0, 1, 0, 3, 1, 17, 0, 0⟩ [11]),
         recalc_ipv4_udp_cksum (fun _ => 0)
           (example_chunk ⟨0, 0, 1, 0, 3, 2, 17, 0, 0⟩ [12])]) := by
  refine ⟨⟨_, rfl, ?_⟩, ⟨_, rfl, ?_⟩⟩
  · decide
  · decide

/-- One full cycle of the CNN loop, `RECV_X_CHUNKS`, `PROCESS_CHUNKS`, `SEND_RESULT_CHUNKS`,
when the receive loop returns with the chunks `arr` and the head of `PROCESS_CHUNKS` leaves
them as `sorted` with the bytes `X_bytes`. -/
theorem cnn_cycle (run_cnn_dist : List Nat → List Nat) (rte_ipv4_cksum : List Nat → Nat)
    (rx more : List (List rte_mbuf)) (arr sorted : List rte_mbuf) (e1 : effects)
    (X_bytes : List Nat) (c0 : rte_mbuf)
    (hrecv : recv_send_chunks rx [] [] ⟨0, 0, [], [], []⟩ =
      some ⟨more, arr, arr.map unpack_service_header, e1, false⟩)
    (hpro : process_chunks_prologue arr (arr.map unpack_service_header) =
      some (sorted, sorted.map unpack_service_header, X_bytes))
    (hhead : sorted.head? = some c0) :
    cnn.vnf_run run_cnn_dist rte_ipv4_cksum 3 (cnn.vnf_init rx) =
      some { state := cnn.VNF_STATE.RECV_X_CHUNKS
             X_chunk_buf := []
             X_bytes := X_bytes
             X_service_hdr_buf := []
             rx := more
             e := { e1 with
               tx := e1.tx ++ sorted.map (recalc_ipv4_udp_cksum rte_ipv4_cksum)
               bridge_calls := e1.bridge_calls ++ [X_bytes] }
             force_quit := false } := by
  have hhead2 : (sorted.map unpack_service_header).head? = some (unpack_service_header c0) := by
    rw [List.head?_map, hhead]; rfl
  simp only [cnn.vnf_run, cnn.vnf_step, cnn.vnf_init, cnn.recv_chunks, Bool.false_eq_true,
    if_false, List.length_nil, and_self, if_true, hrecv, hpro, hhead, hhead2, send_chunks,
    pre_send_chunks]

/-- What the CNN loop as written does with a message of three data chunks `c0, c1, c2`
(`msg_type = 0`) that arrives in bursts with chunk 2 as the last buffer of the last burst:
`recv_chunks` runs the forwarding block of the MEICA receive loop, so one full cycle returns
to `RECV_X_CHUNKS` with three buffers allocated and six handed to TX, the three copies in
arrival order and then the three original chunks in `chunk_num` order after
`recalc_ipv4_udp_cksum`; the bridge got the concatenated payload. -/
theorem cnn_cycle_tx_output (c0 c1 c2 : rte_mbuf)
    (h0 : message_chunk 3 c0) (h1 : message_chunk 3 c1) (h2 : message_chunk 3 c2)
    (k0 : (unpack_service_header c0).chunk_num = 0)
    (k1 : (unpack_service_header c1).chunk_num = 1)
    (k2 : (unpack_service_header c2).chunk_num = 2)
    (t0 : (unpack_service_header c0).msg_type = 0)
    (t1 : (unpack_service_header c1).msg_type = 0)
    (t2 : (unpack_service_header c2).msg_type = 0)
    (pre : List (List rte_mbuf)) (lb : List rte_mbuf) (more : List (List rte_mbuf))
    (hperm : (pre.flatten ++ lb).Perm [c0, c1, c2])
    (hlast : lb.getLast? = some c2) :
    (∀ (rx : List (List rte_mbuf)) (cb : List rte_mbuf) (hb : List service_header_cpu)
        (e : effects) (r : recv_outcome),
      cnn.recv_chunks rx cb hb e = some r →
      ∃ consumed : List (List rte_mbuf), rx = consumed ++ r.rx ∧
        r.chunk_buf = cb ++ kept consumed.flatten ∧
        r.service_hdr_buf = hb ++ (kept consumed.flatten).map unpack_service_header ∧
        r.e.allocated = e.allocated + (forwarded consumed.flatten).length ∧
        r.e.tx = e.tx ++ forwarded consumed.flatten ∧
        r.e.freed = e.freed ++ dropped consumed.flatten) ∧
    ∀ (run_cnn_dist : List Nat → List Nat) (rte_ipv4_cksum : List Nat → Nat),
      cnn.vnf_run run_cnn_dist rte_ipv4_cksum 3 (cnn.vnf_init (pre ++ lb :: more)) =
        some { state := cnn.VNF_STATE.RECV_X_CHUNKS
               X_chunk_buf := []
               X_bytes := chunk_payload c0 ++ chunk_payload c1 ++ chunk_payload c2
               X_service_hdr_buf := []
               rx := more
               e := { received := 3
                      allocated := 3
                      tx := (pre.flatten ++ lb).map fast_forward_copy ++
                        [c0, c1, c2].map (recalc_ipv4_udp_cksum rte_ipv4_cksum)
                      freed := []
                      bridge_calls :=
                        [chunk_payload c0 ++ chunk_payload c1 ++ chunk_payload c2] }
               force_quit := false } := by
  refine ⟨?_, ?_⟩
  · intro rx cb hb e r h
    obtain ⟨c, g1, g2, g3, _, g5, g6, g7⟩ := recv_send_chunks_effects rx cb hb e r h
    exact ⟨c, g1, g2, g3, g5, g6, g7⟩
  have hall : ∀ c ∈ [c0, c1, c2],
      message_chunk 3 c ∧ (unpack_service_header c).msg_type = 0 := by
    intro c hc
    simp only [List.mem_cons, List.mem_singleton, List.not_mem_nil, or_false] at hc
    rcases hc with rfl | rfl | rfl
    · exact ⟨h0, t0⟩
    · exact ⟨h1, t1⟩
    · exact ⟨h2, t2⟩
  have hm : ∀ c ∈ pre.flatten ++ lb, message_chunk 3 c :=
    fun c hc => (hall c (hperm.mem_iff.1 hc)).1
  have hlen : (pre.flatten ++ lb).length = 3 := by rw [hperm.length_eq]; rfl
  have hne : lb ≠ [] := by
    intro h
    rw [h] at hlast
    cases hlast
  have hnd : (pre.flatten ++ lb).Nodup := by
    rw [hperm.nodup_iff]
    have d : ([c0, c1, c2].map (fun c => (unpack_service_header c).chunk_num)).Nodup := by
      simp only [List.map_cons, List.map_nil, k0, k1, k2]
      decide
    exact List.Nodup.of_map _ d
  have hc2 : c2 ∈ lb := List.mem_of_mem_getLast? hlast
  have hpre : ∀ m ∈ pre.flatten, ¬ exit_test (unpack_service_header m) := by
    intro m hmp
    have hmc : m ∈ [c0, c1, c2] := hperm.mem_iff.1 (List.mem_append_left _ hmp)
    have hne2 : m ≠ c2 := by
      intro h
      subst h
      exact (List.nodup_append.1 hnd).2.2 hmp hc2
    have ht := (hall m hmc).1.2.2.2.1
    unfold exit_test
    rw [ht]
    simp only [List.mem_cons, List.mem_singleton, List.not_mem_nil, or_false] at hmc
    rcases hmc with rfl | rfl | rfl
    · rw [k0]; decide
    · rw [k1]; decide
    · exact absurd rfl hne2
  have hz : ∀ z, lb.getLast? = some z → exit_test (unpack_service_header z) := by
    intro z hzl
    rw [hlast] at hzl
    cases hzl
    unfold exit_test
    rw [h2.2.2.2.1, k2]
    decide
  have hfw : forwarded (pre.flatten ++ lb) = (pre.flatten ++ lb).map fast_forward_copy :=
    forwarded_of_data _ (fun m hmm =>
      ⟨(hm m hmm).1, (hall m (hperm.mem_iff.1 hmm)).2⟩)
  have hrecv0 : recv_send_chunks (pre ++ lb :: more) [] [] ⟨0, 0, [], [], []⟩ =
      some ⟨more, pre.flatten ++ lb, (pre.flatten ++ lb).map unpack_service_header,
        ⟨3, 3, (pre.flatten ++ lb).map fast_forward_copy, [], []⟩, false⟩ := by
    rw [recv_send_chunks_message pre lb more [] [] _ hne
      (fun m hmm => ⟨(hm m hmm).1, (hm m hmm).2.1⟩) hpre hz, hfw, List.length_map, hlen]
    rfl
  have hkeys : ((pre.flatten ++ lb).map (fun c => (unpack_service_header c).chunk_num)).Perm
      (List.range 3) := by
    have := hperm.map (fun c => (unpack_service_header c).chunk_num)
    simpa only [List.map_cons, List.map_nil, k0, k1, k2] using this
  obtain ⟨sorted, hp1, hp2, hp3, hp4⟩ :=
    process_chunks_prologue_message 3 (by decide) (pre.flatten ++ lb) hlen hm hkeys
  have hsorted : sorted = [c0, c1, c2] := by
    apply eq_of_keys_at_index (fun c => (unpack_service_header c).chunk_num) sorted
      [c0, c1, c2] hp2 hp4
    · intro i hi
      have hi3 : i < 3 := hi
      interval_cases i
      · exact k0
      · exact k1
      · exact k2
    · exact fun c hc => hperm.mem_iff.1 (hp3 c hc)
  subst hsorted
  have hpro : process_chunks_prologue (pre.flatten ++ lb)
      ((pre.flatten ++ lb).map unpack_service_header) =
      some ([c0, c1, c2], [c0, c1, c2].map unpack_service_header,
        chunk_payload c0 ++ chunk_payload c1 ++ chunk_payload c2) := by
    rw [hp1]
    simp [List.append_assoc]
  intro bridge cks
  rw [cnn_cycle bridge cks (pre ++ lb :: more) more (pre.flatten ++ lb) [c0, c1, c2] _ _ c0
    hrecv0 hpro rfl]
  simp

theorem cnn_cycle_tx_output_witness :
    ∃ v, cnn.vnf_run (fun _ => [1]) (fun _ => 0) 3
        (cnn.vnf_init
          [[example_chunk ⟨0, 0, 1, 0, 3, 1, 17, 0, 0⟩ [11]],
           [example_chunk ⟨0, 0, 1, 0, 3, 0, 17, 0, 0⟩ [10],
            example_chunk ⟨0, 0, 1, 0, 3, 2, 17, 0, 0⟩ [12]]]) = some v ∧
      v.e.allocated = 3 ∧ v.e.bridge_calls = [[10, 11, 12]] ∧
      v.e.tx =
        [fast_forward_copy (example_chunk ⟨0, 0, 1, 0, 3, 1, 17, 0, 0⟩ [11]),
         fast_forward_copy (example_chunk ⟨0, 0, 1, 0, 3, 0, 17, 0, 0⟩ [10]),
         fast_forward_copy (example_chunk ⟨0, 0, 1, 0, 3, 2, 17, 0, 0⟩ [12]),
         recalc_ipv4_udp_cksum (fun _ => 0) (example_chunk ⟨0, 0, 1, 0, 3, 0, 17, 0, 0⟩ [10]),
         recalc_ipv4_udp_cksum (fun _ => 0) (example_chunk ⟨0, 0, 1, 0, 3, 1, 17, 0, 0⟩ [11]),
         recalc_ipv4_udp_cksum (fun _ => 0)
           (example_chunk ⟨0, 0, 1, 0, 3, 2, 17, 0, 0⟩ [12])] := by
  have h := (cnn_cycle_tx_output
    (example_chunk ⟨0, 0, 1, 0, 3, 0, 17, 0, 0⟩ [10])
    (example_chunk ⟨0, 0, 1, 0, 3, 1, 17, 0, 0⟩ [11])
    (example_chunk ⟨0, 0, 1, 0, 3, 2, 17, 0, 0⟩ [12])
    (by decide) (by decide) (by decide) (by decide) (by decide) (by decide)
    (by decide) (by decide) (by decide)
    [[example_chunk ⟨0, 0, 1, 0, 3, 1, 17, 0, 0⟩ [11]]]
    [example_chunk ⟨0, 0, 1, 0, 3, 0, 17, 0, 0⟩ [10],
     example_chunk ⟨0, 0, 1, 0, 3, 2, 17, 0, 0⟩ [12]] []
    (by decide) (by decide)).2 (fun _ => [1]) (fun _ => 0)
  exact ⟨_, h, rfl, rfl, rfl⟩

/-! ## The end-of-burst test of the receive loop -/

/-- Once the header buffer is non-empty the receive loop returns on every sequence of bursts
whose data chunks `deepcopy_chunk` copies: `back()` is always defined. -/
theorem recv_send_chunks_returns (rx : List (List rte_mbuf)) :
    ∀ (cb : List rte_mbuf) (hb : List service_header_cpu) (e : effects),
    hb ≠ [] →
    (∀ b ∈ rx, ∀ m ∈ b, is_valid_chunk m = true → (unpack_service_header m).msg_type = 0 →
      forwardable m) →
    ∃ r, recv_send_chunks rx cb hb e = some r := by
  induction rx with
  | nil =>
    intro cb hb e _ _
    exact ⟨_, rfl⟩
  | cons b rest ih =>
    intro cb hb e hne hfw
    have hfr : ∀ b' ∈ rest, ∀ m ∈ b', is_valid_chunk m = true →
        (unpack_service_header m).msg_type = 0 → forwardable m :=
      fun b' hb' => hfw b' (List.mem_cons_of_mem _ hb')
    unfold recv_send_chunks
    by_cases hz : b.length = 0
    · rw [if_pos hz]
      exact ih cb hb e hne hfr
    · rw [if_neg hz, recv_send_burst_eq b _ _ _ (hfw b (List.mem_cons_self _ _))]
      have hne' : hb ++ (kept b).map unpack_service_header ≠ [] := by
        intro h
        exact hne (List.append_eq_nil.1 h).1
      have hlast := List.getLast?_eq_getLast _ hne'
      simp only [hlast]
      split
      · exact ⟨_, rfl⟩
      · exact ih _ _ _ hne' hfr

theorem kept_eq_nil_iff (b : List rte_mbuf) :
    kept b = [] ↔ ∀ m ∈ b, is_valid_chunk m = false := by
  unfold kept
  rw [List.filter_eq_nil_iff]
  constructor
  · intro h m hm
    simpa using h m hm
  · intro h m hm
    simp [h m hm]

theorem first_burst_cons (b : List rte_mbuf) (rest : List (List rte_mbuf)) :
    first_burst (b :: rest) = if b.length = 0 then first_burst rest else some b := by
  unfold first_burst
  rw [List.find?_cons]
  by_cases hz : b.length = 0
  · simp [hz]
  · simp [hz]

/-- The first evaluation of the end-of-burst test decides: started with empty buffers, the
receive loop returns exactly when the first non-empty burst, if there is one, holds a valid
chunk. -/
theorem recv_send_chunks_defined_iff (rx : List (List rte_mbuf)) :
    ∀ (e : effects),
    (∀ b ∈ rx, ∀ m ∈ b, is_valid_chunk m = true → (unpack_service_header m).msg_type = 0 →
      forwardable m) →
    ((∃ r, recv_send_chunks rx [] [] e = some r) ↔
      ∀ b, first_burst rx = some b → ∃ m ∈ b, is_valid_chunk m = true) := by
  induction rx with
  | nil =>
    intro e _
    constructor
    · intro _ b hb
      cases hb
    · intro _
      exact ⟨_, rfl⟩
  | cons b rest ih =>
    intro e hfw
    have hfr : ∀ b' ∈ rest, ∀ m ∈ b', is_valid_chunk m = true →
        (unpack_service_header m).msg_type = 0 → forwardable m :=
      fun b' hb' => hfw b' (List.mem_cons_of_mem _ hb')
    rw [first_burst_cons]
    unfold recv_send_chunks
    by_cases hz : b.length = 0
    · rw [if_pos hz, if_pos hz]
      exact ih e hfr
    · rw [if_neg hz, if_neg hz, recv_send_burst_eq b _ _ _ (hfw b (List.mem_cons_self _ _))]
      by_cases hk : kept b = []
      · have hnone : ([] ++ (kept b).map unpack_service_header).getLast? = none := by
          rw [hk]; rfl
        simp only [hnone]
        constructor
        · rintro ⟨r, hr⟩
          cases hr
        · intro h
          obtain ⟨m, hm, hv⟩ := h b rfl
          rw [(kept_eq_nil_iff b).1 hk m hm] at hv
          cases hv
      · have hne' : [] ++ (kept b).map unpack_service_header ≠ [] := by
          intro h
          exact hk (List.map_eq_nil_iff.1 (List.append_eq_nil.1 h).2)
        have hlast := List.getLast?_eq_getLast _ hne'
        simp only [hlast]
        constructor
        · intro _ b' hb'
          cases hb'
          obtain ⟨m, hm⟩ := List.exists_mem_of_ne_nil _ hk
          unfold kept at hm
          exact ⟨m, (List.mem_filter.1 hm).1, (List.mem_filter.1 hm).2⟩
        · intro _
          split
          · exact ⟨_, rfl⟩
          · exact recv_send_chunks_returns rest _ _ _ hne' hfr

/-- C21: the receive loop of both variants, started with empty buffers, on bursts whose data
chunks `deepcopy_chunk` copies. After the `for` loop over a burst the header buffer is
non-empty exactly when it was non-empty before or the burst held a valid chunk. The loop
returns, every `back()` of its end-of-burst test being defined, exactly when the first
non-empty burst, if there is one, holds a valid chunk. When the first non-empty burst holds
only invalid packets, its `for` loop frees them and leaves both buffers empty, and the test
that follows reads `back()` of the empty header buffer. -/
theorem exit_test_access_defined (rx : List (List rte_mbuf)) (e : effects)
    (hfw : ∀ b ∈ rx, ∀ m ∈ b, is_valid_chunk m = true →
      (unpack_service_header m).msg_type = 0 → forwardable m) :
    (∀ (b cb : List rte_mbuf) (hb : List service_header_cpu) (e1 : effects)
        (t : List rte_mbuf × List service_header_cpu × effects),
      recv_send_burst b cb hb e1 = some t →
      (t.2.1 ≠ [] ↔ hb ≠ [] ∨ ∃ m ∈ b, is_valid_chunk m = true)) ∧
    ((∃ r, recv_send_chunks rx [] [] e = some r) ↔
      ∀ b, first_burst rx = some b → ∃ m ∈ b, is_valid_chunk m = true) ∧
    ((∃ r, cnn.recv_chunks rx [] [] e = some r) ↔
      ∀ b, first_burst rx = some b → ∃ m ∈ b, is_valid_chunk m = true) ∧
    ∀ b, first_burst rx = some b → (∀ m ∈ b, is_valid_chunk m = false) →
      (∀ e1 : effects,
        recv_send_burst b [] [] e1 = some ([], [], { e1 with freed := e1.freed ++ b })) ∧
      recv_send_chunks rx [] [] e = none ∧ cnn.recv_chunks rx [] [] e = none := by
  have hiff := recv_send_chunks_defined_iff rx e hfw
  refine ⟨?_, hiff, hiff, ?_⟩
  · intro b cb hb e1 t ht
    have hf := recv_send_burst_forwardable b cb hb e1 t ht
    rw [recv_send_burst_eq b cb hb e1 hf] at ht
    cases ht
    simp only [ne_eq, List.append_eq_nil, List.map_eq_nil_iff, not_and_or]
    constructor
    · rintro (h | h)
      · exact Or.inl h
      · right
        obtain ⟨m, hm⟩ := List.exists_mem_of_ne_nil _ h
        unfold kept at hm
        exact ⟨m, (List.mem_filter.1 hm).1, (List.mem_filter.1 hm).2⟩
    · rintro (h | ⟨m, hm, hv⟩)
      · exact Or.inl h
      · right
        intro hk
        rw [(kept_eq_nil_iff b).1 hk m hm] at hv
        cases hv
  · intro b hb hinv
    have hnone : recv_send_chunks rx [] [] e = none := by
      cases hr : recv_send_chunks rx [] [] e with
      | none => rfl
      | some r =>
        obtain ⟨m, hm, hv⟩ := hiff.1 ⟨r, hr⟩ b hb
        rw [hinv m hm] at hv
        cases hv
    refine ⟨?_, hnone, hnone⟩
    intro e1
    rw [recv_send_burst_eq b [] [] e1 (fun m hm hv => by rw [hinv m hm] at hv; cases hv)]
    have hk : kept b = [] := (kept_eq_nil_iff b).2 hinv
    have hd : dropped b = b := by
      unfold dropped
      exact List.filter_eq_self.2 (fun m hm => by simp [hinv m hm])
    simp [hk, hd, forwarded]

theorem exit_test_access_defined_witness :
    recv_send_chunks
        [[], [⟨[0, 0, 0, 0, 0, 1, 0, 0, 0, 0, 0, 2, 8, 6, 0, 1, 8, 0, 6, 4, 0, 1], 22, 1, 128, []⟩],
         [example_chunk ⟨0, 0, 1, 0, 1, 0, 17, 0, 0⟩ [7]]] [] [] ⟨0, 0, [], [], []⟩ = none ∧
    ∃ r, recv_send_chunks
        [[], [⟨[0, 0, 0, 0, 0, 1, 0, 0, 0, 0, 0, 2, 8, 6, 0, 1, 8, 0, 6, 4, 0, 1], 22, 1, 128, []⟩,
              example_chunk ⟨0, 0, 1, 0, 1, 0, 17, 0, 0⟩ [7]]] [] [] ⟨0, 0, [], [], []⟩ =
      some r := by
  constructor
  · exact ((exit_test_access_defined
      [[], [⟨[0, 0, 0, 0, 0, 1, 0, 0, 0, 0, 0, 2, 8, 6, 0, 1, 8, 0, 6, 4, 0, 1], 22, 1, 128, []⟩],
       [example_chunk ⟨0, 0, 1, 0, 1, 0, 17, 0, 0⟩ [7]]] ⟨0, 0, [], [], []⟩
      (by decide)).2.2.2 _ rfl (by decide)).2.1
  · exact (exit_test_access_defined
      [[], [⟨[0, 0, 0, 0, 0, 1, 0, 0, 0, 0, 0, 2, 8, 6, 0, 1, 8, 0, 6, 4, 0, 1], 22, 1, 128, []⟩,
            example_chunk ⟨0, 0, 1, 0, 1, 0, 17, 0, 0⟩ [7]]] ⟨0, 0, [], [], []⟩
      (by decide)).2.1.2 (fun b hb => by
        cases hb
        exact ⟨example_chunk ⟨0, 0, 1, 0, 1, 0, 17, 0, 0⟩ [7], by simp, by decide⟩)

/-! ## The skeleton assertions of `create_uW_chunk` -/

theorem create_uW_chunk_asserts_iff (pool : Nat) (m : rte_mbuf) :
    create_uW_chunk_asserts pool m = true ↔ m.data_len = 1458 ∧ m.pkt_len = 1458 := by
  unfold create_uW_chunk_asserts
  constructor
  · intro h
    simp only [Bool.and_eq_true, decide_eq_true_eq] at h
    exact h.1
  · rintro ⟨h1, h2⟩
    have h1' : m.data.length = 1458 := h1
    simp only [Bool.and_eq_true, decide_eq_true_eq]
    refine ⟨⟨h1, h2⟩, ?_⟩
    cases hd : deepcopy_chunk pool m with
    | none => rfl
    | some c =>
      rw [deepcopy_chunk_eq pool (forwardable_of_deepcopy_chunk pool m c hd).2 m
        (forwardable_of_deepcopy_chunk pool m c hd).1] at hd
      cases hd
      simp only [rte_pktmbuf_trim, rte_mbuf.data_len, MAX_CHUNK_SIZE, h1', h2]
      rw [if_neg (by omega)]
      simp only [List.length_take, h1', Bool.and_eq_true, decide_eq_true_eq]
      exact ⟨by decide, trivial⟩

theorem create_uW_chunk_none (pool : Nat) (m : rte_mbuf) (hdr : service_header_cpu)
    (payload : List Nat) (h : create_uW_chunk_asserts pool m = false) :
    create_uW_chunk pool m hdr payload = none := by
  have hn : ¬ (m.data_len = 1458 ∧ m.pkt_len = 1458) := by
    intro h2
    rw [(create_uW_chunk_asserts_iff pool m).2 h2] at h
    cases h
  unfold create_uW_chunk
  by_cases h1 : m.data_len = 1458
  · have h2 : m.pkt_len ≠ 1458 := fun h2 => hn ⟨h1, h2⟩
    rw [if_neg (by simp [h1]), if_pos h2]
  · rw [if_pos h1]

/-- A non-empty payload is synthesized exactly when the assertions on the skeleton hold and
the pool has a buffer for every chunk. -/
theorem update_uW_chunk_buf_some_iff (old : List rte_mbuf) (m : rte_mbuf)
    (tmpl : service_header_cpu) (fin : Bool) (it : Nat) (bytes : List Nat)
    (hf : forwardable m) (hne : bytes ≠ []) :
    (∃ out, update_uW_chunk_buf old m tmpl fin it bytes = some out) ↔
      create_uW_chunk_asserts FAST_FORWARD_POOL_SIZE m = true ∧
        bytes.length ≤ FAST_FORWARD_POOL_SIZE * MAX_CHUNK_SIZE := by
  constructor
  · rintro ⟨out, hout⟩
    constructor
    · by_contra hc
      have hc' : create_uW_chunk_asserts FAST_FORWARD_POOL_SIZE m = false := by simpa using hc
      have hpos : 0 < bytes.length := List.length_pos.2 hne
      unfold update_uW_chunk_buf at hout
      simp only [update_uW_chunk_loop, if_pos hpos, create_uW_chunk_none _ m _ _ hc'] at hout
      cases hout
    · by_contra hc
      rw [update_uW_chunk_buf_exhausted old m tmpl fin it bytes (by omega)] at hout
      cases hout
  · rintro ⟨h, hpool⟩
    obtain ⟨h1, h2⟩ := (create_uW_chunk_asserts_iff _ m).1 h
    exact ⟨_, update_uW_chunk_buf_eq old m tmpl fin it bytes (fun _ => ⟨h1, h2, hf.1, hf.2⟩)
      hpool⟩

/-- The MEICA `process_chunks` of a leader (no uW chunks buffered) when the bridge returns a
non-empty uW payload behind its two leading bytes. -/
theorem process_chunks_leader (bridge : List Nat → List Nat → Nat → Nat → List Nat)
    (m : rte_mbuf) (tmpl : service_header_cpu) (X_bytes : List Nat)
    (uh : List service_header_cpu) (max_rounds : Nat)
    (hlen : 2 < (bridge X_bytes [] 0 max_rounds).length) :
    ∃ (fin : Bool) (it : Nat),
      process_chunks bridge m tmpl X_bytes [] uh max_rounds =
        update_uW_chunk_buf [] m tmpl fin it ((bridge X_bytes [] 0 max_rounds).drop 2) ∧
      (bridge X_bytes [] 0 max_rounds).drop 2 ≠ [] := by
  generalize hb : bridge X_bytes [] 0 max_rounds = b at hlen
  obtain ⟨b0, hb0⟩ : ∃ b0, b[0]? = some b0 := ⟨b[0], List.getElem?_eq_getElem (by omega)⟩
  obtain ⟨b1, hb1⟩ : ∃ b1, b[1]? = some b1 := ⟨b[1], List.getElem?_eq_getElem (by omega)⟩
  refine ⟨decide (b0 % 256 = 1), b1 % 256, ?_, ?_⟩
  · unfold process_chunks
    simp only [List.length_nil, ne_eq, not_true_eq_false, if_false, hb, hb0, hb1]
  · intro h
    have := congrArg List.length h
    rw [List.length_drop, List.length_nil] at this
    omega

/-- C22: the assertions of `create_uW_chunk` hold exactly when the skeleton has `data_len`
and `pkt_len` 1458, and `create_uW_chunk` stops at them otherwise. For a complete X message
of `n` chunks buffered in any order, with `c0` the chunk of `chunk_num` 0: the head of
`PROCESS_CHUNKS` makes `c0` the first chunk, which is the skeleton, and the completeness
check passes whatever the size of `c0`. When the bridge returns a non-empty uW payload, the
`PROCESS_CHUNKS` turn of a network function without buffered uW chunks goes through exactly
when the assertions hold on `c0` and the pool has a buffer for every chunk of the payload; if
`c0` carries fewer than 1400 payload bytes the assertions are violated and the turn ends
there. -/
theorem skeleton_assertion (n : Nat) (hn : 1 ≤ n) (arr : List rte_mbuf)
    (hlen : arr.length = n) (hm : ∀ c ∈ arr, message_chunk n c)
    (hperm : (arr.map (fun c => (unpack_service_header c).chunk_num)).Perm (List.range n))
    (c0 : rte_mbuf) (hc0 : c0 ∈ arr) (k0 : (unpack_service_header c0).chunk_num = 0) :
    (∀ (pool : Nat) (m : rte_mbuf),
      create_uW_chunk_asserts pool m = true ↔ m.data_len = 1458 ∧ m.pkt_len = 1458) ∧
    (∀ (pool : Nat) (m : rte_mbuf) (hdr : service_header_cpu) (payload : List Nat),
      create_uW_chunk_asserts pool m = false → create_uW_chunk pool m hdr payload = none) ∧
    ∃ sorted : List rte_mbuf,
      process_chunks_prologue arr (arr.map unpack_service_header) =
        some (sorted, sorted.map unpack_service_header, (sorted.map chunk_payload).flatten) ∧
      sorted.head? = some c0 ∧
      check_service_hdr_buf (sorted.map unpack_service_header) = some true ∧
      ∀ (run_meica_dist : List Nat → List Nat → Nat → Nat → List Nat)
        (rte_ipv4_cksum : List Nat → Nat) (is_leader : Bool) (max_rounds : Nat)
        (X_bytes : List Nat) (uh : List service_header_cpu) (rx : List (List rte_mbuf))
        (e : effects),
        2 < (run_meica_dist (sorted.map chunk_payload).flatten [] 0 max_rounds).length →
        ((∃ v, vnf_step run_meica_dist rte_ipv4_cksum is_leader max_rounds
            { state := VNF_STATE.PROCESS_CHUNKS
              X_chunk_buf := arr
              uW_chunk_buf := []
              X_bytes := X_bytes
              X_service_hdr_buf := arr.map unpack_service_header
              uW_service_hdr_buf := uh
              rx := rx
              e := e
              force_quit := false } = some v) ↔
          create_uW_chunk_asserts FAST_FORWARD_POOL_SIZE c0 = true ∧
            (run_meica_dist (sorted.map chunk_payload).flatten [] 0 max_rounds).length ≤
              2 + FAST_FORWARD_POOL_SIZE * MAX_CHUNK_SIZE) ∧
        ((chunk_payload c0).length < 1400 →
          create_uW_chunk_asserts FAST_FORWARD_POOL_SIZE c0 = false ∧
          vnf_step run_meica_dist rte_ipv4_cksum is_leader max_rounds
            { state := VNF_STATE.PROCESS_CHUNKS
              X_chunk_buf := arr
              uW_chunk_buf := []
              X_bytes := X_bytes
              X_service_hdr_buf := arr.map unpack_service_header
              uW_service_hdr_buf := uh
              rx := rx
              e := e
              force_quit := false } = none) := by
  refine ⟨create_uW_chunk_asserts_iff, create_uW_chunk_none, ?_⟩
  obtain ⟨sorted, hp1, hp2, hp3, hp4⟩ :=
    process_chunks_prologue_message n hn arr hlen hm hperm
  have hpos : 0 < sorted.length := by omega
  have hnd : (arr.map (fun c => (unpack_service_header c).chunk_num)).Nodup :=
    hperm.nodup_iff.2 (List.nodup_range n)
  have h0 : sorted[0] = c0 :=
    List.inj_on_of_nodup_map hnd (hp3 _ (List.getElem_mem hpos)) hc0
      ((hp4 0 hpos).trans k0.symm)
  have hhead : sorted.head? = some c0 := by
    rw [List.head?_eq_getElem?, List.getElem?_eq_getElem hpos, h0]
  have hhead2 : (sorted.map unpack_service_header).head? = some (unpack_service_header c0) := by
    rw [List.head?_map, hhead]; rfl
  refine ⟨sorted, hp1, hhead, (process_chunks_prologue_length _ _ _ _ _ hp1).2.2, ?_⟩
  intro bridge cks is_leader mr xb uh rx e hb
  obtain ⟨fin, it, hpc, hne⟩ := process_chunks_leader bridge c0 (unpack_service_header c0)
    (sorted.map chunk_payload).flatten uh mr hb
  have hfw : forwardable c0 := (hm c0 hc0).2.1
  have hiff := update_uW_chunk_buf_some_iff [] c0 (unpack_service_header c0) fin it _ hfw hne
  have hstep : ∀ r, update_uW_chunk_buf [] c0 (unpack_service_header c0) fin it
        ((bridge (sorted.map chunk_payload).flatten [] 0 mr).drop 2) = r →
      ((∃ v, vnf_step bridge cks is_leader mr
          { state := VNF_STATE.PROCESS_CHUNKS
            X_chunk_buf := arr
            uW_chunk_buf := []
            X_bytes := xb
            X_service_hdr_buf := arr.map unpack_service_header
            uW_service_hdr_buf := uh
            rx := rx
            e := e
            force_quit := false } = some v) ↔ ∃ out, r = some out) := by
    intro r hr
    simp only [vnf_step, Bool.false_eq_true, if_false, hp1, hhead, hhead2, hpc, hr]
    cases r with
    | none => simp
    | some out => simp
  have hdrop : ((bridge (sorted.map chunk_payload).flatten [] 0 mr).drop 2).length ≤
        FAST_FORWARD_POOL_SIZE * MAX_CHUNK_SIZE ↔
      (bridge (sorted.map chunk_payload).flatten [] 0 mr).length ≤
        2 + FAST_FORWARD_POOL_SIZE * MAX_CHUNK_SIZE := by
    rw [List.length_drop]
    omega
  have hmain := ((hstep _ rfl).trans hiff).trans (and_congr_right (fun _ => hdrop))
  refine ⟨hmain, ?_⟩
  intro hshort
  have hfalse : create_uW_chunk_asserts FAST_FORWARD_POOL_SIZE c0 = false := by
    cases hc : create_uW_chunk_asserts FAST_FORWARD_POOL_SIZE c0 with
    | false => rfl
    | true =>
      have h1 := ((create_uW_chunk_asserts_iff _ c0).1 hc).1
      have hl : (chunk_payload c0).length = c0.data_len - 58 := by
        unfold chunk_payload rte_mbuf.data_len
        rw [List.length_drop]
        rfl
      omega
  refine ⟨hfalse, ?_⟩
  cases hv : vnf_step bridge cks is_leader mr
      { state := VNF_STATE.PROCESS_CHUNKS
        X_chunk_buf := arr
        uW_chunk_buf := []
        X_bytes := xb
        X_service_hdr_buf := arr.map unpack_service_header
        uW_service_hdr_buf := uh
        rx := rx
        e := e
        force_quit := false } with
  | none => rfl
  | some v =>
    have := (hmain.1 ⟨v, hv⟩).1
    rw [hfalse] at this
    cases this

theorem skeleton_assertion_witness :
    check_service_hdr_buf
        ([example_chunk ⟨0, 0, 1, 0, 1, 0, 19, 0, 0⟩ [1, 2, 3]].map unpack_service_header) =
      some true ∧
    (example_chunk ⟨0, 0, 1, 0, 1, 0, 19, 0, 0⟩ [1, 2, 3]).data_len = 61 ∧
    vnf_step (fun _ _ _ _ => [0, 1, 5]) (fun _ => 0) true 4
        { state := VNF_STATE.PROCESS_CHUNKS
          X_chunk_buf := [example_chunk ⟨0, 0, 1, 0, 1, 0, 19, 0, 0⟩ [1, 2, 3]]
          uW_chunk_buf := []
          X_bytes := []
          X_service_hdr_buf :=
            [example_chunk ⟨0, 0, 1, 0, 1, 0, 19, 0, 0⟩ [1, 2, 3]].map unpack_service_header
          uW_service_hdr_buf := []
          rx := []
          e := ⟨1, 1, [], [], []⟩
          force_quit := false } = none ∧
    ∃ v, vnf_step (fun _ _ _ _ => [0, 1]) (fun _ => 0) true 4
        { state := VNF_STATE.PROCESS_CHUNKS
          X_chunk_buf := [example_chunk ⟨0, 0, 1, 0, 1, 0, 19, 0, 0⟩ [1, 2, 3]]
          uW_chunk_buf := []
          X_bytes := []
          X_service_hdr_buf :=
            [example_chunk ⟨0, 0, 1, 0, 1, 0, 19, 0, 0⟩ [1, 2, 3]].map unpack_service_header
          uW_service_hdr_buf := []
          rx := []
          e := ⟨1, 1, [], [], []⟩
          force_quit := false } = some v ∧ v.uW_chunk_buf = [] := by
  obtain ⟨sorted, _, _, _, hall⟩ :=
    (skeleton_assertion 1 (by decide) [example_chunk ⟨0, 0, 1, 0, 1, 0, 19, 0, 0⟩ [1, 2, 3]]
      rfl (by decide) (by decide) (example_chunk ⟨0, 0, 1, 0, 1, 0, 19, 0, 0⟩ [1, 2, 3])
      (by decide) (by decide)).2.2
  refine ⟨by decide, by decide, ?_, ⟨_, rfl, by decide⟩⟩
  exact ((hall (fun _ _ _ _ => [0, 1, 5]) (fun _ => 0) true 4 [] [] [] ⟨1, 1, [], [], []⟩
    (Nat.lt_succ_self 2)).2 (by decide)).2

end meica
